import Mathlib

/-!
# Output-processing pipeline of a quantized GEMM

A shallow embedding of `include/fbgemm/OutputProcessing-inl.h`: the integer
requantization stage `ReQuantizeOutput` (generic scalar path `f` with
`inst_set_t::anyarch`, vectorized kernel `f_`) and the float dequantization
stage `ReQuantizeForFloat`.

Conventions of the embedding.

* `int32_t` values are `Int32`: an integer in `[-2^31, 2^31)`; arithmetic on
  them wraps modulo `2^32` (what the vector instructions do and what the scalar
  code compiles to on x86-64).
* `long` is 64 bits wide (LP64); `lrintf + C_zero_point_` wraps modulo `2^64`.
* `float` is IEEE-754 binary32, `F32`.  A finite value is a sign and a
  magnitude counted in units of `2^-149` (the smallest subnormal), so every
  finite binary32 value is a natural number of units below `2^128 * 2^149`.
  Arithmetic rounds to nearest, ties to even (default MXCSR / fenv mode).
* Buffers are functions from an element index to a value, block coordinates and
  strides are natural numbers (they index a row-major matrix).  The accumulator
  buffer and the output buffer are distinct objects.
* `assert` is active: a failed assertion aborts the call
  (`Except.error Abort.assertion`); an integer division by zero aborts it as
  well (`Abort.division_by_zero`).
-/

namespace Fbgemm

/-! ## Machine integers -/

/-- Two's-complement reading of an integer as a 32-bit signed value. -/
def wrap32 (x : Int) : Int := (x + 2147483648) % 4294967296 - 2147483648

/-- Two's-complement reading of an integer as a 16-bit signed value. -/
def wrap16 (x : Int) : Int := (x + 32768) % 65536 - 32768

/-- Two's-complement reading of an integer as a 64-bit signed value (`long`). -/
def wrap64 (x : Int) : Int :=
  (x + 9223372036854775808) % 18446744073709551616 - 9223372036854775808

/-- Conversion of an integer to `uint8_t` (reduction modulo 256), the implicit
conversion performed by the store `out[...] = <long>`. -/
def toUInt8 (x : Int) : Int := x % 256

/-- Signed saturation to 16 bits (PACKSSDW, PADDSW). -/
def sat16 (x : Int) : Int := max (-32768) (min 32767 x)

/-- Unsigned saturation to 8 bits (PACKUSWB). -/
def satu8 (x : Int) : Int := max 0 (min 255 x)

/-- The type `int32_t`. -/
structure Int32 where
  val : Int
  lo : -2147483648 ≤ val
  hi : val < 2147483648
deriving DecidableEq

/-- Value of type `int32_t` with the given bit pattern. -/
def Int32.wrap (x : Int) : Int32 :=
  ⟨wrap32 x, by unfold wrap32; omega, by unfold wrap32; omega⟩

instance : Add Int32 := ⟨fun a b => Int32.wrap (a.val + b.val)⟩
instance : Sub Int32 := ⟨fun a b => Int32.wrap (a.val - b.val)⟩
instance : Mul Int32 := ⟨fun a b => Int32.wrap (a.val * b.val)⟩
instance (n : Nat) : OfNat Int32 n := ⟨Int32.wrap n⟩

/-! ## IEEE-754 binary32 -/

/-- A binary32 value.  `fin neg n _` is the finite value `(-1)^neg * n * 2^-149`. -/
inductive F32 where
  | fin (neg : Bool) (n : Nat) (h : n < 2 ^ 128 * 2 ^ 149)
  | inf (neg : Bool)
  | nan
deriving DecidableEq

/-- Binary search for the bit length, `k` levels: correct for `a < 2^(2^k)`. -/
def bitlenAux : Nat → Nat → Nat → Nat
  | 0, a, acc => if a = 0 then acc else acc + 1
  | k + 1, a, acc =>
    if a >>> 2 ^ k = 0 then bitlenAux k a acc else bitlenAux k (a >>> 2 ^ k) (acc + 2 ^ k)

/-- Number of significant bits of `a` (for `a < 2^1024`, which covers the exact
sum or product of any two finite binary32 magnitudes). -/
def bitlen (a : Nat) : Nat := bitlenAux 10 a 0

/-- The quotient `a / 2^d` rounded to the nearest integer, ties to even. -/
def rneDiv (a d : Nat) : Nat :=
  let q := a >>> d
  let r := a - q <<< d
  if 2 * r < 1 <<< d then q
  else if 1 <<< d < 2 * r then q + 1
  else if q % 2 = 0 then q else q + 1

/-- Rounding of the exact magnitude `a / 2^s` (in units of `2^-149`) to the
binary32 grid: at most 24 significant bits are kept and nothing below one unit. -/
def roundMag (a s : Nat) : Nat :=
  let d := max s (bitlen a - 24)
  rneDiv a d <<< (d - s)

/-- The binary32 value nearest to `(-1)^neg * a / 2^s` units; overflow gives infinity. -/
def F32.ofMag (neg : Bool) (a s : Nat) : F32 :=
  if h : roundMag a s < 2 ^ 128 * 2 ^ 149 then F32.fin neg (roundMag a s) h else F32.inf neg

/-- Conversion `int32_t -> float` (CVTDQ2PS, and the implicit conversion in
`raw * C_multiplier_[...]`). -/
def F32.ofInt32 (x : Int32) : F32 :=
  F32.ofMag (decide (x.val < 0)) (x.val.natAbs <<< 149) 0

/-- Binary32 multiplication (MULPS, `float * float`). -/
def F32.mul : F32 → F32 → F32
  | .fin s1 n1 _, .fin s2 n2 _ => F32.ofMag (xor s1 s2) (n1 * n2) 149
  | .fin s1 n1 _, .inf s2 => if n1 = 0 then .nan else .inf (xor s1 s2)
  | .inf s1, .fin s2 n2 _ => if n2 = 0 then .nan else .inf (xor s1 s2)
  | .inf s1, .inf s2 => .inf (xor s1 s2)
  | _, _ => .nan

/-- Signed number of units of a finite value. -/
def F32.units (neg : Bool) (n : Nat) : Int := if neg then -(n : Int) else (n : Int)

/-- Binary32 addition (`float += float`). -/
def F32.add : F32 → F32 → F32
  | .fin s1 n1 _, .fin s2 n2 _ =>
    let v := F32.units s1 n1 + F32.units s2 n2
    if v = 0 then F32.ofMag (s1 && s2) 0 0 else F32.ofMag (decide (v < 0)) v.natAbs 0
  | .fin _ _ _, .inf s2 => .inf s2
  | .inf s1, .fin _ _ _ => .inf s1
  | .inf s1, .inf s2 => if s1 = s2 then .inf s1 else .nan
  | _, _ => .nan

/-- The comparison `a < b` on binary32 (false as soon as one side is a NaN). -/
def F32.lt : F32 → F32 → Bool
  | .fin s1 n1 _, .fin s2 n2 _ => decide (F32.units s1 n1 < F32.units s2 n2)
  | .fin _ _ _, .inf s2 => !s2
  | .inf s1, .fin _ _ _ => s1
  | .inf s1, .inf s2 => s1 && !s2
  | _, _ => false

/-- The constant `0.0f`. -/
def F32.zero : F32 := .fin false 0 (by decide)

/-- The function `std::max<float>(a, b)`, that is `(a < b) ? b : a`. -/
def F32.std_max (a b : F32) : F32 := if F32.lt a b then b else a

/-- The function `std::lrintf` on x86-64: the argument rounded to the nearest
integer, ties to even; when that integer does not fit in `long`, or the argument
is infinite or a NaN, the result is `LONG_MIN` (the "integer indefinite" value
of CVTSS2SI). -/
def lrintf : F32 → Int
  | .fin neg n _ =>
    let r := F32.units neg (rneDiv n 149)
    if -9223372036854775808 ≤ r ∧ r < 9223372036854775808 then r else -9223372036854775808
  | _ => -9223372036854775808

/-- One lane of CVTPS2DQ: the argument rounded to the nearest integer, ties to
even; when that integer does not fit in `int32_t`, or the argument is infinite
or a NaN, the result is `INT32_MIN`. -/
def cvtps_epi32 : F32 → Int32
  | .fin neg n _ =>
    let r := F32.units neg (rneDiv n 149)
    if h : -2147483648 ≤ r ∧ r < 2147483648 then ⟨r, h.1, h.2⟩
    else ⟨-2147483648, by decide, by decide⟩
  | _ => ⟨-2147483648, by decide, by decide⟩

/-! ## Control flow -/

/-- The loop `for (; j < bound; j += step) s = body(j, s);` started at `j` with
state `s`; it returns the final value of `j` and the final state.  The first
argument bounds the number of iterations. -/
def forLoop {σ : Type} (body : Nat → σ → σ) (bound step : Nat) : Nat → Nat → σ → Nat × σ
  | 0, j, s => (j, s)
  | fuel + 1, j, s =>
    if j < bound then forLoop body bound step fuel (j + step) (body j s) else (j, s)

/-- Reasons for which a call does not return. -/
inductive Abort where
  | assertion
  | division_by_zero
deriving DecidableEq

/-! ## Data model -/

/-- The enumeration `QuantizationGranularity`. -/
inductive QuantizationGranularity where
  | TENSOR
  | GROUP
  | OUT_CHANNEL
deriving DecidableEq

/-- The enumeration `inst_set_t`. -/
inductive inst_set_t where
  | anyarch
  | avx2
  | avx512
deriving DecidableEq

/-- The block descriptor `block_type_t`. -/
structure block_type_t where
  row_start : Nat
  row_size : Nat
  col_start : Nat
  col_size : Nat
deriving DecidableEq

/-- The next stage of the chain, `nextop_.f`: it receives the output buffer, the
input buffer, the block and the two strides, and produces the result of the call
(its return value, together with whatever it does to memory). -/
abbrev NextOp (α β ρ : Type) := (Nat → α) → (Nat → β) → block_type_t → Nat → Nat → ρ

/-- The stage `ReQuantizeOutput<FUSE_RELU, Q_GRAN, uint8_t, int32_t, nextOPType>`:
template parameters and data members.  A pointer that may be null is an
`Option`. -/
structure ReQuantizeOutput where
  FUSE_RELU : Bool
  Q_GRAN : QuantizationGranularity
  C_multiplier_ : Nat → F32
  C_zero_point_ : Int32
  Aq_zero_point_ : Int32
  Bq_zero_point_ : Nat → Int32
  q_row_offsets_ : Option (Nat → Int32)
  q_col_offsets_ : Nat → Int32
  bias_ : Option (Nat → Int32)
  ncols_ : Nat
  groups_ : Nat

/-- The stage `ReQuantizeForFloat<FUSE_RELU, Q_GRAN, float, int32_t, nextOPType>`:
template parameters and data members.  The row offsets are read without a null
test, so they are a plain array here. -/
structure ReQuantizeForFloat where
  FUSE_RELU : Bool
  Q_GRAN : QuantizationGranularity
  Aq_scale_ : F32
  Bq_scale_ : Nat → F32
  Aq_zero_point_ : Int32
  Bq_zero_point_ : Nat → Int32
  q_row_offsets_ : Nat → Int32
  q_col_offsets_ : Nat → Int32
  bias_ : Option (Nat → F32)
  ncols_ : Nat
  groups_ : Nat

/-! ## AVX2 registers and intrinsics

A 256-bit register is a function from the lane number to the lane value; which
lanes exist depends on the view: 8 lanes of `int32_t`, 8 lanes of `float`,
16 lanes of `int16_t` (as integers in `[-2^15, 2^15)`), or 32 lanes of
`uint8_t` (as integers in `[0, 256)`). -/

/-- The type `__m256i` viewed as 8 lanes of `int32_t`. -/
abbrev m256i_epi32 := Nat → Int32
/-- The type `__m256`: 8 lanes of `float`. -/
abbrev m256 := Nat → F32
/-- The type `__m256i` viewed as 16 lanes of `int16_t`. -/
abbrev m256i_epi16 := Nat → Int
/-- The type `__m256i` viewed as 32 unsigned bytes. -/
abbrev m256i_epi8 := Nat → Int

/-- The constant `VLEN` of `f_`. -/
abbrev VLEN : Nat := 8

def _mm256_set1_epi32 (a : Int32) : m256i_epi32 := fun _ => a
def _mm256_set1_epi16 (a : Int) : m256i_epi16 := fun _ => wrap16 a
def _mm256_set1_epi8 (a : Int) : m256i_epi8 := fun _ => a % 256
def _mm256_set1_ps (a : F32) : m256 := fun _ => a

/-- Intrinsic `_mm256_set_epi32(e7, ..., e0)`: lane `k` holds `ek`. -/
def _mm256_set_epi32 (e7 e6 e5 e4 e3 e2 e1 e0 : Int32) : m256i_epi32 := fun k =>
  match k with
  | 0 => e0 | 1 => e1 | 2 => e2 | 3 => e3 | 4 => e4 | 5 => e5 | 6 => e6 | _ => e7

/-- Zero register, viewed as 8 lanes of `int32_t`. -/
def _mm256_setzero_si256 : m256i_epi32 := fun _ => 0
/-- Zero register, viewed as 16 lanes of `int16_t`. -/
def _mm256_setzero_si256_epi16 : m256i_epi16 := fun _ => 0

/-- Unaligned load of 8 `int32_t` starting at element `off` of `p`. -/
def _mm256_loadu_si256 (p : Nat → Int32) (off : Nat) : m256i_epi32 := fun k => p (off + k)
/-- Unaligned load of 8 `float` starting at element `off` of `p`. -/
def _mm256_loadu_ps (p : Nat → F32) (off : Nat) : m256 := fun k => p (off + k)

def _mm256_mullo_epi32 (a b : m256i_epi32) : m256i_epi32 := fun k => a k * b k
def _mm256_sub_epi32 (a b : m256i_epi32) : m256i_epi32 := fun k => a k - b k
def _mm256_add_epi32 (a b : m256i_epi32) : m256i_epi32 := fun k => a k + b k
def _mm256_cvtepi32_ps (a : m256i_epi32) : m256 := fun k => F32.ofInt32 (a k)
def _mm256_mul_ps (a b : m256) : m256 := fun k => F32.mul (a k) (b k)
def _mm256_cvtps_epi32 (a : m256) : m256i_epi32 := fun k => cvtps_epi32 (a k)

/-- PACKSSDW on 256 bits: in each 128-bit half, the four dwords of `a` then the
four dwords of `b`, each saturated to `int16_t`. -/
def _mm256_packs_epi32 (a b : m256i_epi32) : m256i_epi16 := fun k =>
  if k % 8 < 4 then sat16 (a (4 * (k / 8) + k % 8)).val
  else sat16 (b (4 * (k / 8) + (k % 8 - 4))).val

/-- PADDSW: lane-wise addition of `int16_t` with signed saturation. -/
def _mm256_adds_epi16 (a b : m256i_epi16) : m256i_epi16 := fun k => sat16 (a k + b k)

/-- PACKUSWB on 256 bits: in each 128-bit half, the eight words of `a` then the
eight words of `b`, each saturated to `uint8_t`. -/
def _mm256_packus_epi16 (a b : m256i_epi16) : m256i_epi8 := fun k =>
  if k % 16 < 8 then satu8 (a (8 * (k / 16) + k % 16))
  else satu8 (b (8 * (k / 16) + (k % 16 - 8)))

def _mm256_min_epu8 (a b : m256i_epi8) : m256i_epi8 := fun k => min (a k) (b k)
def _mm256_max_epu8 (a b : m256i_epi8) : m256i_epi8 := fun k => max (a k) (b k)

/-- VPERMD applied to a register of bytes: dword `d` of the result is dword
`idx[d] mod 8` of `a`, so byte `k` of the result is byte `4 * (idx[k / 4] mod 8) + k mod 4`. -/
def _mm256_permutevar8x32_epi32 (a : m256i_epi8) (idx : m256i_epi32) : m256i_epi8 := fun k =>
  a (4 * ((idx (k / 4)).val % 8).toNat + k % 4)

/-- The low 128 bits of a register (a view, no instruction). -/
def _mm256_castsi256_si128 (a : m256i_epi8) : m256i_epi8 := a

/-- Unaligned store of the 32 bytes of `v` at `out + off`. -/
def _mm256_storeu_si256 (out : Nat → Int) (off : Nat) (v : m256i_epi8) : Nat → Int := fun p =>
  if off ≤ p ∧ p < off + 32 then v (p - off) else out p

/-- Store of the low 8 bytes of `v` at `out + off`. -/
def _mm_storel_epi64 (out : Nat → Int) (off : Nat) (v : m256i_epi8) : Nat → Int := fun p =>
  if off ≤ p ∧ p < off + 8 then v (p - off) else out p

/-! ## `ReQuantizeOutput::f_`: the AVX2 kernel -/

/-- Array behind a pointer that the assertions of `f_` have shown not to be
null at every place where it is read. -/
def deref (p : Option (Nat → Int32)) : Nat → Int32 :=
  match p with
  | some a => a
  | none => fun _ => 0

/-- The `permute_mask_v` of `f_`. -/
def permute_mask_v : m256i_epi32 := _mm256_set_epi32 7 3 6 2 5 1 4 0

/-- Body of the loop `for (; j < col_start + col_size / 32 * 32; j += 32)` of
`f_`, for row `i`; the state is `(row_offset_v, out)`. -/
def ReQuantizeOutput.f_body32 (self : ReQuantizeOutput) (A_SYMMETRIC B_SYMMETRIC HAS_BIAS : Bool)
    (inp : Nat → Int32) (block : block_type_t) (ld_out ld_in quant_param_idx i j : Nat)
    (st : m256i_epi32 × (Nat → Int)) : m256i_epi32 × (Nat → Int) :=
  let multiplier_v := _mm256_set1_ps (self.C_multiplier_ quant_param_idx)
  let min_v := _mm256_set1_epi8 0
  let max_v := _mm256_set1_epi8 255
  let A_zero_point_v := _mm256_set1_epi32 self.Aq_zero_point_
  let C_zero_point_epi16_v := _mm256_set1_epi16 self.C_zero_point_.val
  let C_zero_point_epi8_v := _mm256_set1_epi8 self.C_zero_point_.val
  let OUT_CHANNEL : Bool := decide (self.Q_GRAN = QuantizationGranularity.OUT_CHANNEL)
  let q_row_offset_i := _mm256_set1_epi32 (deref self.q_row_offsets_ (i - block.row_start))
  let row_offset_v := st.1
  let x_v := _mm256_loadu_si256 inp ((i - block.row_start) * ld_in + (j - block.col_start))
  let y_v := _mm256_loadu_si256 inp ((i - block.row_start) * ld_in + (j - block.col_start) + 1 * VLEN)
  let z_v := _mm256_loadu_si256 inp ((i - block.row_start) * ld_in + (j - block.col_start) + 2 * VLEN)
  let w_v := _mm256_loadu_si256 inp ((i - block.row_start) * ld_in + (j - block.col_start) + 3 * VLEN)
  -- if (!A_SYMMETRIC)
  let x_v := if !A_SYMMETRIC then _mm256_sub_epi32 x_v
    (_mm256_mullo_epi32 A_zero_point_v (_mm256_loadu_si256 self.q_col_offsets_ j)) else x_v
  let y_v := if !A_SYMMETRIC then _mm256_sub_epi32 y_v
    (_mm256_mullo_epi32 A_zero_point_v (_mm256_loadu_si256 self.q_col_offsets_ (j + VLEN))) else y_v
  let z_v := if !A_SYMMETRIC then _mm256_sub_epi32 z_v
    (_mm256_mullo_epi32 A_zero_point_v (_mm256_loadu_si256 self.q_col_offsets_ (j + 2 * VLEN))) else z_v
  let w_v := if !A_SYMMETRIC then _mm256_sub_epi32 w_v
    (_mm256_mullo_epi32 A_zero_point_v (_mm256_loadu_si256 self.q_col_offsets_ (j + 3 * VLEN))) else w_v
  -- if (!B_SYMMETRIC)
  let row_offset_v := if !B_SYMMETRIC && OUT_CHANNEL then
    _mm256_mullo_epi32 q_row_offset_i (_mm256_loadu_si256 self.Bq_zero_point_ j) else row_offset_v
  let x_v := if !B_SYMMETRIC then _mm256_sub_epi32 x_v row_offset_v else x_v
  let row_offset_v := if !B_SYMMETRIC && OUT_CHANNEL then
    _mm256_mullo_epi32 q_row_offset_i (_mm256_loadu_si256 self.Bq_zero_point_ (j + VLEN))
    else row_offset_v
  let y_v := if !B_SYMMETRIC then _mm256_sub_epi32 y_v row_offset_v else y_v
  let row_offset_v := if !B_SYMMETRIC && OUT_CHANNEL then
    _mm256_mullo_epi32 q_row_offset_i (_mm256_loadu_si256 self.Bq_zero_point_ (j + 2 * VLEN))
    else row_offset_v
  let z_v := if !B_SYMMETRIC then _mm256_sub_epi32 z_v row_offset_v else z_v
  let row_offset_v := if !B_SYMMETRIC && OUT_CHANNEL then
    _mm256_mullo_epi32 q_row_offset_i (_mm256_loadu_si256 self.Bq_zero_point_ (j + 3 * VLEN))
    else row_offset_v
  let w_v := if !B_SYMMETRIC then _mm256_sub_epi32 w_v row_offset_v else w_v
  -- if (HAS_BIAS)
  let x_v := if HAS_BIAS then
    _mm256_add_epi32 x_v (_mm256_loadu_si256 (deref self.bias_) j) else x_v
  let y_v := if HAS_BIAS then
    _mm256_add_epi32 y_v (_mm256_loadu_si256 (deref self.bias_) (j + VLEN)) else y_v
  let z_v := if HAS_BIAS then
    _mm256_add_epi32 z_v (_mm256_loadu_si256 (deref self.bias_) (j + 2 * VLEN)) else z_v
  let w_v := if HAS_BIAS then
    _mm256_add_epi32 w_v (_mm256_loadu_si256 (deref self.bias_) (j + 3 * VLEN)) else w_v
  let x_scaled_v := if OUT_CHANNEL then
    _mm256_mul_ps (_mm256_cvtepi32_ps x_v) (_mm256_loadu_ps self.C_multiplier_ j)
    else _mm256_mul_ps (_mm256_cvtepi32_ps x_v) multiplier_v
  let y_scaled_v := if OUT_CHANNEL then
    _mm256_mul_ps (_mm256_cvtepi32_ps y_v) (_mm256_loadu_ps self.C_multiplier_ (j + VLEN))
    else _mm256_mul_ps (_mm256_cvtepi32_ps y_v) multiplier_v
  let z_scaled_v := if OUT_CHANNEL then
    _mm256_mul_ps (_mm256_cvtepi32_ps z_v) (_mm256_loadu_ps self.C_multiplier_ (j + 2 * VLEN))
    else _mm256_mul_ps (_mm256_cvtepi32_ps z_v) multiplier_v
  let w_scaled_v := if OUT_CHANNEL then
    _mm256_mul_ps (_mm256_cvtepi32_ps w_v) (_mm256_loadu_ps self.C_multiplier_ (j + 3 * VLEN))
    else _mm256_mul_ps (_mm256_cvtepi32_ps w_v) multiplier_v
  let x_rounded_v := _mm256_cvtps_epi32 x_scaled_v
  let y_rounded_v := _mm256_cvtps_epi32 y_scaled_v
  let z_rounded_v := _mm256_cvtps_epi32 z_scaled_v
  let w_rounded_v := _mm256_cvtps_epi32 w_scaled_v
  let xy_packed_v :=
    _mm256_adds_epi16 (_mm256_packs_epi32 x_rounded_v y_rounded_v) C_zero_point_epi16_v
  let zw_packed_v :=
    _mm256_adds_epi16 (_mm256_packs_epi32 z_rounded_v w_rounded_v) C_zero_point_epi16_v
  let xyzw_packed_v := _mm256_packus_epi16 xy_packed_v zw_packed_v
  let xyzw_clamped_v :=
    _mm256_max_epu8 (if self.FUSE_RELU then C_zero_point_epi8_v else min_v)
      (_mm256_min_epu8 xyzw_packed_v max_v)
  let xyzw_clamped_v := _mm256_permutevar8x32_epi32 xyzw_clamped_v permute_mask_v
  (row_offset_v, _mm256_storeu_si256 st.2 (i * ld_out + j) xyzw_clamped_v)

/-- Body of the loop `for (; j < col_start + col_size / 8 * 8; j += 8)` of `f_`,
for row `i`; the state is `(row_offset_v, out)`. -/
def ReQuantizeOutput.f_body8 (self : ReQuantizeOutput) (A_SYMMETRIC B_SYMMETRIC HAS_BIAS : Bool)
    (inp : Nat → Int32) (block : block_type_t) (ld_out ld_in quant_param_idx i j : Nat)
    (st : m256i_epi32 × (Nat → Int)) : m256i_epi32 × (Nat → Int) :=
  let multiplier_v := _mm256_set1_ps (self.C_multiplier_ quant_param_idx)
  let min_v := _mm256_set1_epi8 0
  let max_v := _mm256_set1_epi8 255
  let A_zero_point_v := _mm256_set1_epi32 self.Aq_zero_point_
  let C_zero_point_epi16_v := _mm256_set1_epi16 self.C_zero_point_.val
  let C_zero_point_epi8_v := _mm256_set1_epi8 self.C_zero_point_.val
  let OUT_CHANNEL : Bool := decide (self.Q_GRAN = QuantizationGranularity.OUT_CHANNEL)
  let row_offset_v := st.1
  let x_v := _mm256_loadu_si256 inp ((i - block.row_start) * ld_in + (j - block.col_start))
  let x_v := if !A_SYMMETRIC then _mm256_sub_epi32 x_v
    (_mm256_mullo_epi32 A_zero_point_v (_mm256_loadu_si256 self.q_col_offsets_ j)) else x_v
  let row_offset_v := if !B_SYMMETRIC && OUT_CHANNEL then
    _mm256_mullo_epi32 (_mm256_set1_epi32 (deref self.q_row_offsets_ (i - block.row_start)))
      (_mm256_loadu_si256 self.Bq_zero_point_ j)
    else row_offset_v
  let x_v := if !B_SYMMETRIC then _mm256_sub_epi32 x_v row_offset_v else x_v
  let x_v := if HAS_BIAS then
    _mm256_add_epi32 x_v (_mm256_loadu_si256 (deref self.bias_) j) else x_v
  let x_scaled_v := if OUT_CHANNEL then
    _mm256_mul_ps (_mm256_cvtepi32_ps x_v) (_mm256_loadu_ps self.C_multiplier_ j)
    else _mm256_mul_ps (_mm256_cvtepi32_ps x_v) multiplier_v
  let x_rounded_v := _mm256_cvtps_epi32 x_scaled_v
  let x_packed_v :=
    _mm256_adds_epi16 (_mm256_packs_epi32 x_rounded_v _mm256_setzero_si256) C_zero_point_epi16_v
  let x_packed_v := _mm256_packus_epi16 x_packed_v _mm256_setzero_si256_epi16
  let x_clamped_v :=
    _mm256_max_epu8 (if self.FUSE_RELU then C_zero_point_epi8_v else min_v)
      (_mm256_min_epu8 x_packed_v max_v)
  let x_clamped_v := _mm256_permutevar8x32_epi32 x_clamped_v permute_mask_v
  (row_offset_v, _mm_storel_epi64 st.2 (i * ld_out + j) (_mm256_castsi256_si128 x_clamped_v))

/-- Body of the remainder loop `for (; j < col_start + col_size; ++j)` of `f_`,
for row `i`; the state is `(row_offset, out)`. -/
def ReQuantizeOutput.f_body1 (self : ReQuantizeOutput) (A_SYMMETRIC B_SYMMETRIC HAS_BIAS : Bool)
    (inp : Nat → Int32) (block : block_type_t) (ld_out ld_in quant_param_idx i j : Nat)
    (st : Int32 × (Nat → Int)) : Int32 × (Nat → Int) :=
  let raw := inp ((i - block.row_start) * ld_in + (j - block.col_start))
  let raw := if !A_SYMMETRIC then raw - self.Aq_zero_point_ * self.q_col_offsets_ j else raw
  let row_offset :=
    if !B_SYMMETRIC && decide (self.Q_GRAN = QuantizationGranularity.OUT_CHANNEL) then
      deref self.q_row_offsets_ (i - block.row_start) * self.Bq_zero_point_ j
    else st.1
  let raw := if !B_SYMMETRIC then raw - row_offset else raw
  let raw := if HAS_BIAS then raw + deref self.bias_ j else raw
  let ab := F32.mul (F32.ofInt32 raw)
    (if self.Q_GRAN = QuantizationGranularity.OUT_CHANNEL then self.C_multiplier_ j
     else self.C_multiplier_ quant_param_idx)
  let rounded := wrap64 (lrintf ab + self.C_zero_point_.val)
  (row_offset, Function.update st.2 (i * ld_out + j)
    (toUInt8 (max (if self.FUSE_RELU then self.C_zero_point_.val else 0) (min 255 rounded))))

/-- Body of the row loop of `f_`: the three column loops for row `i`. -/
def ReQuantizeOutput.f_row (self : ReQuantizeOutput) (A_SYMMETRIC B_SYMMETRIC HAS_BIAS : Bool)
    (inp : Nat → Int32) (block : block_type_t) (ld_out ld_in quant_param_idx i : Nat)
    (out : Nat → Int) : Nat → Int :=
  let row_offset : Int32 :=
    if B_SYMMETRIC then 0
    else if self.Q_GRAN = QuantizationGranularity.TENSOR ∨
        self.Q_GRAN = QuantizationGranularity.GROUP then
      deref self.q_row_offsets_ (i - block.row_start) * self.Bq_zero_point_ quant_param_idx
    else 0
  let row_offset_v := _mm256_set1_epi32 row_offset
  let j := block.col_start
  let l32 := forLoop
    (self.f_body32 A_SYMMETRIC B_SYMMETRIC HAS_BIAS inp block ld_out ld_in quant_param_idx i)
    (block.col_start + block.col_size / (VLEN * 4) * (VLEN * 4)) (VLEN * 4)
    block.col_size j (row_offset_v, out)
  let l8 := forLoop
    (self.f_body8 A_SYMMETRIC B_SYMMETRIC HAS_BIAS inp block ld_out ld_in quant_param_idx i)
    (block.col_start + block.col_size / VLEN * VLEN) VLEN
    block.col_size l32.1 l32.2
  let l1 := forLoop
    (self.f_body1 A_SYMMETRIC B_SYMMETRIC HAS_BIAS inp block ld_out ld_in quant_param_idx i)
    (block.col_start + block.col_size) 1
    block.col_size l8.1 (row_offset, l8.2.2)
  l1.2.2

/-- The member function `ReQuantizeOutput::f_<A_SYMMETRIC, B_SYMMETRIC, HAS_BIAS>`
(output type `uint8_t`); the result is the output buffer after the call. -/
def ReQuantizeOutput.f_ (self : ReQuantizeOutput) (A_SYMMETRIC B_SYMMETRIC HAS_BIAS : Bool)
    (out : Nat → Int) (inp : Nat → Int32) (block : block_type_t) (ld_out ld_in : Nat) :
    Except Abort (Nat → Int) :=
  if self.Q_GRAN = QuantizationGranularity.GROUP ∧ self.groups_ = 0 then
    Except.error Abort.division_by_zero
  else if self.Q_GRAN = QuantizationGranularity.GROUP ∧ self.ncols_ / self.groups_ = 0 then
    Except.error Abort.division_by_zero
  else
    let quant_param_idx :=
      if self.Q_GRAN = QuantizationGranularity.GROUP then
        block.col_start / (self.ncols_ / self.groups_)
      else 0
    if A_SYMMETRIC ≠ decide (self.Aq_zero_point_.val = 0) then Except.error Abort.assertion
    else if B_SYMMETRIC ≠ decide ((self.Q_GRAN = QuantizationGranularity.TENSOR ∧
        (self.Bq_zero_point_ 0).val = 0) ∨ self.q_row_offsets_.isNone) then
      Except.error Abort.assertion
    else if HAS_BIAS ≠ self.bias_.isSome then Except.error Abort.assertion
    else
      Except.ok (forLoop
        (self.f_row A_SYMMETRIC B_SYMMETRIC HAS_BIAS inp block ld_out ld_in quant_param_idx)
        (block.row_start + block.row_size) 1 block.row_size block.row_start out).2

/-! ## `ReQuantizeOutput::f` -/

/-- Body of the inner loop of the `anyarch` branch of `ReQuantizeOutput::f`:
element `(i, j)`, with `g` the group index computed before the loops. -/
def ReQuantizeOutput.f_anyarch_body (self : ReQuantizeOutput) (inp : Nat → Int32)
    (block : block_type_t) (ld_out ld_in g i j : Nat) (out : Nat → Int) : Nat → Int :=
  let raw := inp ((i - block.row_start) * ld_in + (j - block.col_start))
  let raw := raw - self.Aq_zero_point_ * self.q_col_offsets_ j
  let Bq_zero_point_idx :=
    match self.Q_GRAN with
    | QuantizationGranularity.TENSOR => 0
    | QuantizationGranularity.GROUP => g
    | QuantizationGranularity.OUT_CHANNEL => j
  let raw :=
    match self.q_row_offsets_ with
    | some q_row_offsets_ =>
      raw - q_row_offsets_ (i - block.row_start) * self.Bq_zero_point_ Bq_zero_point_idx
    | none => raw
  let raw :=
    match self.bias_ with
    | some bias_ => raw + bias_ j
    | none => raw
  let ab := F32.mul (F32.ofInt32 raw) (self.C_multiplier_ Bq_zero_point_idx)
  let rounded := wrap64 (lrintf ab + self.C_zero_point_.val)
  Function.update out (i * ld_out + j)
    (toUInt8 (max (if self.FUSE_RELU then self.C_zero_point_.val else 0) (min 255 rounded)))

/-- The member function `ReQuantizeOutput::f<instSet>` (output type `uint8_t`). -/
def ReQuantizeOutput.f {ρ : Type} (self : ReQuantizeOutput) (nextop_ : NextOp Int Int ρ)
    (instSet : inst_set_t) (out : Nat → Int) (inp : Nat → Int32) (block : block_type_t)
    (ld_out ld_in : Nat) : Except Abort ρ :=
  if self.groups_ = 0 then Except.error Abort.division_by_zero
  else
    let ncol_per_group := self.ncols_ / self.groups_
    if ¬ block.col_size ≤ ncol_per_group then Except.error Abort.assertion
    else if ncol_per_group = 0 then Except.error Abort.division_by_zero
    else
      let g := block.col_start / ncol_per_group
      match instSet with
      | inst_set_t.anyarch =>
        let out := (forLoop
          (fun i out => (forLoop (self.f_anyarch_body inp block ld_out ld_in g i)
            (block.col_start + block.col_size) 1 block.col_size block.col_start out).2)
          (block.row_start + block.row_size) 1 block.row_size block.row_start out).2
        Except.ok (nextop_ out out block ld_out ld_out)
      | inst_set_t.avx2 | inst_set_t.avx512 =>
        let b_symmetric : Bool :=
          decide ((self.Q_GRAN = QuantizationGranularity.TENSOR ∧
            (self.Bq_zero_point_ 0).val = 0) ∨ self.q_row_offsets_.isNone)
        let r :=
          if self.Aq_zero_point_.val = 0 then
            if b_symmetric then
              if self.bias_.isNone then self.f_ true true false out inp block ld_out ld_in
              else self.f_ true true true out inp block ld_out ld_in
            else
              if self.bias_.isNone then self.f_ true false false out inp block ld_out ld_in
              else self.f_ true false true out inp block ld_out ld_in
          else
            if b_symmetric then
              if self.bias_.isNone then self.f_ false true false out inp block ld_out ld_in
              else self.f_ false true true out inp block ld_out ld_in
            else
              if self.bias_.isNone then self.f_ false false false out inp block ld_out ld_in
              else self.f_ false false true out inp block ld_out ld_in
        match r with
        | Except.error e => Except.error e
        | Except.ok out => Except.ok (nextop_ out out block ld_out ld_out)

/-! ## `ReQuantizeForFloat::f` -/

/-- Body of the inner loop of `ReQuantizeForFloat::f`: element `(i, j)`, with `g`
the group index computed before the loops. -/
def ReQuantizeForFloat.f_body (self : ReQuantizeForFloat) (inp : Nat → Int32)
    (block : block_type_t) (ld_out ld_in g i j : Nat) (out : Nat → F32) : Nat → F32 :=
  let raw := inp ((i - block.row_start) * ld_in + j - block.col_start)
  let raw := raw - self.Aq_zero_point_ * self.q_col_offsets_ j
  let Bq_zero_point_idx :=
    match self.Q_GRAN with
    | QuantizationGranularity.TENSOR => 0
    | QuantizationGranularity.GROUP => g
    | QuantizationGranularity.OUT_CHANNEL => j
  let raw := raw - self.q_row_offsets_ (i - block.row_start) * self.Bq_zero_point_ Bq_zero_point_idx
  let res := F32.mul (F32.mul (F32.ofInt32 raw) self.Aq_scale_) (self.Bq_scale_ Bq_zero_point_idx)
  let res :=
    match self.bias_ with
    | some bias_ => F32.add res (bias_ j)
    | none => res
  let out := Function.update out (i * ld_out + j) res
  if self.FUSE_RELU then
    Function.update out (i * ld_out + j) (F32.std_max F32.zero (out (i * ld_out + j)))
  else out

/-- The member function `ReQuantizeForFloat::f<instSet>`. -/
def ReQuantizeForFloat.f {ρ : Type} (self : ReQuantizeForFloat) (nextop_ : NextOp F32 F32 ρ)
    (_instSet : inst_set_t) (out : Nat → F32) (inp : Nat → Int32) (block : block_type_t)
    (ld_out ld_in : Nat) : Except Abort ρ :=
  if self.groups_ = 0 then Except.error Abort.division_by_zero
  else
    let ncol_per_group := self.ncols_ / self.groups_
    if ¬ block.col_size ≤ ncol_per_group then Except.error Abort.assertion
    else if ncol_per_group = 0 then Except.error Abort.division_by_zero
    else
      let g := block.col_start / ncol_per_group
      let out := (forLoop
        (fun i out => (forLoop (self.f_body inp block ld_out ld_in g i)
          (block.col_start + block.col_size) 1 block.col_size block.col_start out).2)
        (block.row_start + block.row_size) 1 block.row_size block.row_start out).2
      Except.ok (nextop_ out out block ld_out ld_out)

/-! ## `memCopy::f`, `DoSpmdmOnInpBuffer::f`, `DoSConvOnInpBuffer::f` -/

/-- The next stage of a chain whose buffers live in one address space: it
receives the memory, the two pointers `out` and `inp` (addresses counted in
elements), the block and the two strides. -/
abbrev MemNextOp (α ρ : Type) := (Nat → α) → Nat → Nat → block_type_t → Nat → Nat → ρ

/-- The library function `memcpy(dst, src, n * sizeof(T))` on a memory of
elements of type `T`: `n` elements are copied from address `src` to address
`dst`.  The behaviour is undefined (`none`) when the two regions overlap. -/
def memcpy {α : Type} (mem : Nat → α) (dst src n : Nat) : Option (Nat → α) :=
  if n = 0 ∨ dst + n ≤ src ∨ src + n ≤ dst then
    some (fun p => if dst ≤ p ∧ p < dst + n then mem (src + (p - dst)) else mem p)
  else none

/-- The member function `memCopy::f<instSet>`; `out` and `inp` are pointers into
the memory `mem`.  The result is `none` when a `memcpy` has undefined
behaviour. -/
def memCopy.f {α ρ : Type} (nextop_ : MemNextOp α ρ) (_instSet : inst_set_t) (mem : Nat → α)
    (out inp : Nat) (block : block_type_t) (ld_out ld_in : Nat) : Option ρ :=
  let mem :=
    if out + block.row_start * ld_out + block.col_start ≠ inp then
      (forLoop
        (fun i (mem : Option (Nat → α)) =>
          mem.bind (fun mem =>
            memcpy mem (out + block.col_start + i * ld_out) (inp + (i - block.row_start) * ld_in)
              block.col_size))
        (block.row_start + block.row_size) 1 block.row_size block.row_start (some mem)).2
    else some mem
  match mem with
  | some mem => some (nextop_ mem out out block ld_out ld_out)
  | none => none

/-- The class `CompressedSparseColumn`, declared outside this file: the two
dimensions and, as parameters, the member functions `SpMDM` (arguments `block`,
`A`, `lda`, `accumulation`, `C`, `ldc`) and `SparseConv` (arguments `conv_p`,
`block`, `A`, `A_zero_point`, `accumulation`, `C`, `ldc`).  Each of them returns
the content of `C` after the call, or the reason for which it does not return.
The type `κ` stands for `conv_param_t<>`. -/
structure CompressedSparseColumn (κ : Type) where
  NumOfRows : Nat
  NumOfCols : Nat
  SpMDM : block_type_t → (Nat → Int) → Nat → Bool → (Nat → Int32) → Nat →
    Except Abort (Nat → Int32)
  SparseConv : κ → block_type_t → (Nat → Int) → Int32 → Bool → (Nat → Int32) → Nat →
    Except Abort (Nat → Int32)

/-- The stage `DoSpmdmOnInpBuffer`: data members. -/
structure DoSpmdmOnInpBuffer (κ : Type) where
  A_ : Nat → Int
  lda_ : Nat
  B_csc_ : CompressedSparseColumn κ
  groups_ : Nat

/-- The stage `DoSConvOnInpBuffer`: data members. -/
structure DoSConvOnInpBuffer (κ : Type) where
  A_ : Nat → Int
  conv_p_ : κ
  A_zero_point_ : Int32
  B_csc_ : CompressedSparseColumn κ

/-- The member function `DoSpmdmOnInpBuffer::f<instSet>`. -/
def DoSpmdmOnInpBuffer.f {κ α ρ : Type} (self : DoSpmdmOnInpBuffer κ)
    (nextop_ : NextOp α Int32 ρ) (_instSet : inst_set_t) (out : Nat → α) (inp : Nat → Int32)
    (block : block_type_t) (ld_out ld_in : Nat) : Except Abort ρ :=
  if self.groups_ = 0 then Except.error Abort.division_by_zero
  else if ¬ self.B_csc_.NumOfCols % self.groups_ = 0 then Except.error Abort.assertion
  else
    let n_per_group := self.B_csc_.NumOfCols / self.groups_
    if n_per_group = 0 then Except.error Abort.division_by_zero
    else
      let g := block.col_start / n_per_group
      match self.B_csc_.SpMDM block (fun k => self.A_ (g * self.B_csc_.NumOfRows + k))
          self.lda_ true inp ld_in with
      | Except.error e => Except.error e
      | Except.ok inp => Except.ok (nextop_ out inp block ld_out ld_in)

/-- The member function `DoSConvOnInpBuffer::f<instSet>`. -/
def DoSConvOnInpBuffer.f {κ α ρ : Type} (self : DoSConvOnInpBuffer κ)
    (nextop_ : NextOp α Int32 ρ) (_instSet : inst_set_t) (out : Nat → α) (inp : Nat → Int32)
    (block : block_type_t) (ld_out ld_in : Nat) : Except Abort ρ :=
  match self.B_csc_.SparseConv self.conv_p_ block self.A_ self.A_zero_point_ true inp ld_in with
  | Except.error e => Except.error e
  | Except.ok inp => Except.ok (nextop_ out inp block ld_out ld_in)

end Fbgemm


/-! ## Specification-side vocabulary -/

namespace Fbgemm

/-- Buffer obtained from `out` by storing `v j` at position `base + j` for every
column `j` of `[cs, cs + cn)`. -/
def rowWrite {α : Type} (base cs cn : Nat) (v : Nat → α) (out : Nat → α) : Nat → α :=
  fun p => if base + cs ≤ p ∧ p < base + cs + cn then v (p - base) else out p

/-- Granularity bucket of column `j` in a block whose group index is `g`:
`0` for `TENSOR`, `g` for `GROUP`, `j` for `OUT_CHANNEL`. -/
def bucket (Q_GRAN : QuantizationGranularity) (g j : Nat) : Nat :=
  match Q_GRAN with
  | QuantizationGranularity.TENSOR => 0
  | QuantizationGranularity.GROUP => g
  | QuantizationGranularity.OUT_CHANNEL => j

/-- The corrected accumulator of element `(i, j)` as the specification writes it,
in unbounded integers:
`inp[(i-row_start)*ld_in + (j-col_start)] - zero_point_A * col_offsets[j]
 - row_offsets[i-row_start] * zero_points_B[b] + bias[j]`,
the row-offset term being omitted when `row_offsets` is absent and the bias term
when `bias` is absent. -/
def ReQuantizeOutput.corrected (self : ReQuantizeOutput) (inp : Nat → Int32)
    (block : block_type_t) (ld_in b i j : Nat) : Int :=
  (inp ((i - block.row_start) * ld_in + (j - block.col_start))).val
    - self.Aq_zero_point_.val * (self.q_col_offsets_ j).val
    - (match self.q_row_offsets_ with
       | some r => (r (i - block.row_start)).val * (self.Bq_zero_point_ b).val
       | none => 0)
    + (match self.bias_ with
       | some c => (c j).val
       | none => 0)

/-- Rounding of a binary32 value to the nearest integer, ties to even, in
unbounded integers: the mathematical `rne`, with no overflow value.  An infinity
or a NaN has no rounding. -/
def F32.rne : F32 → Option Int
  | .fin neg n _ => some (F32.units neg (rneDiv n 149))
  | _ => none

/-- The requantized value of a corrected accumulator `c` as the specification
writes it: `max(lo, min(255, rne(c * multiplier) + output_zero_point))`, with
`lo = output_zero_point` under ReLU fusion and `0` otherwise; the product is the
binary32 product of the accumulator converted to binary32 and `rne` is `lrintf`. -/
def requantized (FUSE_RELU : Bool) (zero_point : Int) (multiplier : F32) (c : Int) : Int :=
  max (if FUSE_RELU then zero_point else 0)
    (min 255 (lrintf (F32.mul (F32.ofInt32 (Int32.wrap c)) multiplier) + zero_point))

/-- Buffer obtained from `out` by storing `v i j` at position `i * ld + j` for
every row `i` of `[rs, rs + rn)` in increasing order and every column `j` of
`[cs, cs + cn)`. -/
def blockWrite {α : Type} (ld rs rn cs cn : Nat) (v : Nat → Nat → α) (out : Nat → α) : Nat → α :=
  (List.range' rs rn).foldl (fun o i => rowWrite (i * ld) cs cn (v i) o) out

/-- The byte that the scalar code stores for element `(i, j)` of a block whose
group index is `g`. -/
def ReQuantizeOutput.stored (self : ReQuantizeOutput) (inp : Nat → Int32)
    (block : block_type_t) (ld_in g i j : Nat) : Int :=
  toUInt8 (max (if self.FUSE_RELU then self.C_zero_point_.val else 0)
    (min 255 (wrap64 (lrintf (F32.mul
      (F32.ofInt32 (Int32.wrap (self.corrected inp block ld_in (bucket self.Q_GRAN g j) i j)))
      (self.C_multiplier_ (bucket self.Q_GRAN g j))) + self.C_zero_point_.val))))

/-- The `int32_t` lane produced by CVTPS2DQ in the vector loops of `f_` for
element `(i, j)` of a block whose parameter index is `q`. -/
def ReQuantizeOutput.vlane (self : ReQuantizeOutput) (inp : Nat → Int32)
    (block : block_type_t) (ld_in q i j : Nat) : Int32 :=
  cvtps_epi32 (F32.mul
    (F32.ofInt32 (Int32.wrap (self.corrected inp block ld_in (bucket self.Q_GRAN q j) i j)))
    (self.C_multiplier_ (bucket self.Q_GRAN q j)))

/-- The byte that the vector loops of `f_` store for element `(i, j)`: the lane
of `vlane` narrowed by PACKSSDW, PADDSW with the zero point, PACKUSWB, PMINUB
and PMAXUB. -/
def ReQuantizeOutput.vstored (self : ReQuantizeOutput) (inp : Nat → Int32)
    (block : block_type_t) (ld_in q i j : Nat) : Int :=
  max ((if self.FUSE_RELU then self.C_zero_point_.val else 0) % 256)
    (min (satu8 (sat16 (sat16 (self.vlane inp block ld_in q i j).val
      + wrap16 self.C_zero_point_.val))) (255 % 256))

/-- The accumulator of column `c` after the corrections of `f_`, as its loops
compute it from the loaded value `x`, the row index `r = i - row_start` and the
current content `rov` of `row_offset` (of a lane of `row_offset_v`). -/
def ReQuantizeOutput.f_raw (self : ReQuantizeOutput) (A_SYMMETRIC B_SYMMETRIC HAS_BIAS : Bool)
    (x rov : Int32) (r c : Nat) : Int32 :=
  let x := if !A_SYMMETRIC then x - self.Aq_zero_point_ * self.q_col_offsets_ c else x
  let rov :=
    if !B_SYMMETRIC && decide (self.Q_GRAN = QuantizationGranularity.OUT_CHANNEL) then
      deref self.q_row_offsets_ r * self.Bq_zero_point_ c
    else rov
  let x := if !B_SYMMETRIC then x - rov else x
  if HAS_BIAS then x + deref self.bias_ c else x

/-- The value of `row_offset` set at the top of the row loop of `f_`. -/
def ReQuantizeOutput.f_row_offset (self : ReQuantizeOutput) (B_SYMMETRIC : Bool)
    (q r : Nat) : Int32 :=
  if B_SYMMETRIC then 0
  else if self.Q_GRAN = QuantizationGranularity.TENSOR ∨
      self.Q_GRAN = QuantizationGranularity.GROUP then
    deref self.q_row_offsets_ r * self.Bq_zero_point_ q
  else 0

/-- Consistency of the template flags of `f_` with the configuration: what the
three assertions at the top of `f_` check. -/
def ReQuantizeOutput.flags_ok (self : ReQuantizeOutput) (A B H : Bool) : Prop :=
  A = decide (self.Aq_zero_point_.val = 0) ∧
  B = decide ((self.Q_GRAN = QuantizationGranularity.TENSOR ∧
    (self.Bq_zero_point_ 0).val = 0) ∨ self.q_row_offsets_.isNone) ∧
  H = self.bias_.isSome

/-- The byte that `f_` stores for element `(i, j)`: columns below
`col_start + col_size / 8 * 8` come from the vector loops, the others from the
scalar remainder loop. -/
def ReQuantizeOutput.f_stored (self : ReQuantizeOutput) (inp : Nat → Int32)
    (block : block_type_t) (ld_in q i j : Nat) : Int :=
  if j < block.col_start + block.col_size / 8 * 8 then self.vstored inp block ld_in q i j
  else self.stored inp block ld_in q i j

/-- The value of `quant_param_idx` in `f_`. -/
def ReQuantizeOutput.quant_param_idx (self : ReQuantizeOutput) (block : block_type_t) : Nat :=
  if self.Q_GRAN = QuantizationGranularity.GROUP then
    block.col_start / (self.ncols_ / self.groups_)
  else 0

/-- Stage with `TENSOR` granularity, multiplier `1.0`, all zero points `0`, no
row offsets, no bias, no ReLU; one group of 8 columns. -/
def unitStage : ReQuantizeOutput :=
  { FUSE_RELU := false
    Q_GRAN := QuantizationGranularity.TENSOR
    C_multiplier_ := fun _ => F32.fin false (2 ^ 149) (by decide)
    C_zero_point_ := 0
    Aq_zero_point_ := 0
    Bq_zero_point_ := fun _ => 0
    q_row_offsets_ := none
    q_col_offsets_ := fun _ => 0
    bias_ := none
    ncols_ := 8
    groups_ := 1 }

/-- Accumulator buffer holding `INT32_MAX` at element 0 and `0` elsewhere. -/
def maxInp : Nat → Int32 := fun k => if k = 0 then 2147483647 else 0

/-- Stage of the end-to-end scenario: `TENSOR` granularity, `zero_point_A = 0`,
`zero_points_B = [0]`, multiplier `0.5`, no bias, no ReLU, `output_zero_point = 128`;
one group of 8 columns. -/
def scenarioStage : ReQuantizeOutput :=
  { FUSE_RELU := false
    Q_GRAN := QuantizationGranularity.TENSOR
    C_multiplier_ := fun _ => F32.fin false (2 ^ 148) (by decide)
    C_zero_point_ := 128
    Aq_zero_point_ := 0
    Bq_zero_point_ := fun _ => 0
    q_row_offsets_ := none
    q_col_offsets_ := fun _ => 0
    bias_ := none
    ncols_ := 8
    groups_ := 1 }

/-- Accumulator buffer of the scenario: `10` at element 0, `1000` at element 1,
`-k` at every other element `k`. -/
def scenarioInp : Nat → Int32 := fun k =>
  if k = 0 then 10 else if k = 1 then 1000 else Int32.wrap (-(k : Int))

/-- Stage with `TENSOR` granularity, multiplier `2^40`, all zero points `0`, no
row offsets, no bias, no ReLU; one group of 8 columns. -/
def bigStage : ReQuantizeOutput :=
  { unitStage with C_multiplier_ := fun _ => F32.fin false (2 ^ 189) (by decide) }

/-- Accumulator buffer holding `2^30` at element 0 and `0` elsewhere. -/
def bigInp : Nat → Int32 := fun k => if k = 0 then 1073741824 else 0

/-- The constant `0.5f`. -/
def F32.half : F32 := F32.fin false (2 ^ 148) (by decide)

/-- Round to nearest integer, ties to even, on the rationals. -/
def roundHalfEven (q : ℚ) : ℤ :=
  if q - ⌊q⌋ < 1 / 2 then ⌊q⌋
  else if 1 / 2 < q - ⌊q⌋ then ⌊q⌋ + 1
  else if ⌊q⌋ % 2 = 0 then ⌊q⌋ else ⌊q⌋ + 1

/-- The scenario stage with a bias of `5` in every column. -/
def biasStage : ReQuantizeOutput := { scenarioStage with bias_ := some (fun _ => 5) }

/-- Accumulator buffer holding `0` everywhere. -/
def zeroInp : Nat → Int32 := fun _ => 0

/-- The corrected accumulator of element `(i, j)` in the float stage, as the
specification writes it, in unbounded integers:
`inp[(i-row_start)*ld_in + (j-col_start)] - zero_point_A * col_offsets[j]
 - row_offsets[i-row_start] * zero_points_B[b]`. -/
def ReQuantizeForFloat.corrected (self : ReQuantizeForFloat) (inp : Nat → Int32)
    (block : block_type_t) (ld_in b i j : Nat) : Int :=
  (inp ((i - block.row_start) * ld_in + (j - block.col_start))).val
    - self.Aq_zero_point_.val * (self.q_col_offsets_ j).val
    - (self.q_row_offsets_ (i - block.row_start)).val * (self.Bq_zero_point_ b).val

/-- The scaled value of element `(i, j)` in the float stage:
`corrected * scale_A * scales_B[b]`, the corrected accumulator being read as an
`int32_t` and the products being binary32 products. -/
def ReQuantizeForFloat.scaled (self : ReQuantizeForFloat) (inp : Nat → Int32)
    (block : block_type_t) (ld_in g i j : Nat) : F32 :=
  F32.mul (F32.mul
    (F32.ofInt32 (Int32.wrap (self.corrected inp block ld_in (bucket self.Q_GRAN g j) i j)))
    self.Aq_scale_) (self.Bq_scale_ (bucket self.Q_GRAN g j))

/-- The value that `ReQuantizeForFloat::f` stores for element `(i, j)` of a block
whose group index is `g`: the scaled value, plus the bias when there is one,
clamped below by `0.0f` under ReLU fusion. -/
def ReQuantizeForFloat.stored (self : ReQuantizeForFloat) (inp : Nat → Int32)
    (block : block_type_t) (ld_in g i j : Nat) : F32 :=
  let res := self.scaled inp block ld_in g i j
  let res :=
    match self.bias_ with
    | some c => F32.add res (c j)
    | none => res
  if self.FUSE_RELU then F32.std_max F32.zero res else res

/-- The fault raised by the checks at the top of `ReQuantizeOutput::f` and
`ReQuantizeForFloat::f`, if any, for `ncols_` columns in `groups_` groups and a
block of `col_size` columns. -/
def guard_fault (ncols groups col_size : Nat) : Option Abort :=
  if groups = 0 then some Abort.division_by_zero
  else if ¬ col_size ≤ ncols / groups then some Abort.assertion
  else if ncols / groups = 0 then some Abort.division_by_zero
  else none

/-- The constant `1.0f`. -/
def F32.one : F32 := F32.fin false (2 ^ 149) (by decide)

/-- Integer stage with `GROUP` granularity: 8 columns in 2 groups of 4; group 0
has multiplier `0.5` and weight zero point `1`, group 1 has multiplier `1.0` and
weight zero point `2`; row offsets `3`, column offsets `0`, `zero_point_A = 0`,
no bias, no ReLU, `output_zero_point = 128`. -/
def groupStage : ReQuantizeOutput :=
  { FUSE_RELU := false
    Q_GRAN := QuantizationGranularity.GROUP
    C_multiplier_ := fun b => if b = 0 then F32.half else F32.one
    C_zero_point_ := 128
    Aq_zero_point_ := 0
    Bq_zero_point_ := fun b => if b = 0 then 1 else 2
    q_row_offsets_ := some (fun _ => 3)
    q_col_offsets_ := fun _ => 0
    bias_ := none
    ncols_ := 8
    groups_ := 2 }

/-- Float stage with `GROUP` granularity: 8 columns in 2 groups of 4;
`scale_A = 0.5`, group 0 has `scale_B = 1.0` and weight zero point `1`, group 1
has `scale_B = 0.5` and weight zero point `2`; row offsets `3`, column offsets
`0`, `zero_point_A = 0`, no bias, no ReLU. -/
def floatGroupStage : ReQuantizeForFloat :=
  { FUSE_RELU := false
    Q_GRAN := QuantizationGranularity.GROUP
    Aq_scale_ := F32.half
    Bq_scale_ := fun b => if b = 0 then F32.one else F32.half
    Aq_zero_point_ := 0
    Bq_zero_point_ := fun b => if b = 0 then 1 else 2
    q_row_offsets_ := fun _ => 3
    q_col_offsets_ := fun _ => 0
    bias_ := none
    ncols_ := 8
    groups_ := 2 }

/-- Float stage with `TENSOR` granularity, `scale_A = 0.5`, `scale_B = 1.0`, all
zero points and offsets `0`, a bias of `1.0` in every column, no ReLU; one group
of 8 columns. -/
def floatBiasStage : ReQuantizeForFloat :=
  { FUSE_RELU := false
    Q_GRAN := QuantizationGranularity.TENSOR
    Aq_scale_ := F32.half
    Bq_scale_ := fun _ => F32.one
    Aq_zero_point_ := 0
    Bq_zero_point_ := fun _ => 0
    q_row_offsets_ := fun _ => 0
    q_col_offsets_ := fun _ => 0
    bias_ := some (fun _ => F32.one)
    ncols_ := 8
    groups_ := 1 }

/-- The scenario stage with ReLU fusion switched on (output zero point `128`). -/
def reluStage : ReQuantizeOutput := { scenarioStage with FUSE_RELU := true }

/-- The float stage `floatGroupStage` with ReLU fusion switched on. -/
def floatReluStage : ReQuantizeForFloat := { floatGroupStage with FUSE_RELU := true }

/-- The terminal stage of a chain over one address space, as an observer: it
hands back the memory it is given. -/
def observeMem {α : Type} : MemNextOp α (Nat → α) := fun mem _ _ _ _ _ => mem

/-- A memory of 64 elements numbered by their address, `0` beyond. -/
def countMem : Nat → Int := fun p => if p < 64 then (p : Int) else 0

/-- The values taken by the loop variable of `for (; j < bound; j += step)` at
the iterations that run, in order, from the value `j` on (at most `fuel` of
them). -/
def forLoop_iters (bound step : Nat) : Nat → Nat → List Nat
  | 0, _ => []
  | fuel + 1, j => if j < bound then j :: forLoop_iters bound step fuel (j + step) else []

/-- The output positions of a block in a buffer of stride `ld`, in the order of
the loops `for i ... for j ...`: `i * ld + j` for every row `i` of
`[row_start, row_start + row_size)` and every column `j` of
`[col_start, col_start + col_size)`. -/
def footprint (ld : Nat) (block : block_type_t) : List Nat :=
  (List.range' block.row_start block.row_size).flatMap
    (fun i => (List.range' block.col_start block.col_size).map (fun j => i * ld + j))

/-- The constant `0x1.FFFFFEp-1f`, the largest binary32 value below `1`:
`(2^24 - 1) * 2^-24`. -/
def F32.maxScale : F32 := F32.fin false ((2 ^ 24 - 1) * 2 ^ 125) (by decide)

/-- Conversion of a natural number to binary32, rounded to nearest, ties to
even. -/
def F32.ofNat (k : Nat) : F32 := F32.ofMag false (k * 2 ^ 149) 0

/-- Accumulator buffer holding `100000` at element 0, `-100000` at element 1 and
`0` elsewhere: both values leave the `int16_t` range. -/
def wideInp : Nat → Int32 := fun k =>
  if k = 0 then 100000 else if k = 1 then Int32.wrap (-100000) else 0

/-- The terminal stage of a chain as an observer: it hands back the buffer it is
given. -/
def observe {α : Type} : NextOp α α (Nat → α) := fun out _ _ _ _ => out

end Fbgemm

/-! ## Rounding lemmas -/

namespace Fbgemm

theorem rneDiv_eq (a d : Nat) :
    rneDiv a d = if 2 * (a % 2 ^ d) < 2 ^ d then a / 2 ^ d
      else if 2 ^ d < 2 * (a % 2 ^ d) then a / 2 ^ d + 1
      else if a / 2 ^ d % 2 = 0 then a / 2 ^ d else a / 2 ^ d + 1 := by
  have h : a - a / 2 ^ d * 2 ^ d = a % 2 ^ d := by
    rw [Nat.mod_def, Nat.mul_comm]
  simp only [rneDiv, Nat.shiftRight_eq_div_pow, Nat.shiftLeft_eq, one_mul, h]

theorem rneDiv_ge (a d : Nat) : a / 2 ^ d ≤ rneDiv a d := by
  rw [rneDiv_eq]; split_ifs <;> omega

theorem rneDiv_le (a d : Nat) : rneDiv a d ≤ a / 2 ^ d + 1 := by
  rw [rneDiv_eq]; split_ifs <;> omega

theorem rneDiv_of_dvd (q d : Nat) : rneDiv (q * 2 ^ d) d = q := by
  have hp : 0 < 2 ^ d := Nat.two_pow_pos _
  rw [rneDiv_eq, Nat.mul_mod_left, Nat.mul_div_cancel _ hp]
  simp [hp]

theorem rneDiv_le_of_le {a d M : Nat} (h : a ≤ M * 2 ^ d) : rneDiv a d ≤ M := by
  have hp : 0 < 2 ^ d := Nat.two_pow_pos _
  have hq : a / 2 ^ d ≤ M := Nat.div_le_of_le_mul (by rw [Nat.mul_comm]; exact h)
  rcases Nat.lt_or_ge (a / 2 ^ d) M with hlt | hge
  · have := rneDiv_le a d; omega
  · have hqM : a / 2 ^ d = M := Nat.le_antisymm hq hge
    have h1 : M * 2 ^ d ≤ a := by
      rw [← hqM]; exact Nat.div_mul_le_self a (2 ^ d)
    have h2 : a = M * 2 ^ d := Nat.le_antisymm h h1
    rw [h2, rneDiv_of_dvd]

theorem rneDiv_mul_pow (b d t : Nat) : rneDiv (b * 2 ^ t) (d + t) = rneDiv b d := by
  have hp : 0 < 2 ^ t := Nat.two_pow_pos _
  have h1 : b * 2 ^ t / 2 ^ (d + t) = b / 2 ^ d := by
    rw [pow_add, Nat.mul_div_mul_right _ _ hp]
  have h2 : b * 2 ^ t % 2 ^ (d + t) = b % 2 ^ d * 2 ^ t := by
    rw [pow_add, Nat.mul_mod_mul_right]
  rw [rneDiv_eq, rneDiv_eq, h1, h2]
  have e1 : (2 * (b % 2 ^ d * 2 ^ t) < 2 ^ (d + t)) ↔ (2 * (b % 2 ^ d) < 2 ^ d) := by
    rw [pow_add, ← Nat.mul_assoc]; exact Nat.mul_lt_mul_right hp
  have e2 : (2 ^ (d + t) < 2 * (b % 2 ^ d * 2 ^ t)) ↔ (2 ^ d < 2 * (b % 2 ^ d)) := by
    rw [pow_add, ← Nat.mul_assoc]; exact Nat.mul_lt_mul_right hp
  simp only [e1, e2]

theorem size_div_pow {a m : Nat} (h : 2 ^ m ≤ a) : Nat.size (a / 2 ^ m) + m = Nat.size a := by
  have hp : 0 < 2 ^ m := Nat.two_pow_pos _
  have hq : 1 ≤ a / 2 ^ m := (Nat.le_div_iff_mul_le hp).2 (by simpa using h)
  have hs : 1 ≤ Nat.size (a / 2 ^ m) := by
    have : 0 < Nat.size (a / 2 ^ m) := Nat.size_pos.2 hq
    omega
  apply Nat.le_antisymm
  · have h1 : Nat.size (a / 2 ^ m) - 1 < Nat.size (a / 2 ^ m) := by omega
    have h2 := Nat.lt_size.1 h1
    have h3 : 2 ^ (Nat.size (a / 2 ^ m) - 1) * 2 ^ m ≤ a := (Nat.le_div_iff_mul_le hp).1 h2
    rw [← pow_add] at h3
    have h4 : Nat.size (a / 2 ^ m) - 1 + m < Nat.size a := Nat.lt_size.2 h3
    omega
  · apply Nat.size_le.2
    have h1 := Nat.lt_size_self (a / 2 ^ m)
    rw [pow_add]
    exact (Nat.div_lt_iff_lt_mul hp).1 h1

theorem bitlenAux_spec (k : Nat) : ∀ a acc : Nat, a < 2 ^ 2 ^ k →
    bitlenAux k a acc = acc + Nat.size a := by
  induction k with
  | zero =>
    intro a acc h
    have h2 : a < 2 := by simpa using h
    interval_cases a <;> simp [bitlenAux, Nat.size_zero, Nat.size_one]
  | succ k ih =>
    intro a acc h
    have hp : 0 < 2 ^ 2 ^ k := Nat.two_pow_pos _
    have hk : 2 ^ 2 ^ (k + 1) = 2 ^ 2 ^ k * 2 ^ 2 ^ k := by
      rw [← pow_add, pow_succ, Nat.mul_two]
    unfold bitlenAux
    rw [Nat.shiftRight_eq_div_pow]
    by_cases h0 : a / 2 ^ 2 ^ k = 0
    · rw [if_pos h0]
      exact ih a acc ((Nat.div_eq_zero_iff hp).1 h0)
    · rw [if_neg h0]
      have hge : 2 ^ 2 ^ k ≤ a := by
        by_contra hc
        exact h0 ((Nat.div_eq_zero_iff hp).2 (Nat.lt_of_not_ge hc))
      have hlt : a / 2 ^ 2 ^ k < 2 ^ 2 ^ k := by
        apply (Nat.div_lt_iff_lt_mul hp).2
        rw [← hk]; exact h
      rw [ih _ _ hlt, ← size_div_pow hge]
      omega

theorem bitlen_eq_size {a : Nat} (h : a < 2 ^ 1024) : bitlen a = Nat.size a := by
  have h10 : (2 : Nat) ^ 10 = 1024 := by decide
  have := bitlenAux_spec 10 a 0 (by rw [h10]; exact h)
  rw [Nat.zero_add] at this
  exact this

theorem roundMag_eq (a s : Nat) :
    roundMag a s = rneDiv a (max s (bitlen a - 24)) * 2 ^ (max s (bitlen a - 24) - s) := by
  simp only [roundMag, Nat.shiftLeft_eq]

theorem roundMag_rep {a : Nat} (s : Nat) (h : a < 2 ^ 1024) :
    ∃ Q k, roundMag a s = Q * 2 ^ k ∧ Q ≤ 2 ^ 24 := by
  refine ⟨rneDiv a (max s (bitlen a - 24)), max s (bitlen a - 24) - s, roundMag_eq a s, ?_⟩
  apply rneDiv_le_of_le
  rw [bitlen_eq_size h, ← pow_add]
  have h1 := Nat.lt_size_self a
  have h2 : Nat.size a ≤ 24 + max s (Nat.size a - 24) := by omega
  exact Nat.le_of_lt (Nat.lt_of_lt_of_le h1 (Nat.pow_le_pow_right (by decide) h2))

theorem roundMag_exact {Q t s : Nat} (hQ : Q < 2 ^ 24) (hts : s ≤ t)
    (hb : Q * 2 ^ t < 2 ^ 1024) : roundMag (Q * 2 ^ t) s = Q * 2 ^ (t - s) := by
  have hsz : Nat.size (Q * 2 ^ t) ≤ 24 + t := by
    apply Nat.size_le.2
    rw [pow_add]
    exact Nat.mul_lt_mul_of_pos_right hQ (Nat.two_pow_pos t)
  rw [roundMag_eq, bitlen_eq_size hb]
  generalize hd : max s (Nat.size (Q * 2 ^ t) - 24) = d
  have hdt : d ≤ t := by omega
  have hsd : s ≤ d := by omega
  have e1 : Q * 2 ^ t = Q * 2 ^ (t - d) * 2 ^ d := by
    rw [Nat.mul_assoc, ← pow_add, Nat.sub_add_cancel hdt]
  rw [e1, rneDiv_of_dvd, Nat.mul_assoc, ← pow_add]
  congr 2
  omega

theorem roundMag_le {a k s : Nat} (h : a < 2 ^ 1024) (hk : a ≤ 2 ^ k) (hs : s ≤ k) :
    roundMag a s ≤ 2 ^ (k - s) := by
  have hsz : Nat.size a ≤ k + 1 :=
    Nat.size_le.2 (Nat.lt_of_le_of_lt hk (Nat.pow_lt_pow_right (by decide) (Nat.lt_succ_self k)))
  rw [roundMag_eq, bitlen_eq_size h]
  generalize hd : max s (Nat.size a - 24) = d
  have hdk : d ≤ k := by omega
  have hsd : s ≤ d := by omega
  have h1 : rneDiv a d ≤ 2 ^ (k - d) := by
    apply rneDiv_le_of_le
    rw [← pow_add, Nat.sub_add_cancel hdk]
    exact hk
  calc rneDiv a d * 2 ^ (d - s) ≤ 2 ^ (k - d) * 2 ^ (d - s) := Nat.mul_le_mul_right _ h1
    _ = 2 ^ (k - s) := by rw [← pow_add]; congr 1; omega

theorem roundMag_ge {a k s : Nat} (h : a < 2 ^ 1024) (hk : 2 ^ k ≤ a) (hs : s ≤ k) :
    2 ^ (k - s) ≤ roundMag a s := by
  rw [roundMag_eq, bitlen_eq_size h]
  generalize hd : max s (Nat.size a - 24) = d
  have hsd : s ≤ d := by omega
  rcases Nat.lt_or_ge k d with hkd | hdk
  · have hsize : Nat.size a = d + 24 := by omega
    have h1 : 2 ^ (d + 23) ≤ a := by
      apply Nat.lt_size.1
      omega
    have h2 : 2 ^ 23 ≤ a / 2 ^ d := by
      apply (Nat.le_div_iff_mul_le (Nat.two_pow_pos d)).2
      rw [← pow_add, Nat.add_comm]
      exact h1
    have h3 : 2 ^ 23 ≤ rneDiv a d := Nat.le_trans h2 (rneDiv_ge a d)
    calc 2 ^ (k - s) ≤ 2 ^ (23 + (d - s)) := Nat.pow_le_pow_right (by decide) (by omega)
      _ = 2 ^ 23 * 2 ^ (d - s) := by rw [pow_add]
      _ ≤ rneDiv a d * 2 ^ (d - s) := Nat.mul_le_mul_right _ h3
  · have h2 : 2 ^ (k - d) ≤ a / 2 ^ d := by
      apply (Nat.le_div_iff_mul_le (Nat.two_pow_pos d)).2
      rw [← pow_add, Nat.sub_add_cancel hdk]
      exact hk
    have h3 : 2 ^ (k - d) ≤ rneDiv a d := Nat.le_trans h2 (rneDiv_ge a d)
    calc 2 ^ (k - s) = 2 ^ (k - d) * 2 ^ (d - s) := by rw [← pow_add]; congr 1; omega
      _ ≤ rneDiv a d * 2 ^ (d - s) := Nat.mul_le_mul_right _ h3

theorem F32.ofMag_of_lt (neg : Bool) {a s : Nat} (h : roundMag a s < 2 ^ 128 * 2 ^ 149) :
    F32.ofMag neg a s = F32.fin neg (roundMag a s) h := by
  unfold F32.ofMag
  rw [dif_pos h]

theorem F32.ofMag_cases (neg : Bool) (a s : Nat) :
    (∃ h, F32.ofMag neg a s = F32.fin neg (roundMag a s) h) ∨ F32.ofMag neg a s = F32.inf neg := by
  unfold F32.ofMag
  by_cases h : roundMag a s < 2 ^ 128 * 2 ^ 149
  · left; exact ⟨h, by rw [dif_pos h]⟩
  · right; rw [dif_neg h]

theorem pow_bound_mul {n1 n2 : Nat} (h1 : n1 < 2 ^ 128 * 2 ^ 149) (h2 : n2 < 2 ^ 128 * 2 ^ 149) :
    n1 * n2 < 2 ^ 1024 := by
  have e : (2 : Nat) ^ 128 * 2 ^ 149 = 2 ^ 277 := by rw [← pow_add]
  rw [e] at h1 h2
  have e2 : ∀ m : Nat, m = 277 → (2 : Nat) ^ m * 2 ^ m ≤ 2 ^ 1024 := by
    intro m hm
    rw [← pow_add]
    exact Nat.pow_le_pow_right (by decide : 2 > 0) (by omega : m + m ≤ 1024)
  exact Nat.lt_of_lt_of_le (Nat.mul_lt_mul'' h1 h2) (e2 277 rfl)

/-- Integer magnitude read by `lrintf` / CVTPS2DQ from a value on the binary32
grid stays clear of `2^63` by at least `2^39` unless it reaches `2^63`. -/
theorem rneDiv_grid_bound {Q k : Nat} (hQ : Q ≤ 2 ^ 24) (h : rneDiv (Q * 2 ^ k) 149 < 2 ^ 63) :
    rneDiv (Q * 2 ^ k) 149 + 2 ^ 39 ≤ 2 ^ 63 := by
  rcases Nat.lt_or_ge k 149 with hk | hk
  · have h1 : rneDiv (Q * 2 ^ k) 149 ≤ 2 ^ 24 := by
      apply rneDiv_le_of_le
      calc Q * 2 ^ k ≤ 2 ^ 24 * 2 ^ k := Nat.mul_le_mul_right _ hQ
        _ ≤ 2 ^ 24 * 2 ^ 149 :=
          Nat.mul_le_mul_left _ (Nat.pow_le_pow_right (by decide) (Nat.le_of_lt hk))
    have : (2 : Nat) ^ 24 + 2 ^ 39 ≤ 2 ^ 63 := by decide
    omega
  · have e1 : Q * 2 ^ k = Q * 2 ^ (k - 149) * 2 ^ 149 := by
      rw [Nat.mul_assoc, ← pow_add, Nat.sub_add_cancel hk]
    rw [e1, rneDiv_of_dvd] at h ⊢
    generalize k - 149 = t at h ⊢
    rcases Nat.lt_or_ge t 39 with ht | ht
    · have h1 : Q * 2 ^ t ≤ 2 ^ 24 * 2 ^ 38 :=
        Nat.mul_le_mul hQ (Nat.pow_le_pow_right (by decide) (by omega))
      have : (2 : Nat) ^ 24 * 2 ^ 38 + 2 ^ 39 ≤ 2 ^ 63 := by decide
      omega
    · have e2 : Q * 2 ^ t = Q * 2 ^ (t - 39) * 2 ^ 39 := by
        rw [Nat.mul_assoc, ← pow_add, Nat.sub_add_cancel ht]
      rw [e2] at h ⊢
      generalize Q * 2 ^ (t - 39) = m at h ⊢
      have e3 : (2 : Nat) ^ 63 = 2 ^ 24 * 2 ^ 39 := by decide
      rw [e3] at h ⊢
      have hm : m < 2 ^ 24 := Nat.lt_of_mul_lt_mul_right h
      calc m * 2 ^ 39 + 2 ^ 39 = (m + 1) * 2 ^ 39 := by ring
        _ ≤ 2 ^ 24 * 2 ^ 39 := Nat.mul_le_mul_right _ hm

theorem lrintf_mag_bounds (neg : Bool) {Q k : Nat} (hQ : Q ≤ 2 ^ 24)
    (h : Q * 2 ^ k < 2 ^ 128 * 2 ^ 149) :
    -9223372036854775808 ≤ lrintf (F32.fin neg (Q * 2 ^ k) h) ∧
      lrintf (F32.fin neg (Q * 2 ^ k) h) + 549755813888 ≤ 9223372036854775808 := by
  have e63 : (2 : Nat) ^ 63 = 9223372036854775808 := by decide
  have e39 : (2 : Nat) ^ 39 = 549755813888 := by decide
  have hb := @rneDiv_grid_bound Q k hQ
  rw [e63, e39] at hb
  unfold lrintf
  simp only
  generalize rneDiv (Q * 2 ^ k) 149 = L at hb
  cases neg <;> simp only [F32.units, if_true, if_false, Bool.false_eq_true] <;>
    split_ifs <;> omega

theorem lrintf_mul_bounds (a b : F32) :
    -9223372036854775808 ≤ lrintf (F32.mul a b) ∧
      lrintf (F32.mul a b) + 549755813888 ≤ 9223372036854775808 := by
  cases a with
  | fin s1 n1 h1 =>
    cases b with
    | fin s2 n2 h2 =>
      simp only [F32.mul]
      rcases F32.ofMag_cases (xor s1 s2) (n1 * n2) 149 with ⟨h, e⟩ | e
      · rw [e]
        obtain ⟨Q, k, hQk, hQ⟩ := roundMag_rep 149 (pow_bound_mul h1 h2)
        clear e
        revert h
        rw [hQk]
        intro h
        exact lrintf_mag_bounds _ hQ h
      · rw [e]; simp [lrintf]
    | inf s2 => simp only [F32.mul]; split_ifs <;> simp [lrintf]
    | nan => simp [F32.mul, lrintf]
  | inf s1 =>
    cases b with
    | fin s2 n2 h2 => simp only [F32.mul]; split_ifs <;> simp [lrintf]
    | inf s2 => simp [F32.mul, lrintf]
    | nan => simp [F32.mul, lrintf]
  | nan => cases b <;> simp [F32.mul, lrintf]

theorem wrap64_of_range {x : Int} (h1 : -9223372036854775808 ≤ x) (h2 : x < 9223372036854775808) :
    wrap64 x = x := by
  unfold wrap64; omega

/-- For an output zero point in `[0, 255]` the sum `lrintf(ab) + C_zero_point_`
does not overflow `long`. -/
theorem rounded_no_overflow (a b : F32) {z : Int} (h0 : 0 ≤ z) (h1 : z ≤ 255) :
    wrap64 (lrintf (F32.mul a b) + z) = lrintf (F32.mul a b) + z := by
  have := lrintf_mul_bounds a b
  apply wrap64_of_range <;> omega

/-! ## Machine-integer lemmas -/

theorem Int32.ext {a b : Int32} (h : a.val = b.val) : a = b := by
  cases a; cases b; simp only [Int32.mk.injEq]; exact h

theorem Int32.sub_val (a b : Int32) : (a - b).val = wrap32 (a.val - b.val) := rfl
theorem Int32.add_val (a b : Int32) : (a + b).val = wrap32 (a.val + b.val) := rfl
theorem Int32.mul_val (a b : Int32) : (a * b).val = wrap32 (a.val * b.val) := rfl
theorem Int32.wrap_val_eq (x : Int) : (Int32.wrap x).val = wrap32 x := rfl
theorem Int32.zero_val : (0 : Int32).val = 0 := by decide

theorem wrap32_of_range {x : Int} (h1 : -2147483648 ≤ x) (h2 : x < 2147483648) :
    wrap32 x = x := by
  unfold wrap32; omega

theorem Int32.wrap_val (a : Int32) : Int32.wrap a.val = a :=
  Int32.ext (wrap32_of_range a.lo a.hi)

theorem wrap32_modEq (x : Int) : wrap32 x ≡ x [ZMOD 4294967296] := by
  unfold wrap32 Int.ModEq; omega

theorem wrap32_congr {a b : Int} (h : a ≡ b [ZMOD 4294967296]) : wrap32 a = wrap32 b := by
  unfold Int.ModEq at h; unfold wrap32; omega

theorem Int32.sub_mul_zero (a r z : Int32) (hz : z.val = 0) : a - r * z = a := by
  apply Int32.ext
  rw [Int32.sub_val, Int32.mul_val, hz, Int.mul_zero]
  have : wrap32 0 = 0 := by decide
  rw [this, Int.sub_zero]
  exact wrap32_of_range a.lo a.hi

theorem Int32.sub_zero (a : Int32) : a - (0 : Int32) = a := by
  apply Int32.ext
  rw [Int32.sub_val, Int32.zero_val, Int.sub_zero]
  exact wrap32_of_range a.lo a.hi

/-! ## Loop lemmas -/

theorem forLoop_one {σ : Type} (body : Nat → σ → σ) (n : Nat) :
    ∀ (fuel j : Nat) (s : σ), n ≤ fuel →
      forLoop body (j + n) 1 fuel j s = (j + n, (List.range' j n).foldl (fun s i => body i s) s) := by
  induction n with
  | zero =>
    intro fuel j s _
    cases fuel with
    | zero => rfl
    | succ f => simp [forLoop]
  | succ n ih =>
    intro fuel j s h
    cases fuel with
    | zero => omega
    | succ f =>
      have hlt : j < j + (n + 1) := by omega
      rw [forLoop, if_pos hlt]
      have e : j + (n + 1) = (j + 1) + n := by omega
      rw [e, ih f (j + 1) (body j s) (by omega)]
      simp [List.range'_succ]

theorem forLoop_step {σ : Type} (body : Nat → σ → σ) (step : Nat) (hstep : 0 < step) (m : Nat) :
    ∀ (fuel j : Nat) (s : σ), m ≤ fuel →
      forLoop body (j + m * step) step fuel j s =
        (j + m * step, (List.range' 0 m).foldl (fun s k => body (j + k * step) s) s) := by
  induction m with
  | zero =>
    intro fuel j s _
    cases fuel with
    | zero => simp [forLoop]
    | succ f => simp [forLoop]
  | succ m ih =>
    intro fuel j s h
    cases fuel with
    | zero => omega
    | succ f =>
      have hpos : 0 < (m + 1) * step := Nat.mul_pos (Nat.succ_pos m) hstep
      have hlt : j < j + (m + 1) * step := by omega
      rw [forLoop, if_pos hlt]
      have e : j + (m + 1) * step = (j + step) + m * step := by
        rw [Nat.succ_mul]; omega
      rw [e, ih f (j + step) (body j s) (by omega)]
      have e2 : List.range' 0 (m + 1) = 0 :: List.map (fun k => k + 1) (List.range' 0 m) := by
        rw [List.range'_succ, List.range'_eq_map_range, List.range'_eq_map_range]
        simp [Nat.add_comm]
      rw [e2]
      simp only [List.foldl_cons, List.foldl_map, Nat.zero_mul, Nat.add_zero]
      congr 2
      funext s k
      congr 1
      rw [Nat.succ_mul]; omega

theorem foldl_update_row {α : Type} (base cs : Nat) (v : Nat → α) :
    ∀ (n : Nat) (out : Nat → α),
      (List.range' cs n).foldl (fun o j => Function.update o (base + j) (v j)) out =
        rowWrite base cs n v out := by
  intro n
  induction n with
  | zero =>
    intro out
    funext p
    have h : ¬ (base + cs ≤ p ∧ p < base + cs + 0) := by omega
    simp only [rowWrite, List.range'_zero, List.foldl_nil, if_neg h]
  | succ n ih =>
    intro out
    rw [List.range'_1_concat, List.foldl_append, ih]
    funext p
    simp only [List.foldl_cons, List.foldl_nil, rowWrite, Function.update_apply]
    by_cases hp : p = base + (cs + n)
    · subst hp
      have : base + cs ≤ base + (cs + n) ∧ base + (cs + n) < base + cs + (n + 1) := by omega
      simp [this]
    · simp only [hp, if_false]
      by_cases h1 : base + cs ≤ p ∧ p < base + cs + n
      · have h2 : base + cs ≤ p ∧ p < base + cs + (n + 1) := by omega
        simp [h1, h2]
      · have h2 : ¬ (base + cs ≤ p ∧ p < base + cs + (n + 1)) := by omega
        simp [h1, h2]

theorem rows_spec {α : Type} (ld rs cs cn : Nat) (v : Nat → Nat → α) (hld : cn ≤ ld) :
    ∀ (n : Nat) (out : Nat → α),
      (∀ i j, rs ≤ i → i < rs + n → cs ≤ j → j < cs + cn →
        (List.range' rs n).foldl (fun o i => rowWrite (i * ld) cs cn (v i) o) out (i * ld + j)
          = v i j) ∧
      (∀ p, (∀ i, rs ≤ i → i < rs + n → ¬ (i * ld + cs ≤ p ∧ p < i * ld + cs + cn)) →
        (List.range' rs n).foldl (fun o i => rowWrite (i * ld) cs cn (v i) o) out p = out p) := by
  intro n
  induction n with
  | zero =>
    intro out
    constructor
    · intro i j h1 h2; omega
    · intro p _; rfl
  | succ n ih =>
    intro out
    obtain ⟨ih1, ih2⟩ := ih out
    rw [List.range'_1_concat, List.foldl_append]
    simp only [List.foldl_cons, List.foldl_nil]
    constructor
    · intro i j h1 h2 h3 h4
      by_cases hi : i = rs + n
      · subst hi
        have hin : (rs + n) * ld + cs ≤ (rs + n) * ld + j ∧
            (rs + n) * ld + j < (rs + n) * ld + cs + cn := by omega
        simp only [rowWrite, if_pos hin, Nat.add_sub_cancel_left]
      · have hlt : i < rs + n := by omega
        have hm : (i + 1) * ld ≤ (rs + n) * ld := Nat.mul_le_mul_right _ (by omega)
        rw [Nat.succ_mul] at hm
        have hout : ¬ ((rs + n) * ld + cs ≤ i * ld + j ∧
            i * ld + j < (rs + n) * ld + cs + cn) := by omega
        simp only [rowWrite, if_neg hout]
        exact ih1 i j h1 hlt h3 h4
    · intro p hp
      have hout : ¬ ((rs + n) * ld + cs ≤ p ∧ p < (rs + n) * ld + cs + cn) :=
        hp (rs + n) (by omega) (by omega)
      simp only [rowWrite, if_neg hout]
      exact ih2 p (fun i h1 h2 => hp i h1 (by omega))

theorem Int32.corr1 (x a c : Int32) : x - a * c = Int32.wrap (x.val - a.val * c.val) := by
  apply Int32.ext
  rw [Int32.wrap_val_eq, Int32.sub_val, Int32.mul_val]
  exact wrap32_congr (Int.ModEq.sub (Int.ModEq.refl _) (wrap32_modEq _))

theorem Int32.add_eq_wrap (x b : Int32) : x + b = Int32.wrap (x.val + b.val) := rfl

theorem Int32.wrap_sub (a b : Int) :
    Int32.wrap ((Int32.wrap a).val - b) = Int32.wrap (a - b) := by
  apply Int32.ext
  rw [Int32.wrap_val_eq, Int32.wrap_val_eq, Int32.wrap_val_eq]
  exact wrap32_congr (Int.ModEq.sub (wrap32_modEq _) (Int.ModEq.refl _))

theorem Int32.wrap_add (a b : Int) :
    Int32.wrap ((Int32.wrap a).val + b) = Int32.wrap (a + b) := by
  apply Int32.ext
  rw [Int32.wrap_val_eq, Int32.wrap_val_eq, Int32.wrap_val_eq]
  exact wrap32_congr (Int.ModEq.add (wrap32_modEq _) (Int.ModEq.refl _))

theorem ReQuantizeOutput.f_anyarch_body_eq (self : ReQuantizeOutput) (inp : Nat → Int32)
    (block : block_type_t) (ld_out ld_in g i j : Nat) (out : Nat → Int) :
    self.f_anyarch_body inp block ld_out ld_in g i j out =
      Function.update out (i * ld_out + j) (self.stored inp block ld_in g i j) := by
  unfold ReQuantizeOutput.f_anyarch_body ReQuantizeOutput.stored ReQuantizeOutput.corrected
  cases self.bias_ <;> cases self.q_row_offsets_ <;>
    simp only [Int32.corr1, Int32.add_eq_wrap, Int32.wrap_sub, Int32.wrap_add, Int.sub_zero,
      Int.add_zero, bucket]

theorem blockWrite_elem {α : Type} {ld rs rn cs cn : Nat} (v : Nat → Nat → α) (out : Nat → α)
    (hld : cn ≤ ld) {i j : Nat} (h1 : rs ≤ i) (h2 : i < rs + rn) (h3 : cs ≤ j) (h4 : j < cs + cn) :
    blockWrite ld rs rn cs cn v out (i * ld + j) = v i j :=
  (rows_spec ld rs cs cn v hld rn out).1 i j h1 h2 h3 h4

theorem blockWrite_frame {α : Type} {ld rs rn cs cn : Nat} (v : Nat → Nat → α) (out : Nat → α)
    (hld : cn ≤ ld) {p : Nat}
    (hp : ∀ i, rs ≤ i → i < rs + rn → ¬ (i * ld + cs ≤ p ∧ p < i * ld + cs + cn)) :
    blockWrite ld rs rn cs cn v out p = out p :=
  (rows_spec ld rs cs cn v hld rn out).2 p hp

theorem scalar_loops_eq {α : Type} (body : Nat → Nat → (Nat → α) → (Nat → α))
    (v : Nat → Nat → α) (ld rs rn cs cn : Nat)
    (hbody : ∀ i j o, body i j o = Function.update o (i * ld + j) (v i j)) (out : Nat → α) :
    (forLoop (fun i out => (forLoop (body i) (cs + cn) 1 cn cs out).2) (rs + rn) 1 rn rs out).2 =
      blockWrite ld rs rn cs cn v out := by
  rw [forLoop_one _ rn rn rs out (Nat.le_refl _)]
  unfold blockWrite
  simp only
  congr 1
  funext o i
  rw [forLoop_one _ cn cn cs o (Nat.le_refl _)]
  simp only
  have : (fun s j => body i j s) = (fun o j => Function.update o (i * ld + j) (v i j)) := by
    funext s j; exact hbody i j s
  rw [this, foldl_update_row]

theorem groups_ne_zero {ncols groups : Nat} (hg : 0 < ncols / groups) : groups ≠ 0 := by
  intro h; rw [h, Nat.div_zero] at hg; exact Nat.lt_irrefl 0 hg

theorem ReQuantizeOutput.f_anyarch_eq {ρ : Type} (self : ReQuantizeOutput)
    (nextop_ : NextOp Int Int ρ) (out : Nat → Int) (inp : Nat → Int32) (block : block_type_t)
    (ld_out ld_in : Nat) (hg : 0 < self.ncols_ / self.groups_)
    (hc : block.col_size ≤ self.ncols_ / self.groups_) :
    self.f nextop_ inst_set_t.anyarch out inp block ld_out ld_in =
      Except.ok (nextop_
        (blockWrite ld_out block.row_start block.row_size block.col_start block.col_size
          (self.stored inp block ld_in (block.col_start / (self.ncols_ / self.groups_))) out)
        (blockWrite ld_out block.row_start block.row_size block.col_start block.col_size
          (self.stored inp block ld_in (block.col_start / (self.ncols_ / self.groups_))) out)
        block ld_out ld_out) := by
  have h0 : self.groups_ ≠ 0 := groups_ne_zero hg
  have h1 : self.ncols_ / self.groups_ ≠ 0 := Nat.pos_iff_ne_zero.1 hg
  unfold ReQuantizeOutput.f
  simp only [h0, h1, hc, if_false, not_true_eq_false]
  rw [scalar_loops_eq (fun i j o => self.f_anyarch_body inp block ld_out ld_in
      (block.col_start / (self.ncols_ / self.groups_)) i j o)
    (self.stored inp block ld_in (block.col_start / (self.ncols_ / self.groups_)))
    ld_out block.row_start block.row_size block.col_start block.col_size
    (fun i j o => self.f_anyarch_body_eq inp block ld_out ld_in _ i j o) out]

theorem pack32_lane (x y z w : m256i_epi32) (zp lo hi : Int) (t : Nat) (ht : t < 32) :
    _mm256_permutevar8x32_epi32
      (_mm256_max_epu8 (_mm256_set1_epi8 lo)
        (_mm256_min_epu8
          (_mm256_packus_epi16
            (_mm256_adds_epi16 (_mm256_packs_epi32 x y) (_mm256_set1_epi16 zp))
            (_mm256_adds_epi16 (_mm256_packs_epi32 z w) (_mm256_set1_epi16 zp)))
          (_mm256_set1_epi8 hi)))
      permute_mask_v t =
    max (lo % 256)
      (min (satu8 (sat16 (sat16
        (if t < 8 then x t else if t < 16 then y (t - 8) else if t < 24 then z (t - 16)
          else w (t - 24)).val + wrap16 zp))) (hi % 256)) := by
  interval_cases t <;> rfl

theorem pack8_lane (x : m256i_epi32) (zp lo hi : Int) (t : Nat) (ht : t < 8) :
    _mm256_castsi256_si128 (_mm256_permutevar8x32_epi32
      (_mm256_max_epu8 (_mm256_set1_epi8 lo)
        (_mm256_min_epu8
          (_mm256_packus_epi16
            (_mm256_adds_epi16 (_mm256_packs_epi32 x _mm256_setzero_si256) (_mm256_set1_epi16 zp))
            _mm256_setzero_si256_epi16)
          (_mm256_set1_epi8 hi)))
      permute_mask_v) t =
    max (lo % 256) (min (satu8 (sat16 (sat16 (x t).val + wrap16 zp))) (hi % 256)) := by
  interval_cases t <;> rfl


theorem Int32.sub_eq_wrap (x y : Int32) : x - y = Int32.wrap (x.val - y.val) := rfl

theorem Int32.mul_eq_wrap (x y : Int32) : x * y = Int32.wrap (x.val * y.val) := rfl

theorem Int32.wrap_sub_right (a b : Int) :
    Int32.wrap (a - (Int32.wrap b).val) = Int32.wrap (a - b) := by
  apply Int32.ext
  rw [Int32.wrap_val_eq, Int32.wrap_val_eq, Int32.wrap_val_eq]
  exact wrap32_congr (Int.ModEq.sub (Int.ModEq.refl _) (wrap32_modEq _))

theorem ReQuantizeOutput.f_raw_eq (self : ReQuantizeOutput) (A B H : Bool)
    (hA : A = decide (self.Aq_zero_point_.val = 0))
    (hB : B = decide ((self.Q_GRAN = QuantizationGranularity.TENSOR ∧
        (self.Bq_zero_point_ 0).val = 0) ∨ self.q_row_offsets_.isNone))
    (hH : H = self.bias_.isSome)
    (q : Nat) (hq : self.Q_GRAN = QuantizationGranularity.TENSOR → q = 0)
    (x rov : Int32) (r c : Nat)
    (hrov : self.Q_GRAN ≠ QuantizationGranularity.OUT_CHANNEL → rov = self.f_row_offset B q r) :
    self.f_raw A B H x rov r c =
      Int32.wrap (x.val - self.Aq_zero_point_.val * (self.q_col_offsets_ c).val
        - (match self.q_row_offsets_ with
           | some ro => (ro r).val * (self.Bq_zero_point_ (bucket self.Q_GRAN q c)).val
           | none => 0)
        + (match self.bias_ with
           | some b => (b c).val
           | none => 0)) := by
  subst hA hB hH
  unfold ReQuantizeOutput.f_raw
  unfold ReQuantizeOutput.f_row_offset at hrov
  cases hro : self.q_row_offsets_ <;> cases hbi : self.bias_ <;>
    cases hQ : self.Q_GRAN <;>
    by_cases hz : self.Aq_zero_point_.val = 0 <;>
    by_cases hzb : (self.Bq_zero_point_ 0).val = 0 <;>
    simp [hro, hbi, hQ, hz, hzb, bucket, deref, Int32.wrap_val, Int32.corr1, Int32.add_eq_wrap,
      Int32.wrap_sub, Int32.wrap_add] at hrov ⊢
  all_goals
    subst hrov
    try (have hq0 := hq hQ; subst hq0)
    simp [Int32.wrap_val, Int32.sub_eq_wrap, Int32.mul_eq_wrap, Int32.add_eq_wrap,
      Int32.wrap_sub, Int32.wrap_sub_right, Int32.wrap_add, hz, hzb]

theorem reg_lane (self : ReQuantizeOutput) (A B H : Bool) (q r c t : Nat)
    (xv rov : m256i_epi32) :
    let A_zero_point_v := _mm256_set1_epi32 self.Aq_zero_point_
    let OUT_CHANNEL : Bool := decide (self.Q_GRAN = QuantizationGranularity.OUT_CHANNEL)
    let multiplier_v := _mm256_set1_ps (self.C_multiplier_ q)
    let x_v := if !A then _mm256_sub_epi32 xv
      (_mm256_mullo_epi32 A_zero_point_v (_mm256_loadu_si256 self.q_col_offsets_ c)) else xv
    let row_offset_v := if !B && OUT_CHANNEL then
      _mm256_mullo_epi32 (_mm256_set1_epi32 (deref self.q_row_offsets_ r))
        (_mm256_loadu_si256 self.Bq_zero_point_ c)
      else rov
    let x_v := if !B then _mm256_sub_epi32 x_v row_offset_v else x_v
    let x_v := if H then
      _mm256_add_epi32 x_v (_mm256_loadu_si256 (deref self.bias_) c) else x_v
    let x_scaled_v := if OUT_CHANNEL then
      _mm256_mul_ps (_mm256_cvtepi32_ps x_v) (_mm256_loadu_ps self.C_multiplier_ c)
      else _mm256_mul_ps (_mm256_cvtepi32_ps x_v) multiplier_v
    _mm256_cvtps_epi32 x_scaled_v t =
      cvtps_epi32 (F32.mul (F32.ofInt32 (self.f_raw A B H (xv t) (rov t) r (c + t)))
        (if self.Q_GRAN = QuantizationGranularity.OUT_CHANNEL then self.C_multiplier_ (c + t)
         else self.C_multiplier_ q)) := by
  by_cases hOC : self.Q_GRAN = QuantizationGranularity.OUT_CHANNEL <;>
    cases A <;> cases B <;> cases H <;>
    simp [hOC, ReQuantizeOutput.f_raw, _mm256_cvtps_epi32, _mm256_mul_ps, _mm256_cvtepi32_ps,
      _mm256_add_epi32, _mm256_sub_epi32, _mm256_mullo_epi32, _mm256_loadu_si256,
      _mm256_loadu_ps, _mm256_set1_epi32, _mm256_set1_ps]

theorem bucket_mult (self : ReQuantizeOutput) (q c : Nat)
    (hq : self.Q_GRAN = QuantizationGranularity.TENSOR → q = 0) :
    (if self.Q_GRAN = QuantizationGranularity.OUT_CHANNEL then self.C_multiplier_ c
      else self.C_multiplier_ q) = self.C_multiplier_ (bucket self.Q_GRAN q c) := by
  cases hQ : self.Q_GRAN
  · rw [hq hQ]; simp [bucket]
  · simp [bucket]
  · simp [bucket]

theorem lane_final (self : ReQuantizeOutput) (A B H : Bool) (hf : self.flags_ok A B H)
    (inp : Nat → Int32) (block : block_type_t) (ld_in q i c t : Nat)
    (hq : self.Q_GRAN = QuantizationGranularity.TENSOR → q = 0)
    (xv rov : m256i_epi32)
    (hx : xv t = inp ((i - block.row_start) * ld_in + (c + t - block.col_start)))
    (hrov : self.Q_GRAN ≠ QuantizationGranularity.OUT_CHANNEL →
      rov t = self.f_row_offset B q (i - block.row_start)) :
    let A_zero_point_v := _mm256_set1_epi32 self.Aq_zero_point_
    let OUT_CHANNEL : Bool := decide (self.Q_GRAN = QuantizationGranularity.OUT_CHANNEL)
    let multiplier_v := _mm256_set1_ps (self.C_multiplier_ q)
    let x_v := if !A then _mm256_sub_epi32 xv
      (_mm256_mullo_epi32 A_zero_point_v (_mm256_loadu_si256 self.q_col_offsets_ c)) else xv
    let row_offset_v := if !B && OUT_CHANNEL then
      _mm256_mullo_epi32 (_mm256_set1_epi32 (deref self.q_row_offsets_ (i - block.row_start)))
        (_mm256_loadu_si256 self.Bq_zero_point_ c)
      else rov
    let x_v := if !B then _mm256_sub_epi32 x_v row_offset_v else x_v
    let x_v := if H then
      _mm256_add_epi32 x_v (_mm256_loadu_si256 (deref self.bias_) c) else x_v
    let x_scaled_v := if OUT_CHANNEL then
      _mm256_mul_ps (_mm256_cvtepi32_ps x_v) (_mm256_loadu_ps self.C_multiplier_ c)
      else _mm256_mul_ps (_mm256_cvtepi32_ps x_v) multiplier_v
    _mm256_cvtps_epi32 x_scaled_v t = self.vlane inp block ld_in q i (c + t) := by
  have h := reg_lane self A B H q (i - block.row_start) c t xv rov
  simp only [] at h ⊢
  rw [h, self.f_raw_eq A B H hf.1 hf.2.1 hf.2.2 q hq (xv t) (rov t) (i - block.row_start)
    (c + t) hrov, bucket_mult self q (c + t) hq, hx]
  rfl

theorem ReQuantizeOutput.f_body8_eq (self : ReQuantizeOutput) (A B H : Bool)
    (hf : self.flags_ok A B H) (inp : Nat → Int32)
    (block : block_type_t) (ld_out ld_in q i j : Nat) (st : m256i_epi32 × (Nat → Int))
    (hq : self.Q_GRAN = QuantizationGranularity.TENSOR → q = 0)
    (hj : block.col_start ≤ j)
    (hinv : self.Q_GRAN ≠ QuantizationGranularity.OUT_CHANNEL →
      st.1 = _mm256_set1_epi32 (self.f_row_offset B q (i - block.row_start))) :
    (self.f_body8 A B H inp block ld_out ld_in q i j st).2 =
      rowWrite (i * ld_out) j 8 (self.vstored inp block ld_in q i) st.2 := by
  unfold ReQuantizeOutput.f_body8
  simp only []
  rw [← apply_ite _mm256_set1_epi8]
  funext p
  unfold _mm_storel_epi64 rowWrite
  by_cases hp : i * ld_out + j ≤ p ∧ p < i * ld_out + j + 8
  · rw [if_pos hp, if_pos hp, pack8_lane _ _ _ _ _ (by omega)]
    have h := lane_final self A B H hf inp block ld_in q i j (p - (i * ld_out + j)) hq
      (_mm256_loadu_si256 inp ((i - block.row_start) * ld_in + (j - block.col_start))) st.1
      (by unfold _mm256_loadu_si256; congr 1; omega)
      (fun hOC => by rw [hinv hOC]; rfl)
    simp only [] at h
    rw [h]
    have e : j + (p - (i * ld_out + j)) = p - i * ld_out := by omega
    rw [e]
    rfl
  · rw [if_neg hp, if_neg hp]

theorem ReQuantizeOutput.f_body8_fst (self : ReQuantizeOutput) (A B H : Bool)
    (inp : Nat → Int32) (block : block_type_t) (ld_out ld_in q i j : Nat)
    (st : m256i_epi32 × (Nat → Int))
    (hOC : self.Q_GRAN ≠ QuantizationGranularity.OUT_CHANNEL) :
    (self.f_body8 A B H inp block ld_out ld_in q i j st).1 = st.1 := by
  unfold ReQuantizeOutput.f_body8
  simp [hOC]

theorem ReQuantizeOutput.f_body32_fst (self : ReQuantizeOutput) (A B H : Bool)
    (inp : Nat → Int32) (block : block_type_t) (ld_out ld_in q i j : Nat)
    (st : m256i_epi32 × (Nat → Int))
    (hOC : self.Q_GRAN ≠ QuantizationGranularity.OUT_CHANNEL) :
    (self.f_body32 A B H inp block ld_out ld_in q i j st).1 = st.1 := by
  unfold ReQuantizeOutput.f_body32
  simp [hOC]

theorem ReQuantizeOutput.f_body32_eq (self : ReQuantizeOutput) (A B H : Bool)
    (hf : self.flags_ok A B H) (inp : Nat → Int32)
    (block : block_type_t) (ld_out ld_in q i j : Nat) (st : m256i_epi32 × (Nat → Int))
    (hq : self.Q_GRAN = QuantizationGranularity.TENSOR → q = 0)
    (hj : block.col_start ≤ j)
    (hinv : self.Q_GRAN ≠ QuantizationGranularity.OUT_CHANNEL →
      st.1 = _mm256_set1_epi32 (self.f_row_offset B q (i - block.row_start))) :
    (self.f_body32 A B H inp block ld_out ld_in q i j st).2 =
      rowWrite (i * ld_out) j 32 (self.vstored inp block ld_in q i) st.2 := by
  unfold ReQuantizeOutput.f_body32
  simp only []
  rw [← apply_ite _mm256_set1_epi8]
  funext p
  unfold _mm256_storeu_si256 rowWrite
  by_cases hp : i * ld_out + j ≤ p ∧ p < i * ld_out + j + 32
  · rw [if_pos hp, if_pos hp, pack32_lane _ _ _ _ _ _ _ _ (by omega)]
    by_cases h8 : p - (i * ld_out + j) < 8
    · rw [if_pos h8]
      have h := lane_final self A B H hf inp block ld_in q i j (p - (i * ld_out + j)) hq
        (_mm256_loadu_si256 inp ((i - block.row_start) * ld_in + (j - block.col_start))) st.1
        (by unfold _mm256_loadu_si256; congr 1; omega)
        (fun hOC => by rw [hinv hOC]; rfl)
      simp only [] at h
      rw [h]
      have e : j + (p - (i * ld_out + j)) = p - i * ld_out := by omega
      rw [e]
      rfl
    · rw [if_neg h8]
      by_cases h16 : p - (i * ld_out + j) < 16
      · rw [if_pos h16]
        have h := lane_final self A B H hf inp block ld_in q i (j + VLEN)
          (p - (i * ld_out + j) - 8) hq
          (_mm256_loadu_si256 inp
            ((i - block.row_start) * ld_in + (j - block.col_start) + 1 * VLEN))
          (if (!B && decide (self.Q_GRAN = QuantizationGranularity.OUT_CHANNEL)) = true then
            _mm256_mullo_epi32
              (_mm256_set1_epi32 (deref self.q_row_offsets_ (i - block.row_start)))
              (_mm256_loadu_si256 self.Bq_zero_point_ j)
           else st.1)
          (by unfold _mm256_loadu_si256; simp only [VLEN]; congr 1; omega)
          (fun hOC => by
            simp only [decide_eq_false hOC, Bool.and_false, Bool.false_eq_true, if_false]
            rw [hinv hOC]; rfl)
        simp only [] at h
        rw [h]
        have e : j + VLEN + (p - (i * ld_out + j) - 8) = p - i * ld_out := by
          simp only [VLEN]; omega
        rw [e]
        rfl
      · rw [if_neg h16]
        by_cases h24 : p - (i * ld_out + j) < 24
        · rw [if_pos h24]
          have h := lane_final self A B H hf inp block ld_in q i (j + 2 * VLEN)
            (p - (i * ld_out + j) - 16) hq
            (_mm256_loadu_si256 inp
              ((i - block.row_start) * ld_in + (j - block.col_start) + 2 * VLEN))
            (if (!B && decide (self.Q_GRAN = QuantizationGranularity.OUT_CHANNEL)) = true then
              _mm256_mullo_epi32
                (_mm256_set1_epi32 (deref self.q_row_offsets_ (i - block.row_start)))
                (_mm256_loadu_si256 self.Bq_zero_point_ (j + VLEN))
             else
              if (!B && decide (self.Q_GRAN = QuantizationGranularity.OUT_CHANNEL)) = true then
                _mm256_mullo_epi32
                  (_mm256_set1_epi32 (deref self.q_row_offsets_ (i - block.row_start)))
                  (_mm256_loadu_si256 self.Bq_zero_point_ j)
              else st.1)
            (by unfold _mm256_loadu_si256; simp only [VLEN]; congr 1; omega)
            (fun hOC => by
              simp only [decide_eq_false hOC, Bool.and_false, Bool.false_eq_true, if_false]
              rw [hinv hOC]; rfl)
          simp only [] at h
          rw [h]
          have e : j + 2 * VLEN + (p - (i * ld_out + j) - 16) = p - i * ld_out := by
            simp only [VLEN]; omega
          rw [e]
          rfl
        · rw [if_neg h24]
          have h := lane_final self A B H hf inp block ld_in q i (j + 3 * VLEN)
            (p - (i * ld_out + j) - 24) hq
            (_mm256_loadu_si256 inp
              ((i - block.row_start) * ld_in + (j - block.col_start) + 3 * VLEN))
            (if (!B && decide (self.Q_GRAN = QuantizationGranularity.OUT_CHANNEL)) = true then
              _mm256_mullo_epi32
                (_mm256_set1_epi32 (deref self.q_row_offsets_ (i - block.row_start)))
                (_mm256_loadu_si256 self.Bq_zero_point_ (j + 2 * VLEN))
             else
              if (!B && decide (self.Q_GRAN = QuantizationGranularity.OUT_CHANNEL)) = true then
                _mm256_mullo_epi32
                  (_mm256_set1_epi32 (deref self.q_row_offsets_ (i - block.row_start)))
                  (_mm256_loadu_si256 self.Bq_zero_point_ (j + VLEN))
              else
                if (!B && decide (self.Q_GRAN = QuantizationGranularity.OUT_CHANNEL)) = true then
                  _mm256_mullo_epi32
                    (_mm256_set1_epi32 (deref self.q_row_offsets_ (i - block.row_start)))
                    (_mm256_loadu_si256 self.Bq_zero_point_ j)
                else st.1)
            (by unfold _mm256_loadu_si256; simp only [VLEN]; congr 1; omega)
            (fun hOC => by
              simp only [decide_eq_false hOC, Bool.and_false, Bool.false_eq_true, if_false]
              rw [hinv hOC]; rfl)
          simp only [] at h
          rw [h]
          have e : j + 3 * VLEN + (p - (i * ld_out + j) - 24) = p - i * ld_out := by
            simp only [VLEN]; omega
          rw [e]
          rfl
  · rw [if_neg hp, if_neg hp]

theorem rowWrite_comp {α : Type} (base cs n1 n2 : Nat) (v1 v2 : Nat → α) (out : Nat → α) :
    rowWrite base (cs + n1) n2 v2 (rowWrite base cs n1 v1 out) =
      rowWrite base cs (n1 + n2) (fun c => if c < cs + n1 then v1 c else v2 c) out := by
  funext p
  unfold rowWrite
  by_cases h2 : base + (cs + n1) ≤ p ∧ p < base + (cs + n1) + n2
  · have h3 : base + cs ≤ p ∧ p < base + cs + (n1 + n2) := by omega
    have h4 : ¬ (p - base < cs + n1) := by omega
    rw [if_pos h2, if_pos h3]
    simp only [if_neg h4]
  · rw [if_neg h2]
    by_cases h1 : base + cs ≤ p ∧ p < base + cs + n1
    · have h3 : base + cs ≤ p ∧ p < base + cs + (n1 + n2) := by omega
      have h4 : p - base < cs + n1 := by omega
      rw [if_pos h1, if_pos h3]
      simp only [if_pos h4]
    · have h3 : ¬ (base + cs ≤ p ∧ p < base + cs + (n1 + n2)) := by omega
      rw [if_neg h1, if_neg h3]

theorem rowWrite_self_comp {α : Type} (base cs n1 n2 : Nat) (v : Nat → α) (out : Nat → α) :
    rowWrite base (cs + n1) n2 v (rowWrite base cs n1 v out) = rowWrite base cs (n1 + n2) v out := by
  rw [rowWrite_comp]
  simp only [ite_self]

theorem rowWrite_zero {α : Type} (base cs : Nat) (v : Nat → α) (out : Nat → α) :
    rowWrite base cs 0 v out = out := by
  funext p
  unfold rowWrite
  have h : ¬ (base + cs ≤ p ∧ p < base + cs + 0) := by omega
  rw [if_neg h]

theorem rowWrite_one {α : Type} (base c : Nat) (v : Nat → α) (out : Nat → α) :
    Function.update out (base + c) (v c) = rowWrite base c 1 v out := by
  funext p
  unfold rowWrite
  by_cases hp : p = base + c
  · subst hp
    have h : base + c ≤ base + c ∧ base + c < base + c + 1 := by omega
    rw [if_pos h, Function.update_same, Nat.add_sub_cancel_left]
  · have h : ¬ (base + c ≤ p ∧ p < base + c + 1) := by omega
    rw [if_neg h, Function.update_noteq hp]

/-- A loop whose iteration `k` stores the `w` values of columns
`cs + k*w .. cs + k*w + w - 1` and preserves an invariant of the carried
register stores `m * w` consecutive columns. -/
theorem fold_rows {σ : Type} (body : Nat → σ × (Nat → Int) → σ × (Nat → Int)) (w : Nat)
    (val : Nat → Int) (base cs : Nat) (Inv : σ → Prop)
    (hbody : ∀ k s, Inv s.1 → (body (cs + k * w) s).2 = rowWrite base (cs + k * w) w val s.2 ∧
      Inv (body (cs + k * w) s).1) :
    ∀ (m : Nat) (s : σ × (Nat → Int)), Inv s.1 →
      ((List.range' 0 m).foldl (fun s k => body (cs + k * w) s) s).2 =
          rowWrite base cs (m * w) val s.2 ∧
        Inv ((List.range' 0 m).foldl (fun s k => body (cs + k * w) s) s).1 := by
  intro m
  induction m with
  | zero =>
    intro s hs
    simp only [List.range'_zero, List.foldl_nil, Nat.zero_mul]
    exact ⟨(rowWrite_zero _ _ _ _).symm, hs⟩
  | succ m ih =>
    intro s hs
    rw [List.range'_1_concat, List.foldl_append]
    simp only [List.foldl_cons, List.foldl_nil, Nat.zero_add]
    obtain ⟨h1, h2⟩ := ih s hs
    obtain ⟨h3, h4⟩ := hbody m _ h2
    refine ⟨?_, h4⟩
    rw [h3, h1, rowWrite_self_comp, Nat.succ_mul]

theorem ReQuantizeOutput.f_body1_eq (self : ReQuantizeOutput) (A B H : Bool)
    (hf : self.flags_ok A B H) (inp : Nat → Int32)
    (block : block_type_t) (ld_out ld_in q i j : Nat) (st : Int32 × (Nat → Int))
    (hq : self.Q_GRAN = QuantizationGranularity.TENSOR → q = 0)
    (hinv : self.Q_GRAN ≠ QuantizationGranularity.OUT_CHANNEL →
      st.1 = self.f_row_offset B q (i - block.row_start)) :
    (self.f_body1 A B H inp block ld_out ld_in q i j st).2 =
      rowWrite (i * ld_out) j 1 (self.stored inp block ld_in q i) st.2 := by
  rw [← rowWrite_one]
  have h := self.f_raw_eq A B H hf.1 hf.2.1 hf.2.2 q hq
    (inp ((i - block.row_start) * ld_in + (j - block.col_start))) st.1 (i - block.row_start) j hinv
  unfold ReQuantizeOutput.f_raw at h
  simp only [] at h
  unfold ReQuantizeOutput.f_body1 ReQuantizeOutput.stored ReQuantizeOutput.corrected
  simp only []
  rw [h, bucket_mult self q j hq]

theorem ReQuantizeOutput.f_body1_fst (self : ReQuantizeOutput) (A B H : Bool)
    (inp : Nat → Int32) (block : block_type_t) (ld_out ld_in q i j : Nat)
    (st : Int32 × (Nat → Int))
    (hOC : self.Q_GRAN ≠ QuantizationGranularity.OUT_CHANNEL) :
    (self.f_body1 A B H inp block ld_out ld_in q i j st).1 = st.1 := by
  unfold ReQuantizeOutput.f_body1
  simp [hOC]

theorem ReQuantizeOutput.f_row_eq (self : ReQuantizeOutput) (A B H : Bool)
    (hf : self.flags_ok A B H) (inp : Nat → Int32)
    (block : block_type_t) (ld_out ld_in q i : Nat) (out : Nat → Int)
    (hq : self.Q_GRAN = QuantizationGranularity.TENSOR → q = 0) :
    self.f_row A B H inp block ld_out ld_in q i out =
      rowWrite (i * ld_out) block.col_start block.col_size
        (self.f_stored inp block ld_in q i) out := by
  unfold ReQuantizeOutput.f_row
  simp only []
  have hR : (if B = true then (0 : Int32)
      else if self.Q_GRAN = QuantizationGranularity.TENSOR ∨
          self.Q_GRAN = QuantizationGranularity.GROUP then
        deref self.q_row_offsets_ (i - block.row_start) * self.Bq_zero_point_ q
      else 0) = self.f_row_offset B q (i - block.row_start) := rfl
  rw [hR]
  generalize hRv : self.f_row_offset B q (i - block.row_start) = R
  -- the 32-column loop
  have e32 : block.col_start + block.col_size / (VLEN * 4) * (VLEN * 4) =
      block.col_start + block.col_size / 32 * 32 := rfl
  have e8 : block.col_start + block.col_size / VLEN * VLEN =
      (block.col_start + block.col_size / 32 * 32) +
        (block.col_size / 8 - 4 * (block.col_size / 32)) * 8 := by
    simp only [VLEN]; omega
  have e1 : block.col_start + block.col_size =
      (block.col_start + block.col_size / 32 * 32 +
        (block.col_size / 8 - 4 * (block.col_size / 32)) * 8) +
        (block.col_size - block.col_size / 8 * 8) * 1 := by
    omega
  have eV4 : VLEN * 4 = 32 := rfl
  have eV : VLEN = 8 := rfl
  rw [e32, eV4, forLoop_step _ 32 (by decide) (block.col_size / 32) block.col_size
    block.col_start _ (by omega)]
  obtain ⟨h32a, h32b⟩ := fold_rows
    (self.f_body32 A B H inp block ld_out ld_in q i) 32 (self.vstored inp block ld_in q i)
    (i * ld_out) block.col_start
    (fun s => self.Q_GRAN ≠ QuantizationGranularity.OUT_CHANNEL → s = _mm256_set1_epi32 R)
    (fun k s hs => ⟨self.f_body32_eq A B H hf inp block ld_out ld_in q i _ s hq (by omega)
        (by rw [hRv]; exact hs),
      fun hOC => by rw [self.f_body32_fst A B H inp block ld_out ld_in q i _ s hOC]; exact hs hOC⟩)
    (block.col_size / 32) (_mm256_set1_epi32 R, out) (fun _ => rfl)
  simp only [] at h32a h32b ⊢
  generalize (List.range' 0 (block.col_size / 32)).foldl
    (fun s k => self.f_body32 A B H inp block ld_out ld_in q i (block.col_start + k * 32) s)
    (_mm256_set1_epi32 R, out) = s32 at h32a h32b ⊢
  -- the 8-column loop
  rw [e8, eV, forLoop_step _ 8 (by decide) (block.col_size / 8 - 4 * (block.col_size / 32))
    block.col_size _ s32 (by omega)]
  obtain ⟨h8a, h8b⟩ := fold_rows
    (self.f_body8 A B H inp block ld_out ld_in q i) 8 (self.vstored inp block ld_in q i)
    (i * ld_out) (block.col_start + block.col_size / 32 * 32)
    (fun s => self.Q_GRAN ≠ QuantizationGranularity.OUT_CHANNEL → s = _mm256_set1_epi32 R)
    (fun k s hs => ⟨self.f_body8_eq A B H hf inp block ld_out ld_in q i _ s hq (by omega)
        (by rw [hRv]; exact hs),
      fun hOC => by rw [self.f_body8_fst A B H inp block ld_out ld_in q i _ s hOC]; exact hs hOC⟩)
    (block.col_size / 8 - 4 * (block.col_size / 32)) s32 h32b
  simp only [] at h8a h8b ⊢
  generalize (List.range' 0 (block.col_size / 8 - 4 * (block.col_size / 32))).foldl
    (fun s k => self.f_body8 A B H inp block ld_out ld_in q i
      (block.col_start + block.col_size / 32 * 32 + k * 8) s) s32 = s8 at h8a h8b ⊢
  -- the remainder loop
  rw [e1, forLoop_step _ 1 (by decide) (block.col_size - block.col_size / 8 * 8)
    block.col_size _ (R, s8.2) (by omega)]
  obtain ⟨h1a, _⟩ := fold_rows
    (self.f_body1 A B H inp block ld_out ld_in q i) 1 (self.stored inp block ld_in q i)
    (i * ld_out) (block.col_start + block.col_size / 32 * 32 +
      (block.col_size / 8 - 4 * (block.col_size / 32)) * 8)
    (fun s => self.Q_GRAN ≠ QuantizationGranularity.OUT_CHANNEL → s = R)
    (fun k s hs => ⟨self.f_body1_eq A B H hf inp block ld_out ld_in q i _ s hq
        (by rw [hRv]; exact hs),
      fun hOC => by rw [self.f_body1_fst A B H inp block ld_out ld_in q i _ s hOC]; exact hs hOC⟩)
    (block.col_size - block.col_size / 8 * 8) (R, s8.2) (fun _ => rfl)
  simp only [] at h1a ⊢
  rw [h1a, h8a, h32a, rowWrite_self_comp, Nat.add_assoc block.col_start, rowWrite_comp]
  have en : block.col_size / 32 * 32 + (block.col_size / 8 - 4 * (block.col_size / 32)) * 8 +
      (block.col_size - block.col_size / 8 * 8) * 1 = block.col_size := by omega
  have em : block.col_start + (block.col_size / 32 * 32 +
      (block.col_size / 8 - 4 * (block.col_size / 32)) * 8) =
      block.col_start + block.col_size / 8 * 8 := by omega
  rw [en, em]
  rfl

theorem ReQuantizeOutput.quant_param_idx_tensor (self : ReQuantizeOutput) (block : block_type_t)
    (h : self.Q_GRAN = QuantizationGranularity.TENSOR) : self.quant_param_idx block = 0 := by
  unfold ReQuantizeOutput.quant_param_idx
  rw [h]
  simp

theorem ReQuantizeOutput.bucket_quant_param_idx (self : ReQuantizeOutput) (block : block_type_t)
    (j : Nat) :
    bucket self.Q_GRAN (self.quant_param_idx block) j =
      bucket self.Q_GRAN (block.col_start / (self.ncols_ / self.groups_)) j := by
  unfold ReQuantizeOutput.quant_param_idx
  cases h : self.Q_GRAN <;> simp [bucket]

theorem ReQuantizeOutput.f__eq (self : ReQuantizeOutput) (A B H : Bool)
    (hf : self.flags_ok A B H) (out : Nat → Int) (inp : Nat → Int32)
    (block : block_type_t) (ld_out ld_in : Nat)
    (hdiv : self.Q_GRAN = QuantizationGranularity.GROUP → 0 < self.ncols_ / self.groups_) :
    self.f_ A B H out inp block ld_out ld_in =
      Except.ok (blockWrite ld_out block.row_start block.row_size block.col_start block.col_size
        (self.f_stored inp block ld_in (self.quant_param_idx block)) out) := by
  have h1 : ¬ (self.Q_GRAN = QuantizationGranularity.GROUP ∧ self.groups_ = 0) := by
    rintro ⟨hG, h0⟩
    exact groups_ne_zero (hdiv hG) h0
  have h2 : ¬ (self.Q_GRAN = QuantizationGranularity.GROUP ∧ self.ncols_ / self.groups_ = 0) := by
    rintro ⟨hG, h0⟩
    have := hdiv hG
    omega
  obtain ⟨hA, hB, hH⟩ := hf
  have hA1 : ¬ (A ≠ decide (self.Aq_zero_point_.val = 0)) := fun h => h hA
  have hB1 : ¬ (B ≠ decide ((self.Q_GRAN = QuantizationGranularity.TENSOR ∧
      (self.Bq_zero_point_ 0).val = 0) ∨ self.q_row_offsets_.isNone)) := fun h => h hB
  have hH1 : ¬ (H ≠ self.bias_.isSome) := fun h => h hH
  unfold ReQuantizeOutput.f_
  rw [if_neg h1, if_neg h2]
  simp only []
  rw [if_neg hA1, if_neg hB1, if_neg hH1, forLoop_one _ block.row_size block.row_size
    block.row_start out (Nat.le_refl _)]
  simp only []
  unfold blockWrite
  congr 2
  funext o i
  exact self.f_row_eq A B H ⟨hA, hB, hH⟩ inp block ld_out ld_in _ i o
    (self.quant_param_idx_tensor block)

theorem ReQuantizeOutput.f_vec_eq {ρ : Type} (self : ReQuantizeOutput)
    (nextop_ : NextOp Int Int ρ) (instSet : inst_set_t) (hi : instSet ≠ inst_set_t.anyarch)
    (out : Nat → Int) (inp : Nat → Int32) (block : block_type_t)
    (ld_out ld_in : Nat) (hg : 0 < self.ncols_ / self.groups_)
    (hc : block.col_size ≤ self.ncols_ / self.groups_) :
    self.f nextop_ instSet out inp block ld_out ld_in =
      Except.ok (nextop_
        (blockWrite ld_out block.row_start block.row_size block.col_start block.col_size
          (self.f_stored inp block ld_in (self.quant_param_idx block)) out)
        (blockWrite ld_out block.row_start block.row_size block.col_start block.col_size
          (self.f_stored inp block ld_in (self.quant_param_idx block)) out)
        block ld_out ld_out) := by
  have h0 : self.groups_ ≠ 0 := groups_ne_zero hg
  have h1 : self.ncols_ / self.groups_ ≠ 0 := Nat.pos_iff_ne_zero.1 hg
  have key : ∀ A B H, self.flags_ok A B H →
      self.f_ A B H out inp block ld_out ld_in =
        Except.ok (blockWrite ld_out block.row_start block.row_size block.col_start
          block.col_size (self.f_stored inp block ld_in (self.quant_param_idx block)) out) :=
    fun A B H hf => self.f__eq A B H hf out inp block ld_out ld_in (fun _ => hg)
  unfold ReQuantizeOutput.f
  simp only [h0, h1, hc, if_false, not_true_eq_false]
  cases instSet with
  | anyarch => exact absurd rfl hi
  | avx2 =>
    simp only []
    by_cases hz : self.Aq_zero_point_.val = 0 <;>
      by_cases hb : ((self.Q_GRAN = QuantizationGranularity.TENSOR ∧
        (self.Bq_zero_point_ 0).val = 0) ∨ self.q_row_offsets_.isNone = true) <;>
      cases hbi : self.bias_ <;>
      simp only [hz, hb, hbi, if_true, if_false, decide_True, decide_False, Option.isNone_none,
        Option.isNone_some, Bool.false_eq_true] <;>
      rw [key _ _ _ ⟨by first | exact (decide_eq_true hz).symm | exact (decide_eq_false hz).symm,
        by first | exact (decide_eq_true hb).symm | exact (decide_eq_false hb).symm,
        by rw [hbi]; rfl⟩]
  | avx512 =>
    simp only []
    by_cases hz : self.Aq_zero_point_.val = 0 <;>
      by_cases hb : ((self.Q_GRAN = QuantizationGranularity.TENSOR ∧
        (self.Bq_zero_point_ 0).val = 0) ∨ self.q_row_offsets_.isNone = true) <;>
      cases hbi : self.bias_ <;>
      simp only [hz, hb, hbi, if_true, if_false, decide_True, decide_False, Option.isNone_none,
        Option.isNone_some, Bool.false_eq_true] <;>
      rw [key _ _ _ ⟨by first | exact (decide_eq_true hz).symm | exact (decide_eq_false hz).symm,
        by first | exact (decide_eq_true hb).symm | exact (decide_eq_false hb).symm,
        by rw [hbi]; rfl⟩]

theorem cvtps_lrintf (x : F32) :
    lrintf x = (cvtps_epi32 x).val ∨
    (lrintf x < -2147483648 ∧ (cvtps_epi32 x).val = -2147483648) ∨
    (2147483648 ≤ lrintf x ∧ (cvtps_epi32 x).val = -2147483648) := by
  cases x with
  | fin neg n h =>
    unfold lrintf cvtps_epi32
    simp only []
    by_cases h1 : -2147483648 ≤ F32.units neg (rneDiv n 149) ∧
        F32.units neg (rneDiv n 149) < 2147483648
    · rw [dif_pos h1]
      have h2 : -9223372036854775808 ≤ F32.units neg (rneDiv n 149) ∧
          F32.units neg (rneDiv n 149) < 9223372036854775808 := by omega
      rw [if_pos h2]
      left; rfl
    · rw [dif_neg h1]
      by_cases h2 : -9223372036854775808 ≤ F32.units neg (rneDiv n 149) ∧
          F32.units neg (rneDiv n 149) < 9223372036854775808
      · rw [if_pos h2]
        right
        by_cases h3 : F32.units neg (rneDiv n 149) < -2147483648
        · left; exact ⟨h3, rfl⟩
        · right; exact ⟨by omega, rfl⟩
      · rw [if_neg h2]
        right; left
        exact ⟨by decide, rfl⟩
  | inf s => right; left; simp [lrintf, cvtps_epi32]
  | nan => right; left; simp [lrintf, cvtps_epi32]

/-- The narrowing chain of the vector loops agrees with the scalar clamp when the
output zero point is in `[0, 255]` and the rounded value is below `2^31`. -/
theorem ReQuantizeOutput.vstored_eq_stored (self : ReQuantizeOutput) (inp : Nat → Int32)
    (block : block_type_t) (ld_in q i j : Nat)
    (hz0 : 0 ≤ self.C_zero_point_.val) (hz1 : self.C_zero_point_.val ≤ 255)
    (hov : lrintf (F32.mul
      (F32.ofInt32 (Int32.wrap (self.corrected inp block ld_in (bucket self.Q_GRAN q j) i j)))
      (self.C_multiplier_ (bucket self.Q_GRAN q j))) < 2147483648) :
    self.vstored inp block ld_in q i j = self.stored inp block ld_in q i j := by
  unfold ReQuantizeOutput.vstored ReQuantizeOutput.vlane ReQuantizeOutput.stored
  rw [rounded_no_overflow _ _ hz0 hz1]
  have h := cvtps_lrintf (F32.mul
      (F32.ofInt32 (Int32.wrap (self.corrected inp block ld_in (bucket self.Q_GRAN q j) i j)))
      (self.C_multiplier_ (bucket self.Q_GRAN q j)))
  have hlo := (cvtps_epi32 (F32.mul
      (F32.ofInt32 (Int32.wrap (self.corrected inp block ld_in (bucket self.Q_GRAN q j) i j)))
      (self.C_multiplier_ (bucket self.Q_GRAN q j)))).lo
  have hhi := (cvtps_epi32 (F32.mul
      (F32.ofInt32 (Int32.wrap (self.corrected inp block ld_in (bucket self.Q_GRAN q j) i j)))
      (self.C_multiplier_ (bucket self.Q_GRAN q j)))).hi
  generalize lrintf _ = l at h hov ⊢
  generalize (cvtps_epi32 _).val = v at h hlo hhi ⊢
  generalize self.C_zero_point_.val = z at hz0 hz1 ⊢
  unfold toUInt8 satu8 sat16 wrap16
  split_ifs <;> omega

theorem rowWrite_congr {α : Type} (base cs cn : Nat) (v1 v2 : Nat → α) (out : Nat → α)
    (h : ∀ c, cs ≤ c → c < cs + cn → v1 c = v2 c) :
    rowWrite base cs cn v1 out = rowWrite base cs cn v2 out := by
  funext p
  unfold rowWrite
  by_cases hp : base + cs ≤ p ∧ p < base + cs + cn
  · rw [if_pos hp, if_pos hp]
    exact h _ (by omega) (by omega)
  · rw [if_neg hp, if_neg hp]

theorem blockWrite_congr {α : Type} (ld rs rn cs cn : Nat) (v1 v2 : Nat → Nat → α)
    (out : Nat → α)
    (h : ∀ i j, rs ≤ i → i < rs + rn → cs ≤ j → j < cs + cn → v1 i j = v2 i j) :
    blockWrite ld rs rn cs cn v1 out = blockWrite ld rs rn cs cn v2 out := by
  unfold blockWrite
  have key : ∀ (l : List Nat) (o : Nat → α), (∀ i ∈ l, rs ≤ i ∧ i < rs + rn) →
      l.foldl (fun o i => rowWrite (i * ld) cs cn (v1 i) o) o =
        l.foldl (fun o i => rowWrite (i * ld) cs cn (v2 i) o) o := by
    intro l
    induction l with
    | nil => intro o _; rfl
    | cons a l ih =>
      intro o hl
      simp only [List.foldl_cons]
      have ha := hl a (List.mem_cons_self a l)
      rw [rowWrite_congr (a * ld) cs cn (v1 a) (v2 a) o (fun c h1 h2 => h a c ha.1 ha.2 h1 h2)]
      exact ih _ (fun i hi => hl i (List.mem_cons_of_mem a hi))
  apply key
  intro i hi
  rw [List.mem_range'_1] at hi
  exact hi

theorem ReQuantizeOutput.stored_eq_requantized (self : ReQuantizeOutput) (inp : Nat → Int32)
    (block : block_type_t) (ld_in g i j : Nat)
    (hz0 : 0 ≤ self.C_zero_point_.val) (hz1 : self.C_zero_point_.val ≤ 255) :
    self.stored inp block ld_in g i j =
      requantized self.FUSE_RELU self.C_zero_point_.val (self.C_multiplier_ (bucket self.Q_GRAN g j))
        (self.corrected inp block ld_in (bucket self.Q_GRAN g j) i j) := by
  unfold ReQuantizeOutput.stored requantized
  rw [rounded_no_overflow _ _ hz0 hz1]
  generalize lrintf _ = l
  unfold toUInt8
  split_ifs <;> omega

theorem roundHalfEven_half (a : ℤ) :
    roundHalfEven ((a : ℚ) * (1 / 2)) =
      if a % 2 = 0 then a / 2 else if a / 2 % 2 = 0 then a / 2 else a / 2 + 1 := by
  have hfl : ⌊(a : ℚ) * (1 / 2)⌋ = a / 2 := by
    have := Rat.floor_intCast_div_natCast a 2
    have e : (a : ℚ) * (1 / 2) = (a : ℚ) / ((2 : ℕ) : ℚ) := by
      rw [Nat.cast_ofNat]; ring
    rw [e, this]; rfl
  have hdec : (a : ℚ) = 2 * ((a / 2 : ℤ) : ℚ) + ((a % 2 : ℤ) : ℚ) := by
    have := Int.ediv_add_emod a 2
    exact_mod_cast this.symm
  unfold roundHalfEven
  rw [hfl]
  have hfrac : (a : ℚ) * (1 / 2) - ((a / 2 : ℤ) : ℚ) = ((a % 2 : ℤ) : ℚ) / 2 := by
    rw [hdec]; push_cast; ring
  rw [hfrac]
  rcases Int.emod_two_eq_zero_or_one a with h0 | h1
  · rw [h0]; simp
  · rw [h1]
    have h2 : ¬ ((1 : ℤ) = 0) := by decide
    simp only [h2, if_false]
    norm_num

theorem rneDiv_one (m : Nat) :
    rneDiv m 1 = if m % 2 = 0 then m / 2 else if m / 2 % 2 = 0 then m / 2 else m / 2 + 1 := by
  rw [rneDiv_eq]
  simp only [pow_one]
  split_ifs <;> omega

theorem mul_pow_lt {m e t B : Nat} (hm : m < 2 ^ e) (ht : e + t ≤ B) : m * 2 ^ t < 2 ^ B := by
  calc m * 2 ^ t < 2 ^ e * 2 ^ t := Nat.mul_lt_mul_of_pos_right hm (Nat.two_pow_pos t)
    _ = 2 ^ (e + t) := (pow_add 2 e t).symm
    _ ≤ 2 ^ B := Nat.pow_le_pow_right (by decide) ht

theorem mul_pow_le {m e t : Nat} (hm : m ≤ 2 ^ e) : m * 2 ^ t ≤ 2 ^ (e + t) := by
  rw [pow_add]; exact Nat.mul_le_mul_right _ hm

theorem pow_le_mul_pow {m e t : Nat} (hm : 2 ^ e ≤ m) : 2 ^ (e + t) ≤ m * 2 ^ t := by
  rw [pow_add]; exact Nat.mul_le_mul_right _ hm

theorem Int32.natAbs_le (x : Int32) : x.val.natAbs ≤ 2 ^ 31 := by
  have h1 := x.lo
  have h2 := x.hi
  have e : (2 : Nat) ^ 31 = 2147483648 := by decide
  rw [e]; omega

theorem pow_lt_bound {k : Nat} (hk : k < 277) : 2 ^ k < 2 ^ 128 * 2 ^ 149 := by
  rw [← pow_add]
  exact Nat.pow_lt_pow_right (by decide) (by omega)

/-- Conversion of an `int32_t` to binary32 never overflows. -/
theorem F32.ofInt32_fin (x : Int32) :
    ∃ h, F32.ofInt32 x =
      F32.fin (decide (x.val < 0)) (roundMag (x.val.natAbs * 2 ^ 149) 0) h := by
  have hm := x.natAbs_le
  have ha : x.val.natAbs * 2 ^ 149 ≤ 2 ^ (31 + 149) := mul_pow_le hm
  have hb : x.val.natAbs * 2 ^ 149 < 2 ^ 1024 :=
    Nat.lt_of_le_of_lt ha (Nat.pow_lt_pow_right (by decide) (by decide))
  have hr := roundMag_le hb ha (Nat.zero_le _)
  have hlt : roundMag (x.val.natAbs * 2 ^ 149) 0 < 2 ^ 128 * 2 ^ 149 :=
    Nat.lt_of_le_of_lt hr (pow_lt_bound (by decide))
  refine ⟨hlt, ?_⟩
  unfold F32.ofInt32
  rw [Nat.shiftLeft_eq]
  exact F32.ofMag_of_lt _ hlt

/-- Multiplication of a finite binary32 value by `0.5f` never overflows. -/
theorem F32.mul_half_fin (s : Bool) (n : Nat) (h : n < 2 ^ 128 * 2 ^ 149) :
    ∃ h1, F32.mul (F32.fin s n h) F32.half = F32.fin s (roundMag (n * 2 ^ 148) 149) h1 := by
  have hn : n < 2 ^ 277 := by rw [← pow_add] at h; exact h
  have ha : n * 2 ^ 148 ≤ 2 ^ (277 + 148) := mul_pow_le (Nat.le_of_lt hn)
  have hb : n * 2 ^ 148 < 2 ^ 1024 :=
    Nat.lt_of_le_of_lt ha (Nat.pow_lt_pow_right (by decide) (by decide))
  have hr := roundMag_le hb ha (by decide : 149 ≤ 277 + 148)
  have hlt : roundMag (n * 2 ^ 148) 149 < 2 ^ 128 * 2 ^ 149 :=
    Nat.lt_of_le_of_lt hr (pow_lt_bound (by decide))
  refine ⟨hlt, ?_⟩
  unfold F32.half
  simp only [F32.mul, Bool.xor_false]
  exact F32.ofMag_of_lt _ hlt

theorem lrintf_fin (s : Bool) (R : Nat) (h : R < 2 ^ 128 * 2 ^ 149) :
    lrintf (F32.fin s R h) =
      if -9223372036854775808 ≤ F32.units s (rneDiv R 149) ∧
          F32.units s (rneDiv R 149) < 9223372036854775808 then F32.units s (rneDiv R 149)
      else -9223372036854775808 := rfl

/-- The magnitude that `lrintf` reads from `float(x) * 0.5f`. -/
theorem lrintf_half_mag (x : Int32) :
    ∃ L : Nat, lrintf (F32.mul (F32.ofInt32 x) F32.half) = F32.units (decide (x.val < 0)) L ∧
      (x.val.natAbs < 2 ^ 24 → L = rneDiv x.val.natAbs 1) ∧
      (2 ^ 24 ≤ x.val.natAbs → 2 ^ 23 ≤ L) ∧ L ≤ 2 ^ 30 := by
  obtain ⟨h1, e1⟩ := F32.ofInt32_fin x
  obtain ⟨h2, e2⟩ := F32.mul_half_fin (decide (x.val < 0))
    (roundMag (x.val.natAbs * 2 ^ 149) 0) h1
  rw [e1, e2, lrintf_fin]
  generalize hm : x.val.natAbs = m
  have hm31 : m ≤ 2 ^ 31 := by rw [← hm]; exact x.natAbs_le
  -- bounds on the two roundings
  have ha1 : m * 2 ^ 149 ≤ 2 ^ (31 + 149) := mul_pow_le hm31
  have hb1 : m * 2 ^ 149 < 2 ^ 1024 :=
    Nat.lt_of_le_of_lt ha1 (Nat.pow_lt_pow_right (by decide) (by decide))
  have hR1 : roundMag (m * 2 ^ 149) 0 ≤ 2 ^ (31 + 149 - 0) := roundMag_le hb1 ha1 (Nat.zero_le _)
  have ha2 : roundMag (m * 2 ^ 149) 0 * 2 ^ 148 ≤ 2 ^ (31 + 149 - 0 + 148) := mul_pow_le hR1
  have hb2 : roundMag (m * 2 ^ 149) 0 * 2 ^ 148 < 2 ^ 1024 :=
    Nat.lt_of_le_of_lt ha2 (Nat.pow_lt_pow_right (by decide) (by decide))
  have hR2 : roundMag (roundMag (m * 2 ^ 149) 0 * 2 ^ 148) 149 ≤ 2 ^ (31 + 149 - 0 + 148 - 149) :=
    roundMag_le hb2 ha2 (by decide)
  have hL : rneDiv (roundMag (roundMag (m * 2 ^ 149) 0 * 2 ^ 148) 149) 149 ≤ 2 ^ 30 := by
    apply rneDiv_le_of_le
    rw [← pow_add]
    exact hR2
  have e30 : (2 : Nat) ^ 30 = 1073741824 := by decide
  refine ⟨rneDiv (roundMag (roundMag (m * 2 ^ 149) 0 * 2 ^ 148) 149) 149, ?_, ?_, ?_, hL⟩
  · rw [e30] at hL
    generalize rneDiv (roundMag (roundMag (m * 2 ^ 149) 0 * 2 ^ 148) 149) 149 = L at hL
    have hr : -9223372036854775808 ≤ F32.units (decide (x.val < 0)) L ∧
        F32.units (decide (x.val < 0)) L < 9223372036854775808 := by
      unfold F32.units
      split_ifs <;> omega
    rw [if_pos hr]
  · intro hsmall
    have hx1 : m * 2 ^ 149 < 2 ^ 1024 := hb1
    rw [roundMag_exact hsmall (Nat.zero_le 149) hx1, Nat.sub_zero]
    have e : m * 2 ^ 149 * 2 ^ 148 = m * 2 ^ (149 + 148) := by
      rw [Nat.mul_assoc, ← pow_add]
    rw [e, roundMag_exact hsmall (by decide : 149 ≤ 149 + 148)
      (mul_pow_lt hsmall (by decide : 24 + (149 + 148) ≤ 1024)), Nat.add_sub_cancel_left,
      show (149 : Nat) = 1 + 148 from rfl, rneDiv_mul_pow]
  · intro hbig
    have hg1 : 2 ^ (24 + 149 - 0) ≤ roundMag (m * 2 ^ 149) 0 :=
      roundMag_ge hb1 (pow_le_mul_pow hbig) (Nat.zero_le _)
    have hg2 : 2 ^ (24 + 149 - 0 + 148 - 149) ≤
        roundMag (roundMag (m * 2 ^ 149) 0 * 2 ^ 148) 149 :=
      roundMag_ge hb2 (pow_le_mul_pow hg1) (by decide)
    refine Nat.le_trans ?_ (rneDiv_ge _ _)
    apply (Nat.le_div_iff_mul_le (Nat.two_pow_pos 149)).2
    rw [← pow_add]
    exact hg2

/-- Clamp of `lrintf(float(x) * 0.5f) + 128` against the clamp of the exact
half of `x` rounded to nearest, ties to even. -/
theorem clamp_half (x : Int32) :
    max 0 (min 255 (lrintf (F32.mul (F32.ofInt32 x) F32.half) + 128)) =
      max 0 (min 255 (roundHalfEven ((x.val : ℚ) * (1 / 2)) + 128)) := by
  obtain ⟨L, hL, hsmall, hbig, hle⟩ := lrintf_half_mag x
  rw [hL, roundHalfEven_half]
  have e30 : (2 : Nat) ^ 30 = 1073741824 := by decide
  have e24 : (2 : Nat) ^ 24 = 16777216 := by decide
  have e23 : (2 : Nat) ^ 23 = 8388608 := by decide
  rw [e24] at hsmall hbig
  rw [e23] at hbig
  rw [e30] at hle
  have h1 := x.lo
  have h2 := x.hi
  generalize x.val = v at *
  unfold F32.units
  rcases Nat.lt_or_ge v.natAbs 16777216 with hs | hb
  · have hLs := hsmall hs
    rw [rneDiv_one] at hLs
    subst hLs
    by_cases hv : v < 0
    · simp only [hv, decide_True, if_true]
      split_ifs <;> omega
    · simp only [hv, decide_False, Bool.false_eq_true, if_false]
      split_ifs <;> omega
  · have hLb := hbig hb
    by_cases hv : v < 0
    · simp only [hv, decide_True, if_true]
      split_ifs <;> omega
    · simp only [hv, decide_False, Bool.false_eq_true, if_false]
      split_ifs <;> omega

theorem lrintf_half_lt (x : Int32) :
    lrintf (F32.mul (F32.ofInt32 x) F32.half) < 2147483648 := by
  obtain ⟨L, hL, _, _, hle⟩ := lrintf_half_mag x
  have e30 : (2 : Nat) ^ 30 = 1073741824 := by decide
  rw [e30] at hle
  rw [hL]
  unfold F32.units
  split_ifs <;> omega

theorem ReQuantizeOutput.stored_quant_param_idx (self : ReQuantizeOutput) (inp : Nat → Int32)
    (block : block_type_t) (ld_in i j : Nat) :
    self.stored inp block ld_in (self.quant_param_idx block) i j =
      self.stored inp block ld_in (block.col_start / (self.ncols_ / self.groups_)) i j := by
  unfold ReQuantizeOutput.stored
  rw [self.bucket_quant_param_idx block j]

/-- Outcome of `ReQuantizeOutput::f` on any path for a call that passes the
precondition check: the next stage receives a buffer whose block elements are
the bytes of `stored` where a scalar clamp produced them (generic path, or
remainder columns of the vector kernel) and the bytes of `vstored` elsewhere. -/
theorem ReQuantizeOutput.f_elem {ρ : Type} (self : ReQuantizeOutput) (nextop_ : NextOp Int Int ρ)
    (instSet : inst_set_t) (out : Nat → Int) (inp : Nat → Int32) (block : block_type_t)
    (ld_out ld_in : Nat)
    (hg : 0 < self.ncols_ / self.groups_) (hc : block.col_size ≤ self.ncols_ / self.groups_)
    (hld : block.col_size ≤ ld_out) :
    ∃ out1 : Nat → Int,
      self.f nextop_ instSet out inp block ld_out ld_in =
        Except.ok (nextop_ out1 out1 block ld_out ld_out) ∧
      ∀ i j, block.row_start ≤ i → i < block.row_start + block.row_size →
        block.col_start ≤ j → j < block.col_start + block.col_size →
        out1 (i * ld_out + j) =
          if instSet = inst_set_t.anyarch ∨ block.col_start + block.col_size / 8 * 8 ≤ j then
            self.stored inp block ld_in (block.col_start / (self.ncols_ / self.groups_)) i j
          else self.vstored inp block ld_in (self.quant_param_idx block) i j := by
  by_cases hi : instSet = inst_set_t.anyarch
  · subst hi
    refine ⟨_, self.f_anyarch_eq nextop_ out inp block ld_out ld_in hg hc, ?_⟩
    intro i j h1 h2 h3 h4
    rw [blockWrite_elem _ _ hld h1 h2 h3 h4]
    simp
  · refine ⟨_, self.f_vec_eq nextop_ instSet hi out inp block ld_out ld_in hg hc, ?_⟩
    intro i j h1 h2 h3 h4
    rw [blockWrite_elem _ _ hld h1 h2 h3 h4]
    unfold ReQuantizeOutput.f_stored
    by_cases hj : j < block.col_start + block.col_size / 8 * 8
    · have hn : ¬ (instSet = inst_set_t.anyarch ∨ block.col_start + block.col_size / 8 * 8 ≤ j) := by
        rintro (h | h)
        · exact hi h
        · omega
      rw [if_pos hj, if_neg hn]
    · have hp : instSet = inst_set_t.anyarch ∨ block.col_start + block.col_size / 8 * 8 ≤ j :=
        Or.inr (by omega)
      rw [if_neg hj, if_pos hp]
      exact self.stored_quant_param_idx inp block ld_in i j

/-- Outcome of `ReQuantizeOutput::f` on any path when the output zero point is in
`[0, 255]` and no float-to-int32 conversion overflows: every block element is the
value `requantized` of its corrected accumulator. -/
theorem ReQuantizeOutput.f_requantized {ρ : Type} (self : ReQuantizeOutput)
    (nextop_ : NextOp Int Int ρ)
    (instSet : inst_set_t) (out : Nat → Int) (inp : Nat → Int32) (block : block_type_t)
    (ld_out ld_in : Nat)
    (hg : 0 < self.ncols_ / self.groups_) (hc : block.col_size ≤ self.ncols_ / self.groups_)
    (hld : block.col_size ≤ ld_out)
    (hz0 : 0 ≤ self.C_zero_point_.val) (hz1 : self.C_zero_point_.val ≤ 255)
    (hov : ∀ i j, block.row_start ≤ i → i < block.row_start + block.row_size →
      block.col_start ≤ j → j < block.col_start + block.col_size →
      lrintf (F32.mul
        (F32.ofInt32 (Int32.wrap (self.corrected inp block ld_in
          (bucket self.Q_GRAN (block.col_start / (self.ncols_ / self.groups_)) j) i j)))
        (self.C_multiplier_
          (bucket self.Q_GRAN (block.col_start / (self.ncols_ / self.groups_)) j)))
        < 2147483648) :
    ∃ out1 : Nat → Int,
      self.f nextop_ instSet out inp block ld_out ld_in =
        Except.ok (nextop_ out1 out1 block ld_out ld_out) ∧
      ∀ i j, block.row_start ≤ i → i < block.row_start + block.row_size →
        block.col_start ≤ j → j < block.col_start + block.col_size →
        out1 (i * ld_out + j) =
          requantized self.FUSE_RELU self.C_zero_point_.val
            (self.C_multiplier_
              (bucket self.Q_GRAN (block.col_start / (self.ncols_ / self.groups_)) j))
            (self.corrected inp block ld_in
              (bucket self.Q_GRAN (block.col_start / (self.ncols_ / self.groups_)) j) i j) := by
  obtain ⟨out1, h1, h2⟩ := self.f_elem nextop_ instSet out inp block ld_out ld_in hg hc hld
  refine ⟨out1, h1, ?_⟩
  intro i j hi1 hi2 hj1 hj2
  rw [h2 i j hi1 hi2 hj1 hj2]
  split_ifs
  · exact self.stored_eq_requantized inp block ld_in _ i j hz0 hz1
  · rw [self.vstored_eq_stored inp block ld_in _ i j hz0 hz1
      (by rw [self.bucket_quant_param_idx block j]; exact hov i j hi1 hi2 hj1 hj2),
      self.stored_quant_param_idx]
    exact self.stored_eq_requantized inp block ld_in _ i j hz0 hz1

theorem ReQuantizeOutput.corrected_symmetric (self : ReQuantizeOutput) (inp : Nat → Int32)
    (block : block_type_t) (ld_in i j : Nat)
    (hzA : self.Aq_zero_point_.val = 0) (hzB : (self.Bq_zero_point_ 0).val = 0) :
    self.corrected inp block ld_in 0 i j =
      (inp ((i - block.row_start) * ld_in + (j - block.col_start))).val
        + (match self.bias_ with
           | some c => (c j).val
           | none => 0) := by
  unfold ReQuantizeOutput.corrected
  rw [hzA, hzB]
  cases self.q_row_offsets_ <;> cases self.bias_ <;> simp

/-- Value written in the end-to-end configuration (multiplier `0.5`, zero point
`128`, no ReLU) for a corrected accumulator `c`, on any path. -/
theorem ReQuantizeOutput.f_half {ρ : Type} (self : ReQuantizeOutput) (nextop_ : NextOp Int Int ρ)
    (instSet : inst_set_t) (out : Nat → Int) (inp : Nat → Int32) (block : block_type_t)
    (ld_out ld_in : Nat)
    (hrelu : self.FUSE_RELU = false) (hgran : self.Q_GRAN = QuantizationGranularity.TENSOR)
    (hmul : self.C_multiplier_ 0 = F32.half) (hzp : self.C_zero_point_.val = 128)
    (hzA : self.Aq_zero_point_.val = 0) (hzB : (self.Bq_zero_point_ 0).val = 0)
    (hg : 0 < self.ncols_ / self.groups_) (hc : block.col_size ≤ self.ncols_ / self.groups_)
    (hld : block.col_size ≤ ld_out) :
    ∃ out1 : Nat → Int,
      self.f nextop_ instSet out inp block ld_out ld_in =
        Except.ok (nextop_ out1 out1 block ld_out ld_out) ∧
      ∀ i j, block.row_start ≤ i → i < block.row_start + block.row_size →
        block.col_start ≤ j → j < block.col_start + block.col_size →
        out1 (i * ld_out + j) =
          max 0 (min 255 (roundHalfEven
            (((Int32.wrap ((inp ((i - block.row_start) * ld_in + (j - block.col_start))).val
              + (match self.bias_ with
                 | some c => (c j).val
                 | none => 0))).val : ℚ) * (1 / 2)) + 128)) := by
  have hb : ∀ j, bucket self.Q_GRAN (block.col_start / (self.ncols_ / self.groups_)) j = 0 := by
    intro j; rw [hgran]; rfl
  obtain ⟨out1, h1, h2⟩ := self.f_requantized nextop_ instSet out inp block ld_out ld_in hg hc hld
    (by rw [hzp]; decide) (by rw [hzp]; decide)
    (by
      intro i j _ _ _ _
      rw [hb j, hmul]
      exact lrintf_half_lt _)
  refine ⟨out1, h1, ?_⟩
  intro i j hi1 hi2 hj1 hj2
  rw [h2 i j hi1 hi2 hj1 hj2, hb j]
  unfold requantized
  rw [self.corrected_symmetric inp block ld_in i j hzA hzB, hmul, hrelu, hzp]
  simp only [Bool.false_eq_true, if_false]
  exact clamp_half _

theorem shift_half (x y a b : Int) (hx1 : -2147483648 ≤ x) (hx2 : x < 2147483648)
    (hy : y = wrap32 (x + 5))
    (ha : a = max 0 (min 255 (roundHalfEven ((x : ℚ) * (1 / 2)) + 128)))
    (hb : b = max 0 (min 255 (roundHalfEven ((y : ℚ) * (1 / 2)) + 128)))
    (ha1 : 0 < a) (ha2 : a < 255) (hb1 : 0 < b) (hb2 : b < 255) :
    b = a + (if x % 4 = 1 ∨ x % 4 = 2 then 3 else 2) := by
  rw [roundHalfEven_half] at ha hb
  unfold wrap32 at hy
  have hxs : -512 < x ∧ x < 512 := by
    constructor
    · by_contra hcon
      split_ifs at ha <;> omega
    · by_contra hcon
      split_ifs at ha <;> omega
  have hyx : y = x + 5 := by omega
  subst hyx
  split_ifs at ha hb ⊢ <;> omega

theorem foldl_congr_mem {α β : Type} (f g : α → β → α) :
    ∀ (l : List β) (a : α), (∀ s, ∀ x ∈ l, f s x = g s x) → l.foldl f a = l.foldl g a := by
  intro l
  induction l with
  | nil => intro a _; rfl
  | cons b l ih =>
    intro a h
    simp only [List.foldl_cons]
    rw [h a b (List.mem_cons_self b l)]
    exact ih _ (fun s x hx => h s x (List.mem_cons_of_mem b hx))

/-- The two nested scalar loops store `v i j` at `i * ld + j` for every element
of the block, rows in increasing order. -/
theorem scalar_loops_eq_of_mem {α : Type} (body : Nat → Nat → (Nat → α) → (Nat → α))
    (v : Nat → Nat → α) (ld rs rn cs cn : Nat)
    (hbody : ∀ i j o, rs ≤ i → cs ≤ j → body i j o = Function.update o (i * ld + j) (v i j))
    (out : Nat → α) :
    (forLoop (fun i out => (forLoop (body i) (cs + cn) 1 cn cs out).2) (rs + rn) 1 rn rs out).2 =
      blockWrite ld rs rn cs cn v out := by
  rw [forLoop_one _ rn rn rs out (Nat.le_refl _)]
  unfold blockWrite
  simp only
  apply foldl_congr_mem
  intro o i hi
  rw [List.mem_range'_1] at hi
  rw [forLoop_one _ cn cn cs o (Nat.le_refl _)]
  simp only
  rw [← foldl_update_row]
  apply foldl_congr_mem
  intro s j hj
  rw [List.mem_range'_1] at hj
  exact hbody i j s hi.1 hj.1

theorem ReQuantizeForFloat.f_body_eq (self : ReQuantizeForFloat) (inp : Nat → Int32)
    (block : block_type_t) (ld_out ld_in g i j : Nat) (out : Nat → F32)
    (hj : block.col_start ≤ j) :
    self.f_body inp block ld_out ld_in g i j out =
      Function.update out (i * ld_out + j) (self.stored inp block ld_in g i j) := by
  have hidx : (i - block.row_start) * ld_in + j - block.col_start =
      (i - block.row_start) * ld_in + (j - block.col_start) := by omega
  unfold ReQuantizeForFloat.f_body ReQuantizeForFloat.stored ReQuantizeForFloat.scaled
    ReQuantizeForFloat.corrected
  simp only [hidx, Int32.sub_eq_wrap, Int32.mul_eq_wrap, Int32.wrap_sub, Int32.wrap_sub_right,
    bucket, Function.update_same, Function.update_idem]
  cases self.FUSE_RELU <;> cases self.bias_ <;> simp

theorem ReQuantizeForFloat.f_eq {ρ : Type} (self : ReQuantizeForFloat)
    (nextop_ : NextOp F32 F32 ρ) (instSet : inst_set_t) (out : Nat → F32) (inp : Nat → Int32)
    (block : block_type_t) (ld_out ld_in : Nat) (hg : 0 < self.ncols_ / self.groups_)
    (hc : block.col_size ≤ self.ncols_ / self.groups_) :
    self.f nextop_ instSet out inp block ld_out ld_in =
      Except.ok (nextop_
        (blockWrite ld_out block.row_start block.row_size block.col_start block.col_size
          (self.stored inp block ld_in (block.col_start / (self.ncols_ / self.groups_))) out)
        (blockWrite ld_out block.row_start block.row_size block.col_start block.col_size
          (self.stored inp block ld_in (block.col_start / (self.ncols_ / self.groups_))) out)
        block ld_out ld_out) := by
  have h0 : self.groups_ ≠ 0 := groups_ne_zero hg
  have h1 : self.ncols_ / self.groups_ ≠ 0 := Nat.pos_iff_ne_zero.1 hg
  unfold ReQuantizeForFloat.f
  simp only [h0, h1, hc, if_false, not_true_eq_false]
  rw [scalar_loops_eq_of_mem (fun i j o => self.f_body inp block ld_out ld_in
      (block.col_start / (self.ncols_ / self.groups_)) i j o)
    (self.stored inp block ld_in (block.col_start / (self.ncols_ / self.groups_)))
    ld_out block.row_start block.row_size block.col_start block.col_size
    (fun i j o _ hj => self.f_body_eq inp block ld_out ld_in _ i j o hj) out]

theorem guard_fault_none {ncols groups col_size : Nat} :
    guard_fault ncols groups col_size = none ↔ 0 < ncols / groups ∧ col_size ≤ ncols / groups := by
  unfold guard_fault
  constructor
  · intro h
    split_ifs at h with h1 h2 h3
    exact ⟨Nat.pos_of_ne_zero h3, h2⟩
  · rintro ⟨h1, h2⟩
    have h0 : groups ≠ 0 := groups_ne_zero h1
    have h3 : ncols / groups ≠ 0 := Nat.pos_iff_ne_zero.1 h1
    simp [h0, h2, h3]

theorem ReQuantizeOutput.f_fault {ρ : Type} (self : ReQuantizeOutput)
    (nextop_ : NextOp Int Int ρ) (instSet : inst_set_t) (out : Nat → Int) (inp : Nat → Int32)
    (block : block_type_t) (ld_out ld_in : Nat) (e : Abort)
    (h : guard_fault self.ncols_ self.groups_ block.col_size = some e) :
    self.f nextop_ instSet out inp block ld_out ld_in = Except.error e := by
  unfold guard_fault at h
  unfold ReQuantizeOutput.f
  split_ifs at h with h1 h2 h3 <;> simp only [Option.some.injEq] at h <;> subst h <;> simp [*] <;> omega

theorem ReQuantizeForFloat.f_float_fault {ρ : Type} (self : ReQuantizeForFloat)
    (nextop_ : NextOp F32 F32 ρ) (instSet : inst_set_t) (out : Nat → F32) (inp : Nat → Int32)
    (block : block_type_t) (ld_out ld_in : Nat) (e : Abort)
    (h : guard_fault self.ncols_ self.groups_ block.col_size = some e) :
    self.f nextop_ instSet out inp block ld_out ld_in = Except.error e := by
  unfold guard_fault at h
  unfold ReQuantizeForFloat.f
  split_ifs at h with h1 h2 h3 <;> simp only [Option.some.injEq] at h <;> subst h <;> simp [*] <;> omega

theorem F32.std_max_zero_not_lt (x : F32) : F32.lt (F32.std_max F32.zero x) F32.zero = false := by
  unfold F32.std_max
  by_cases h : F32.lt F32.zero x = true
  · rw [if_pos h]
    cases x with
    | fin s n hn =>
      unfold F32.lt F32.zero at h ⊢
      simp only [F32.units, decide_eq_true_eq, decide_eq_false_iff_not] at h ⊢
      cases s <;> simp only [if_true, if_false, Bool.false_eq_true] at h ⊢ <;> omega
    | inf s =>
      unfold F32.lt F32.zero at h ⊢
      cases s <;> simp at h ⊢
    | nan =>
      unfold F32.lt F32.zero at h
      simp at h
  · rw [if_neg h]
    decide

theorem div_eq_of_same_group {n cs csz j : Nat} (hcross : cs % n + csz ≤ n)
    (h1 : cs ≤ j) (h2 : j < cs + csz) : cs / n = j / n := by
  have hn : 0 < n := by omega
  have hd := Nat.div_add_mod cs n
  symm
  apply Nat.div_eq_of_lt_le
  · rw [Nat.mul_comm]
    omega
  · rw [Nat.succ_mul, Nat.mul_comm]
    omega

theorem ReQuantizeOutput.vstored_bucket (self : ReQuantizeOutput) (inp : Nat → Int32)
    (block : block_type_t) (ld_in q1 q2 i j : Nat)
    (h : bucket self.Q_GRAN q1 j = bucket self.Q_GRAN q2 j) :
    self.vstored inp block ld_in q1 i j = self.vstored inp block ld_in q2 i j := by
  unfold ReQuantizeOutput.vstored ReQuantizeOutput.vlane
  rw [h]

theorem ReQuantizeOutput.stored_bucket (self : ReQuantizeOutput) (inp : Nat → Int32)
    (block : block_type_t) (ld_in q1 q2 i j : Nat)
    (h : bucket self.Q_GRAN q1 j = bucket self.Q_GRAN q2 j) :
    self.stored inp block ld_in q1 i j = self.stored inp block ld_in q2 i j := by
  unfold ReQuantizeOutput.stored
  rw [h]

theorem ReQuantizeForFloat.stored_float_bucket (self : ReQuantizeForFloat) (inp : Nat → Int32)
    (block : block_type_t) (ld_in q1 q2 i j : Nat)
    (h : bucket self.Q_GRAN q1 j = bucket self.Q_GRAN q2 j) :
    self.stored inp block ld_in q1 i j = self.stored inp block ld_in q2 i j := by
  unfold ReQuantizeForFloat.stored ReQuantizeForFloat.scaled
  rw [h]

theorem ReQuantizeOutput.f_congr {ρ : Type} (s1 s2 : ReQuantizeOutput)
    (nextop_ : NextOp Int Int ρ) (instSet : inst_set_t) (out : Nat → Int) (inp : Nat → Int32)
    (block : block_type_t) (ld_out ld_in : Nat)
    (hn : s1.ncols_ = s2.ncols_) (hgr : s1.groups_ = s2.groups_)
    (hst : ∀ i j, block.row_start ≤ i → i < block.row_start + block.row_size →
      block.col_start ≤ j → j < block.col_start + block.col_size →
      s1.stored inp block ld_in (block.col_start / (s1.ncols_ / s1.groups_)) i j =
        s2.stored inp block ld_in (block.col_start / (s2.ncols_ / s2.groups_)) i j ∧
      s1.vstored inp block ld_in (s1.quant_param_idx block) i j =
        s2.vstored inp block ld_in (s2.quant_param_idx block) i j) :
    s1.f nextop_ instSet out inp block ld_out ld_in =
      s2.f nextop_ instSet out inp block ld_out ld_in := by
  cases hgf : guard_fault s1.ncols_ s1.groups_ block.col_size with
  | some e =>
    rw [s1.f_fault nextop_ instSet out inp block ld_out ld_in e hgf,
      s2.f_fault nextop_ instSet out inp block ld_out ld_in e (by rw [← hn, ← hgr]; exact hgf)]
  | none =>
    obtain ⟨hg, hc⟩ := guard_fault_none.1 hgf
    have hg2 : 0 < s2.ncols_ / s2.groups_ := by rw [← hn, ← hgr]; exact hg
    have hc2 : block.col_size ≤ s2.ncols_ / s2.groups_ := by rw [← hn, ← hgr]; exact hc
    by_cases hi : instSet = inst_set_t.anyarch
    · subst hi
      rw [s1.f_anyarch_eq nextop_ out inp block ld_out ld_in hg hc,
        s2.f_anyarch_eq nextop_ out inp block ld_out ld_in hg2 hc2,
        blockWrite_congr ld_out block.row_start block.row_size block.col_start block.col_size
          _ _ out (fun i j h1 h2 h3 h4 => (hst i j h1 h2 h3 h4).1)]
    · rw [s1.f_vec_eq nextop_ instSet hi out inp block ld_out ld_in hg hc,
        s2.f_vec_eq nextop_ instSet hi out inp block ld_out ld_in hg2 hc2,
        blockWrite_congr ld_out block.row_start block.row_size block.col_start block.col_size
          (s1.f_stored inp block ld_in (s1.quant_param_idx block))
          (s2.f_stored inp block ld_in (s2.quant_param_idx block)) out
          (fun i j h1 h2 h3 h4 => by
            unfold ReQuantizeOutput.f_stored
            rw [(hst i j h1 h2 h3 h4).2, s1.stored_quant_param_idx, s2.stored_quant_param_idx,
              (hst i j h1 h2 h3 h4).1])]

theorem ReQuantizeForFloat.f_float_congr {ρ : Type} (s1 s2 : ReQuantizeForFloat)
    (nextop_ : NextOp F32 F32 ρ) (instSet : inst_set_t) (out : Nat → F32) (inp : Nat → Int32)
    (block : block_type_t) (ld_out ld_in : Nat)
    (hn : s1.ncols_ = s2.ncols_) (hgr : s1.groups_ = s2.groups_)
    (hst : ∀ i j, block.row_start ≤ i → i < block.row_start + block.row_size →
      block.col_start ≤ j → j < block.col_start + block.col_size →
      s1.stored inp block ld_in (block.col_start / (s1.ncols_ / s1.groups_)) i j =
        s2.stored inp block ld_in (block.col_start / (s2.ncols_ / s2.groups_)) i j) :
    s1.f nextop_ instSet out inp block ld_out ld_in =
      s2.f nextop_ instSet out inp block ld_out ld_in := by
  cases hgf : guard_fault s1.ncols_ s1.groups_ block.col_size with
  | some e =>
    rw [s1.f_float_fault nextop_ instSet out inp block ld_out ld_in e hgf,
      s2.f_float_fault nextop_ instSet out inp block ld_out ld_in e (by rw [← hn, ← hgr]; exact hgf)]
  | none =>
    obtain ⟨hg, hc⟩ := guard_fault_none.1 hgf
    have hg2 : 0 < s2.ncols_ / s2.groups_ := by rw [← hn, ← hgr]; exact hg
    have hc2 : block.col_size ≤ s2.ncols_ / s2.groups_ := by rw [← hn, ← hgr]; exact hc
    rw [s1.f_eq nextop_ instSet out inp block ld_out ld_in hg hc,
      s2.f_eq nextop_ instSet out inp block ld_out ld_in hg2 hc2,
      blockWrite_congr ld_out block.row_start block.row_size block.col_start block.col_size
        _ _ out hst]

/-! ## Properties of the output-processing stages -/

theorem lrintf_of_rne {x : F32} {r : Int} (h : F32.rne x = some r) :
    lrintf x = if -9223372036854775808 ≤ r ∧ r < 9223372036854775808 then r
      else -9223372036854775808 := by
  cases x with
  | fin neg n hn =>
    have h' : F32.units neg (rneDiv n 149) = r := Option.some.inj h
    subst h'
    rfl
  | inf s => exact Option.noConfusion h
  | nan => exact Option.noConfusion h

theorem cvtps_of_rne {x : F32} {r : Int} (h : F32.rne x = some r) :
    (cvtps_epi32 x).val = if -2147483648 ≤ r ∧ r < 2147483648 then r else -2147483648 := by
  cases x with
  | fin neg n hn =>
    have h' : F32.units neg (rneDiv n 149) = r := Option.some.inj h
    subst h'
    unfold cvtps_epi32
    simp only []
    split_ifs <;> rfl
  | inf s => exact Option.noConfusion h
  | nan => exact Option.noConfusion h

/-- C1 (amended).  On the generic path (`inst_set_t::anyarch`), for an output
zero point that is not negative and, under ReLU fusion, at most `255`, a call
that passes its precondition check hands to the next stage a buffer in which,
for every row `i` and column `j` of the block,
`out[i*ld_out + j] = max(lo, min(255, rne(p) + output_zero_point))` whenever the
binary32 product `p = float(c) * multipliers[b]` is finite and its rounding
`rne(p)` (nearest integer, ties to even, in unbounded integers) fits in a 64-bit
`long`.  Here `c` is the corrected accumulator
`inp[(i-row_start)*ld_in + (j-col_start)] - zero_point_A*col_offsets[j]
 - row_offsets[i-row_start]*zero_points_B[b] + bias[j]` (row-offset and bias terms
omitted when absent) read as an `int32_t`, `b` is the granularity bucket and `lo`
is the output zero point with ReLU fusion and `0` without. -/
theorem C1_generic_requantization {ρ : Type} (self : ReQuantizeOutput) (nextop_ : NextOp Int Int ρ)
    (out : Nat → Int) (inp : Nat → Int32) (block : block_type_t) (ld_out ld_in : Nat)
    (hg : 0 < self.ncols_ / self.groups_) (hc : block.col_size ≤ self.ncols_ / self.groups_)
    (hld : block.col_size ≤ ld_out)
    (hz0 : 0 ≤ self.C_zero_point_.val)
    (hz1 : self.FUSE_RELU = true → self.C_zero_point_.val ≤ 255) :
    ∃ out1 : Nat → Int,
      self.f nextop_ inst_set_t.anyarch out inp block ld_out ld_in =
        Except.ok (nextop_ out1 out1 block ld_out ld_out) ∧
      ∀ i j r, block.row_start ≤ i → i < block.row_start + block.row_size →
        block.col_start ≤ j → j < block.col_start + block.col_size →
        F32.rne (F32.mul
          (F32.ofInt32 (Int32.wrap (self.corrected inp block ld_in
            (bucket self.Q_GRAN (block.col_start / (self.ncols_ / self.groups_)) j) i j)))
          (self.C_multiplier_
            (bucket self.Q_GRAN (block.col_start / (self.ncols_ / self.groups_)) j))) = some r →
        -9223372036854775808 ≤ r → r < 9223372036854775808 →
        out1 (i * ld_out + j) =
          max (if self.FUSE_RELU then self.C_zero_point_.val else 0)
            (min 255 (r + self.C_zero_point_.val)) := by
  refine ⟨_, self.f_anyarch_eq nextop_ out inp block ld_out ld_in hg hc, ?_⟩
  intro i j r h1 h2 h3 h4 hr hr0 hr1
  rw [blockWrite_elem _ _ hld h1 h2 h3 h4]
  unfold ReQuantizeOutput.stored
  have hb := lrintf_mul_bounds
    (F32.ofInt32 (Int32.wrap (self.corrected inp block ld_in
      (bucket self.Q_GRAN (block.col_start / (self.ncols_ / self.groups_)) j) i j)))
    (self.C_multiplier_
      (bucket self.Q_GRAN (block.col_start / (self.ncols_ / self.groups_)) j))
  have hl := lrintf_of_rne hr
  rw [if_pos (And.intro hr0 hr1)] at hl
  rw [hl] at hb ⊢
  have hzhi := self.C_zero_point_.hi
  unfold toUInt8 wrap64
  rcases Bool.eq_false_or_eq_true self.FUSE_RELU with hrelu | hrelu
  · have hz := hz1 hrelu
    rw [hrelu]
    simp only [if_true]
    omega
  · rw [hrelu]
    simp only [Bool.false_eq_true, if_false]
    omega

theorem C1_generic_requantization_witness :
    (0 < reluStage.ncols_ / reluStage.groups_) ∧
    ((⟨0, 4, 0, 8⟩ : block_type_t).col_size ≤ reluStage.ncols_ / reluStage.groups_) ∧
    (0 ≤ reluStage.C_zero_point_.val) ∧
    (reluStage.FUSE_RELU = true → reluStage.C_zero_point_.val ≤ 255) ∧
    ∃ out1 : Nat → Int,
      reluStage.f observe inst_set_t.anyarch (fun _ => 0) scenarioInp ⟨0, 4, 0, 8⟩ 8 8 =
        Except.ok out1 ∧ out1 0 = 133 ∧ out1 1 = 255 ∧ out1 (3 * 8 + 7) = 128 := by
  refine ⟨by decide, by decide, by decide, fun _ => by decide, ?_⟩
  obtain ⟨out1, h1, h2⟩ := C1_generic_requantization reluStage observe (fun _ => 0)
    scenarioInp ⟨0, 4, 0, 8⟩ 8 8 (by decide) (by decide) (by decide) (by decide)
    (fun _ => by decide)
  refine ⟨out1, h1, ?_, ?_, ?_⟩
  · have := h2 0 0 5 (by decide) (by decide) (by decide) (by decide) (by decide) (by decide)
      (by decide)
    rw [Nat.zero_mul, Nat.add_zero] at this
    rw [this]
    decide
  · have := h2 0 1 500 (by decide) (by decide) (by decide) (by decide) (by decide) (by decide)
      (by decide)
    rw [Nat.zero_mul, Nat.zero_add] at this
    rw [this]
    decide
  · rw [h2 3 7 (-16) (by decide) (by decide) (by decide) (by decide) (by decide) (by decide)
      (by decide)]
    decide

/-- C1 (as stated) fails when the rounded product does not fit in a `long`: with
multiplier `2^40`, output zero point `0`, no ReLU and an accumulator of `2^30`,
the product is `2^70`, so the stated value is `max(0, min(255, 2^70 + 0)) = 255`,
whereas `lrintf` overflows (it yields `LONG_MIN`) and the byte written is `0`. -/
theorem C1_counterexample :
    (bigStage.f observe inst_set_t.anyarch (fun _ => 7) bigInp ⟨0, 1, 0, 1⟩ 1 1).toOption.map
        (fun o => o 0) = some 0 ∧
    F32.rne (F32.mul
      (F32.ofInt32 (Int32.wrap (bigStage.corrected bigInp ⟨0, 1, 0, 1⟩ 1
        (bucket bigStage.Q_GRAN 0 0) 0 0)))
      (bigStage.C_multiplier_ (bucket bigStage.Q_GRAN 0 0))) = some 1180591620717411303424 ∧
    max (if bigStage.FUSE_RELU then bigStage.C_zero_point_.val else 0)
      (min 255 (1180591620717411303424 + bigStage.C_zero_point_.val)) = 255 := by
  decide

/-- C2 (amended).  Scalar/vector parity: when the output zero point is in
`[0, 255]` and, for every element of the block, the scaled accumulator rounded
to an integer is below `2^31` (no overflow of the float-to-int32 conversion, as
the kernel's comment assumes), a call of `ReQuantizeOutput::f` on the vectorized
path (`avx2` or `avx512`) and the same call on the generic path (`anyarch`) have
the same outcome: the same precondition failure, or the same output buffer,
element for element, handed to the next stage.  This holds for every
granularity, every presence of row offsets and bias, both ReLU settings and
every block shape. -/
theorem C2_scalar_vector_parity {ρ : Type} (self : ReQuantizeOutput) (nextop_ : NextOp Int Int ρ)
    (instSet : inst_set_t) (out : Nat → Int) (inp : Nat → Int32) (block : block_type_t)
    (ld_out ld_in : Nat)
    (hz0 : 0 ≤ self.C_zero_point_.val) (hz1 : self.C_zero_point_.val ≤ 255)
    (hov : ∀ i j, block.row_start ≤ i → i < block.row_start + block.row_size →
      block.col_start ≤ j → j < block.col_start + block.col_size →
      lrintf (F32.mul
        (F32.ofInt32 (Int32.wrap (self.corrected inp block ld_in
          (bucket self.Q_GRAN (block.col_start / (self.ncols_ / self.groups_)) j) i j)))
        (self.C_multiplier_
          (bucket self.Q_GRAN (block.col_start / (self.ncols_ / self.groups_)) j)))
        < 2147483648) :
    self.f nextop_ instSet out inp block ld_out ld_in =
      self.f nextop_ inst_set_t.anyarch out inp block ld_out ld_in := by
  by_cases hi : instSet = inst_set_t.anyarch
  · rw [hi]
  by_cases hg : 0 < self.ncols_ / self.groups_
  · by_cases hc : block.col_size ≤ self.ncols_ / self.groups_
    · rw [self.f_vec_eq nextop_ instSet hi out inp block ld_out ld_in hg hc,
        self.f_anyarch_eq nextop_ out inp block ld_out ld_in hg hc]
      have e : blockWrite ld_out block.row_start block.row_size block.col_start block.col_size
          (self.f_stored inp block ld_in (self.quant_param_idx block)) out =
        blockWrite ld_out block.row_start block.row_size block.col_start block.col_size
          (self.stored inp block ld_in (block.col_start / (self.ncols_ / self.groups_))) out := by
        apply blockWrite_congr
        intro i j h1 h2 h3 h4
        have hst : self.stored inp block ld_in (self.quant_param_idx block) i j =
            self.stored inp block ld_in (block.col_start / (self.ncols_ / self.groups_)) i j := by
          unfold ReQuantizeOutput.stored
          rw [self.bucket_quant_param_idx block j]
        unfold ReQuantizeOutput.f_stored
        split_ifs
        · rw [self.vstored_eq_stored inp block ld_in _ i j hz0 hz1
            (by rw [self.bucket_quant_param_idx block j]; exact hov i j h1 h2 h3 h4)]
          exact hst
        · exact hst
      rw [e]
    · unfold ReQuantizeOutput.f
      by_cases h0 : self.groups_ = 0
      · simp only [h0, if_true]
      · simp only [h0, hc, if_false, not_false_eq_true, if_true]
  · unfold ReQuantizeOutput.f
    by_cases h0 : self.groups_ = 0
    · simp only [h0, if_true]
    · have h1 : self.ncols_ / self.groups_ = 0 := Nat.eq_zero_of_not_pos hg
      by_cases hc : block.col_size ≤ self.ncols_ / self.groups_
      · simp only [h0, h1, hc, if_false, if_true, not_true_eq_false]
      · simp only [h0, hc, if_false, not_false_eq_true, if_true]

theorem C2_scalar_vector_parity_witness :
    (0 ≤ scenarioStage.C_zero_point_.val) ∧ (scenarioStage.C_zero_point_.val ≤ 255) ∧
    scenarioStage.f observe inst_set_t.avx2 (fun _ => 0) scenarioInp ⟨0, 1, 0, 8⟩ 8 8 =
      scenarioStage.f observe inst_set_t.anyarch (fun _ => 0) scenarioInp ⟨0, 1, 0, 8⟩ 8 8 := by
  refine ⟨by decide, by decide, ?_⟩
  apply C2_scalar_vector_parity scenarioStage observe inst_set_t.avx2 (fun _ => 0) scenarioInp
    ⟨0, 1, 0, 8⟩ 8 8 (by decide) (by decide)
  intro i j h1 h2 h3 h4
  have hi : i = 0 := by simp at h1 h2; omega
  subst hi
  have hj : j < 8 := by simpa using h4
  interval_cases j <;> decide

/-- C2 (as stated) fails when the float-to-int32 conversion overflows: with
multiplier `1.0`, zero point `0` and an accumulator `INT32_MAX` (which converts
to `2^31` in binary32), the vectorized path writes `0` (CVTPS2DQ yields
`INT32_MIN`) while the generic path writes `255`. -/
theorem C2_counterexample :
    (unitStage.f observe inst_set_t.avx2 (fun _ => 7) maxInp ⟨0, 1, 0, 8⟩ 8 8).toOption.map
        (fun o => o 0) = some 0 ∧
    (unitStage.f observe inst_set_t.anyarch (fun _ => 7) maxInp ⟨0, 1, 0, 8⟩ 8 8).toOption.map
        (fun o => o 0) = some 255 := by
  decide

/-- C3 (amended).  Saturation boundary of the requantization stage, for every
input, every path and every output zero point in `[0, 255]`.  Every written
element lies in `[0, 255]` without ReLU fusion and in `[output_zero_point, 255]`
with it.  Let `r` be the rounded scaled value of an element: the binary32
product `float(c) * multiplier`, when it is finite, rounded to the nearest
integer, ties to even, in unbounded integers.  Without ReLU fusion the written
element is `0` whenever `r + output_zero_point <= 0`, and it is `255` whenever
`r + output_zero_point >= 255` and the float-to-integer conversion does not
overflow: `r < 2^63` where a scalar clamp writes the element (every element on
the generic path, the remainder columns of `f_` on the vector paths) and
`r < 2^31` in the vector loops.  With ReLU fusion the written element is exactly
`output_zero_point` whenever `r < 0`. -/
theorem C3_saturation_boundary {ρ : Type} (self : ReQuantizeOutput) (nextop_ : NextOp Int Int ρ)
    (instSet : inst_set_t) (out : Nat → Int) (inp : Nat → Int32) (block : block_type_t)
    (ld_out ld_in : Nat)
    (hg : 0 < self.ncols_ / self.groups_) (hc : block.col_size ≤ self.ncols_ / self.groups_)
    (hld : block.col_size ≤ ld_out)
    (hz0 : 0 ≤ self.C_zero_point_.val) (hz1 : self.C_zero_point_.val ≤ 255) :
    ∃ out1 : Nat → Int,
      self.f nextop_ instSet out inp block ld_out ld_in =
        Except.ok (nextop_ out1 out1 block ld_out ld_out) ∧
      ∀ i j, block.row_start ≤ i → i < block.row_start + block.row_size →
        block.col_start ≤ j → j < block.col_start + block.col_size →
        (self.FUSE_RELU = false →
          0 ≤ out1 (i * ld_out + j) ∧ out1 (i * ld_out + j) ≤ 255) ∧
        (self.FUSE_RELU = true →
          self.C_zero_point_.val ≤ out1 (i * ld_out + j) ∧ out1 (i * ld_out + j) ≤ 255) ∧
        ∀ r : Int,
          F32.rne (F32.mul
            (F32.ofInt32 (Int32.wrap (self.corrected inp block ld_in
              (bucket self.Q_GRAN (block.col_start / (self.ncols_ / self.groups_)) j) i j)))
            (self.C_multiplier_
              (bucket self.Q_GRAN (block.col_start / (self.ncols_ / self.groups_)) j))) =
            some r →
          (self.FUSE_RELU = false →
            (255 ≤ r + self.C_zero_point_.val →
              r < (if instSet = inst_set_t.anyarch ∨
                  block.col_start + block.col_size / 8 * 8 ≤ j then 9223372036854775808
                else 2147483648) →
              out1 (i * ld_out + j) = 255) ∧
            (r + self.C_zero_point_.val ≤ 0 → out1 (i * ld_out + j) = 0)) ∧
          (self.FUSE_RELU = true → r < 0 → out1 (i * ld_out + j) = self.C_zero_point_.val) := by
  obtain ⟨out1, h1, h2⟩ := self.f_elem nextop_ instSet out inp block ld_out ld_in hg hc hld
  refine ⟨out1, h1, ?_⟩
  intro i j hi1 hi2 hj1 hj2
  rw [h2 i j hi1 hi2 hj1 hj2]
  by_cases hsc : instSet = inst_set_t.anyarch ∨ block.col_start + block.col_size / 8 * 8 ≤ j
  · rw [if_pos hsc]
    unfold ReQuantizeOutput.stored
    rw [rounded_no_overflow _ _ hz0 hz1]
    have hb := lrintf_mul_bounds
      (F32.ofInt32 (Int32.wrap (self.corrected inp block ld_in
        (bucket self.Q_GRAN (block.col_start / (self.ncols_ / self.groups_)) j) i j)))
      (self.C_multiplier_
        (bucket self.Q_GRAN (block.col_start / (self.ncols_ / self.groups_)) j))
    refine ⟨?_, ?_, ?_⟩
    · intro hrelu
      rw [hrelu]
      unfold toUInt8
      simp only [Bool.false_eq_true, if_false]
      omega
    · intro hrelu
      rw [hrelu]
      unfold toUInt8
      simp only [if_true]
      omega
    · intro r hr
      rw [if_pos hsc]
      rw [lrintf_of_rne hr] at hb ⊢
      unfold toUInt8
      constructor
      · intro hrelu
        rw [hrelu]
        simp only [Bool.false_eq_true, if_false]
        constructor
        · intro h255 hlt
          rw [if_pos ⟨by omega, hlt⟩]
          omega
        · intro h0
          split_ifs <;> omega
      · intro hrelu hneg
        rw [hrelu]
        simp only [if_true]
        split_ifs <;> omega
  · rw [if_neg hsc]
    rw [self.vstored_bucket inp block ld_in _ _ i j (self.bucket_quant_param_idx block j)]
    unfold ReQuantizeOutput.vstored ReQuantizeOutput.vlane
    have hlo := (cvtps_epi32 (F32.mul
      (F32.ofInt32 (Int32.wrap (self.corrected inp block ld_in
        (bucket self.Q_GRAN (block.col_start / (self.ncols_ / self.groups_)) j) i j)))
      (self.C_multiplier_
        (bucket self.Q_GRAN (block.col_start / (self.ncols_ / self.groups_)) j)))).lo
    refine ⟨?_, ?_, ?_⟩
    · intro hrelu
      rw [hrelu]
      unfold satu8 sat16 wrap16
      simp only [Bool.false_eq_true, if_false]
      omega
    · intro hrelu
      rw [hrelu]
      unfold satu8 sat16 wrap16
      simp only [if_true]
      omega
    · intro r hr
      rw [if_neg hsc]
      rw [cvtps_of_rne hr]
      unfold satu8 sat16 wrap16
      constructor
      · intro hrelu
        rw [hrelu]
        simp only [Bool.false_eq_true, if_false]
        constructor
        · intro h255 hlt
          rw [if_pos ⟨by omega, hlt⟩]
          omega
        · intro h0
          split_ifs <;> omega
      · intro hrelu hneg
        rw [hrelu]
        simp only [if_true]
        split_ifs <;> omega

theorem C3_saturation_boundary_witness :
    (0 < reluStage.ncols_ / reluStage.groups_) ∧
    (0 ≤ reluStage.C_zero_point_.val) ∧ (reluStage.C_zero_point_.val ≤ 255) ∧
    ∃ out1 : Nat → Int,
      reluStage.f observe inst_set_t.avx2 (fun _ => 0) scenarioInp ⟨0, 1, 0, 8⟩ 8 8 =
        Except.ok out1 ∧ out1 2 = 128 := by
  refine ⟨by decide, by decide, by decide, ?_⟩
  obtain ⟨out1, h1, h2⟩ := C3_saturation_boundary reluStage observe inst_set_t.avx2
    (fun _ => 0) scenarioInp ⟨0, 1, 0, 8⟩ 8 8 (by decide) (by decide) (by decide) (by decide)
    (by decide)
  refine ⟨out1, h1, ?_⟩
  exact ((h2 0 2 (by decide) (by decide) (by decide) (by decide)).2.2 (-1) (by decide)).2 rfl
    (by decide)

/-- C3 (as stated) fails when the float-to-integer conversion overflows.  On the
vector path, with multiplier `1.0`, zero point `0`, no ReLU and an accumulator
`INT32_MAX`, the rounded scaled value is `2^31`, yet the element written is `0`.
On the generic path, with multiplier `2^40` and an accumulator `2^30`, the
rounded scaled value is `2^70`, yet the element written is `0`.  In both cases
the rounded scaled value plus the zero point is at least `255`. -/
theorem C3_counterexample :
    (0 ≤ unitStage.C_zero_point_.val ∧ unitStage.C_zero_point_.val ≤ 255 ∧
      unitStage.FUSE_RELU = false ∧
      F32.rne (F32.mul
        (F32.ofInt32 (Int32.wrap (unitStage.corrected maxInp ⟨0, 1, 0, 8⟩ 8
          (bucket unitStage.Q_GRAN 0 0) 0 0)))
        (unitStage.C_multiplier_ (bucket unitStage.Q_GRAN 0 0))) = some 2147483648 ∧
      255 ≤ 2147483648 + unitStage.C_zero_point_.val ∧
      (unitStage.f observe inst_set_t.avx2 (fun _ => 7) maxInp ⟨0, 1, 0, 8⟩ 8 8).toOption.map
        (fun o => o 0) = some 0) ∧
    (0 ≤ bigStage.C_zero_point_.val ∧ bigStage.C_zero_point_.val ≤ 255 ∧
      bigStage.FUSE_RELU = false ∧
      F32.rne (F32.mul
        (F32.ofInt32 (Int32.wrap (bigStage.corrected bigInp ⟨0, 1, 0, 8⟩ 8
          (bucket bigStage.Q_GRAN 0 0) 0 0)))
        (bigStage.C_multiplier_ (bucket bigStage.Q_GRAN 0 0))) = some 1180591620717411303424 ∧
      255 ≤ 1180591620717411303424 + bigStage.C_zero_point_.val ∧
      (bigStage.f observe inst_set_t.anyarch (fun _ => 7) bigInp ⟨0, 1, 0, 8⟩ 8 8).toOption.map
        (fun o => o 0) = some 0) := by
  decide

/-- C4.  End-to-end scenario: with `TENSOR` granularity, `zero_point_A = 0`,
`zero_points_B = [0]`, multiplier `0.5`, no bias, no ReLU and
`output_zero_point = 128`, a call of `ReQuantizeOutput::f` (any path) on a block
that passes the precondition check (in particular a 4x8 block) writes, for every
element, `clamp(round(accum * 0.5) + 128, 0, 255)`, `round` being rounding to
nearest with ties to even of the exact product; an accumulator of `10` gives
`133` and an accumulator of `1000` gives `255`. -/
theorem C4_end_to_end {ρ : Type} (self : ReQuantizeOutput) (nextop_ : NextOp Int Int ρ)
    (instSet : inst_set_t) (out : Nat → Int) (inp : Nat → Int32) (block : block_type_t)
    (ld_out ld_in : Nat)
    (hrelu : self.FUSE_RELU = false) (hgran : self.Q_GRAN = QuantizationGranularity.TENSOR)
    (hmul : self.C_multiplier_ 0 = F32.half) (hzp : self.C_zero_point_.val = 128)
    (hzA : self.Aq_zero_point_.val = 0) (hzB : (self.Bq_zero_point_ 0).val = 0)
    (hbias : self.bias_ = none)
    (hg : 0 < self.ncols_ / self.groups_) (hc : block.col_size ≤ self.ncols_ / self.groups_)
    (hld : block.col_size ≤ ld_out) :
    ∃ out1 : Nat → Int,
      self.f nextop_ instSet out inp block ld_out ld_in =
        Except.ok (nextop_ out1 out1 block ld_out ld_out) ∧
      ∀ i j, block.row_start ≤ i → i < block.row_start + block.row_size →
        block.col_start ≤ j → j < block.col_start + block.col_size →
        out1 (i * ld_out + j) =
          max 0 (min 255 (roundHalfEven
            (((inp ((i - block.row_start) * ld_in + (j - block.col_start))).val : ℚ) * (1 / 2))
            + 128)) ∧
        ((inp ((i - block.row_start) * ld_in + (j - block.col_start))).val = 10 →
          out1 (i * ld_out + j) = 133) ∧
        ((inp ((i - block.row_start) * ld_in + (j - block.col_start))).val = 1000 →
          out1 (i * ld_out + j) = 255) := by
  have hb : ∀ j, bucket self.Q_GRAN (block.col_start / (self.ncols_ / self.groups_)) j = 0 := by
    intro j; rw [hgran]; rfl
  have hcorr : ∀ i j, Int32.wrap (self.corrected inp block ld_in 0 i j) =
      inp ((i - block.row_start) * ld_in + (j - block.col_start)) := by
    intro i j
    rw [self.corrected_symmetric inp block ld_in i j hzA hzB, hbias]
    simp only [Int.add_zero]
    exact Int32.wrap_val _
  obtain ⟨out1, h1, h2⟩ := self.f_requantized nextop_ instSet out inp block ld_out ld_in hg hc hld
    (by rw [hzp]; decide) (by rw [hzp]; decide)
    (by
      intro i j _ _ _ _
      rw [hb j, hcorr i j, hmul]
      exact lrintf_half_lt _)
  refine ⟨out1, h1, ?_⟩
  intro i j hi1 hi2 hj1 hj2
  have hval : out1 (i * ld_out + j) =
      max 0 (min 255 (roundHalfEven
        (((inp ((i - block.row_start) * ld_in + (j - block.col_start))).val : ℚ) * (1 / 2))
        + 128)) := by
    rw [h2 i j hi1 hi2 hj1 hj2, hb j]
    unfold requantized
    rw [hcorr i j, hmul, hrelu, hzp]
    simp only [Bool.false_eq_true, if_false]
    exact clamp_half _
  refine ⟨hval, ?_, ?_⟩
  · intro h10
    rw [hval, h10]
    rw [roundHalfEven_half]
    decide
  · intro h1000
    rw [hval, h1000, roundHalfEven_half]
    decide

theorem C4_end_to_end_witness :
    (scenarioStage.FUSE_RELU = false) ∧
    (scenarioStage.Q_GRAN = QuantizationGranularity.TENSOR) ∧
    (scenarioStage.C_multiplier_ 0 = F32.half) ∧ (scenarioStage.C_zero_point_.val = 128) ∧
    (scenarioStage.Aq_zero_point_.val = 0) ∧ ((scenarioStage.Bq_zero_point_ 0).val = 0) ∧
    (scenarioStage.bias_ = none) ∧
    ∃ out1 : Nat → Int,
      scenarioStage.f observe inst_set_t.avx2 (fun _ => 0) scenarioInp ⟨0, 4, 0, 8⟩ 8 8 =
        Except.ok out1 ∧ out1 0 = 133 ∧ out1 1 = 255 := by
  refine ⟨rfl, rfl, rfl, by decide, by decide, by decide, rfl, ?_⟩
  obtain ⟨out1, h1, h2⟩ := C4_end_to_end scenarioStage observe inst_set_t.avx2 (fun _ => 0)
    scenarioInp ⟨0, 4, 0, 8⟩ 8 8 rfl rfl rfl (by decide) (by decide) (by decide) rfl
    (by decide) (by decide) (by decide)
  refine ⟨out1, h1, ?_, ?_⟩
  · exact (h2 0 0 (by decide) (by decide) (by decide) (by decide)).2.1 (by decide)
  · exact (h2 0 1 (by decide) (by decide) (by decide) (by decide)).2.2 (by decide)

/-- C5 (amended).  Bias fusion scenario: in the end-to-end configuration
(`TENSOR` granularity, `zero_point_A = 0`, `zero_points_B = [0]`, multiplier
`0.5`, `output_zero_point = 128`, no ReLU), adding a bias of `5` in every column
shifts the output of `ReQuantizeOutput::f`, for every accumulator value whose
two results do not saturate at `0` or `255`, by `3` when the accumulator is
congruent to `1` or `2` modulo `4` and by `2` otherwise (rounding is to nearest
with ties to even, so `2.5` rounds to `2`). -/
theorem C5_bias_shift {ρ : Type} (self : ReQuantizeOutput) (bias : Nat → Int32)
    (nextop_ : NextOp Int Int ρ)
    (instSet : inst_set_t) (out : Nat → Int) (inp : Nat → Int32) (block : block_type_t)
    (ld_out ld_in : Nat)
    (hrelu : self.FUSE_RELU = false) (hgran : self.Q_GRAN = QuantizationGranularity.TENSOR)
    (hmul : self.C_multiplier_ 0 = F32.half) (hzp : self.C_zero_point_.val = 128)
    (hzA : self.Aq_zero_point_.val = 0) (hzB : (self.Bq_zero_point_ 0).val = 0)
    (hnobias : self.bias_ = none) (hbias : ∀ j, (bias j).val = 5)
    (hg : 0 < self.ncols_ / self.groups_) (hc : block.col_size ≤ self.ncols_ / self.groups_)
    (hld : block.col_size ≤ ld_out) :
    ∃ out0 out5 : Nat → Int,
      self.f nextop_ instSet out inp block ld_out ld_in =
        Except.ok (nextop_ out0 out0 block ld_out ld_out) ∧
      ReQuantizeOutput.f { self with bias_ := some bias } nextop_ instSet out inp block
          ld_out ld_in =
        Except.ok (nextop_ out5 out5 block ld_out ld_out) ∧
      ∀ i j, block.row_start ≤ i → i < block.row_start + block.row_size →
        block.col_start ≤ j → j < block.col_start + block.col_size →
        0 < out0 (i * ld_out + j) → out0 (i * ld_out + j) < 255 →
        0 < out5 (i * ld_out + j) → out5 (i * ld_out + j) < 255 →
        out5 (i * ld_out + j) = out0 (i * ld_out + j) +
          (if (inp ((i - block.row_start) * ld_in + (j - block.col_start))).val % 4 = 1 ∨
              (inp ((i - block.row_start) * ld_in + (j - block.col_start))).val % 4 = 2
            then 3 else 2) := by
  obtain ⟨out0, h0, e0⟩ := self.f_half nextop_ instSet out inp block ld_out ld_in
    hrelu hgran hmul hzp hzA hzB hg hc hld
  obtain ⟨out5, h5, e5⟩ := ReQuantizeOutput.f_half { self with bias_ := some bias } nextop_
    instSet out inp block ld_out ld_in hrelu hgran hmul hzp hzA hzB hg hc hld
  refine ⟨out0, out5, h0, h5, ?_⟩
  intro i j hi1 hi2 hj1 hj2 ha1 ha2 hb1 hb2
  have e0' := e0 i j hi1 hi2 hj1 hj2
  have e5' := e5 i j hi1 hi2 hj1 hj2
  rw [hnobias] at e0'
  simp only [Int.add_zero, Int32.wrap_val, hbias j] at e0' e5'
  exact shift_half _ _ _ _ (Int32.lo _) (Int32.hi _) rfl e0' e5' ha1 ha2 hb1 hb2

theorem C5_bias_shift_witness :
    (scenarioStage.FUSE_RELU = false) ∧
    (scenarioStage.Q_GRAN = QuantizationGranularity.TENSOR) ∧
    (scenarioStage.C_multiplier_ 0 = F32.half) ∧ (scenarioStage.C_zero_point_.val = 128) ∧
    (scenarioStage.Aq_zero_point_.val = 0) ∧ ((scenarioStage.Bq_zero_point_ 0).val = 0) ∧
    (scenarioStage.bias_ = none) ∧
    ∃ out0 out5 : Nat → Int,
      scenarioStage.f observe inst_set_t.anyarch (fun _ => 0) scenarioInp ⟨0, 4, 0, 8⟩ 8 8 =
        Except.ok out0 ∧
      ReQuantizeOutput.f { scenarioStage with bias_ := some (fun _ => 5) } observe
          inst_set_t.anyarch (fun _ => 0) scenarioInp ⟨0, 4, 0, 8⟩ 8 8 = Except.ok out5 ∧
      (0 < out0 0 → out0 0 < 255 → 0 < out5 0 → out5 0 < 255 → out5 0 = out0 0 + 3) := by
  refine ⟨rfl, rfl, rfl, by decide, by decide, by decide, rfl, ?_⟩
  obtain ⟨out0, out5, h0, h5, h⟩ := C5_bias_shift scenarioStage (fun _ => 5) observe
    inst_set_t.anyarch (fun _ => 0) scenarioInp ⟨0, 4, 0, 8⟩ 8 8 rfl rfl rfl (by decide)
    (by decide) (by decide) rfl (fun _ => (by decide : (5 : Int32).val = 5)) (by decide)
    (by decide) (by decide)
  refine ⟨out0, out5, h0, h5, ?_⟩
  intro a1 a2 b1 b2
  exact h 0 0 (by decide) (by decide) (by decide) (by decide) a1 a2 b1 b2

/-- C5 (as stated) fails: for an accumulator of `0` the output without bias is
`128` and the output with a bias of `5` in every column is `130`, a shift of `2`
and not `3`, although neither result is saturated (`rne(2.5) = 2`). -/
theorem C5_counterexample :
    (scenarioStage.f observe inst_set_t.anyarch (fun _ => 7) zeroInp ⟨0, 4, 0, 8⟩ 8 8).toOption.map
        (fun o => o 0) = some 128 ∧
    (biasStage.f observe inst_set_t.anyarch (fun _ => 7) zeroInp ⟨0, 4, 0, 8⟩ 8 8).toOption.map
        (fun o => o 0) = some 130 := by
  decide

/-- C6.  Bucket selection.  With `ncol_per_group = num_columns / num_groups > 0`,
for every block that does not cross a group boundary
(`col_start % ncol_per_group + col_size <= ncol_per_group`) and every column `j`
of the block, the index `col_start / ncol_per_group` computed once per block
equals `j / ncol_per_group`, and the element that `ReQuantizeOutput::f` (generic
and vector paths) and `ReQuantizeForFloat::f` write for column `j` is the one
computed with the zero point and the multiplier (scale) of the bucket of `j`:
`0` for `TENSOR`, `j / (num_columns / num_groups)` for `GROUP`, `j` for
`OUT_CHANNEL`. -/
theorem C6_bucket_selection :
    (∀ {ρ : Type} (self : ReQuantizeOutput) (nextop_ : NextOp Int Int ρ) (instSet : inst_set_t)
      (out : Nat → Int) (inp : Nat → Int32) (block : block_type_t) (ld_out ld_in : Nat),
      0 < self.ncols_ / self.groups_ →
      block.col_start % (self.ncols_ / self.groups_) + block.col_size ≤
        self.ncols_ / self.groups_ →
      block.col_size ≤ ld_out →
      ∃ out1 : Nat → Int,
        self.f nextop_ instSet out inp block ld_out ld_in =
          Except.ok (nextop_ out1 out1 block ld_out ld_out) ∧
        ∀ i j, block.row_start ≤ i → i < block.row_start + block.row_size →
          block.col_start ≤ j → j < block.col_start + block.col_size →
          block.col_start / (self.ncols_ / self.groups_) = j / (self.ncols_ / self.groups_) ∧
          out1 (i * ld_out + j) =
            if instSet = inst_set_t.anyarch ∨ block.col_start + block.col_size / 8 * 8 ≤ j then
              self.stored inp block ld_in (j / (self.ncols_ / self.groups_)) i j
            else self.vstored inp block ld_in (j / (self.ncols_ / self.groups_)) i j) ∧
    (∀ {ρ : Type} (self : ReQuantizeForFloat) (nextop_ : NextOp F32 F32 ρ) (instSet : inst_set_t)
      (out : Nat → F32) (inp : Nat → Int32) (block : block_type_t) (ld_out ld_in : Nat),
      0 < self.ncols_ / self.groups_ →
      block.col_start % (self.ncols_ / self.groups_) + block.col_size ≤
        self.ncols_ / self.groups_ →
      block.col_size ≤ ld_out →
      ∃ out1 : Nat → F32,
        self.f nextop_ instSet out inp block ld_out ld_in =
          Except.ok (nextop_ out1 out1 block ld_out ld_out) ∧
        ∀ i j, block.row_start ≤ i → i < block.row_start + block.row_size →
          block.col_start ≤ j → j < block.col_start + block.col_size →
          block.col_start / (self.ncols_ / self.groups_) = j / (self.ncols_ / self.groups_) ∧
          out1 (i * ld_out + j) =
            self.stored inp block ld_in (j / (self.ncols_ / self.groups_)) i j) := by
  constructor
  · intro ρ self nextop_ instSet out inp block ld_out ld_in hg hcross hld
    have hc : block.col_size ≤ self.ncols_ / self.groups_ := by omega
    obtain ⟨out1, h1, h2⟩ := self.f_elem nextop_ instSet out inp block ld_out ld_in hg hc hld
    refine ⟨out1, h1, ?_⟩
    intro i j hi1 hi2 hj1 hj2
    have hd := div_eq_of_same_group hcross hj1 hj2
    refine ⟨hd, ?_⟩
    rw [h2 i j hi1 hi2 hj1 hj2]
    split_ifs
    · rw [hd]
    · apply self.vstored_bucket
      rw [self.bucket_quant_param_idx block j, hd]
  · intro ρ self nextop_ instSet out inp block ld_out ld_in hg hcross hld
    have hc : block.col_size ≤ self.ncols_ / self.groups_ := by omega
    refine ⟨_, self.f_eq nextop_ instSet out inp block ld_out ld_in hg hc, ?_⟩
    intro i j hi1 hi2 hj1 hj2
    have hd := div_eq_of_same_group hcross hj1 hj2
    refine ⟨hd, ?_⟩
    rw [blockWrite_elem _ _ hld hi1 hi2 hj1 hj2, hd]

theorem C6_bucket_selection_witness :
    (0 < groupStage.ncols_ / groupStage.groups_) ∧
    ((⟨0, 1, 4, 4⟩ : block_type_t).col_start % (groupStage.ncols_ / groupStage.groups_) +
      (⟨0, 1, 4, 4⟩ : block_type_t).col_size ≤ groupStage.ncols_ / groupStage.groups_) ∧
    ∃ out1 : Nat → Int,
      groupStage.f observe inst_set_t.anyarch (fun _ => 0) scenarioInp ⟨0, 1, 4, 4⟩ 8 8 =
        Except.ok out1 ∧
      out1 5 = groupStage.stored scenarioInp ⟨0, 1, 4, 4⟩ 8 1 0 5 := by
  refine ⟨by decide, by decide, ?_⟩
  obtain ⟨out1, h1, h2⟩ := C6_bucket_selection.1 groupStage observe inst_set_t.anyarch
    (fun _ => 0) scenarioInp ⟨0, 1, 4, 4⟩ 8 8 (by decide) (by decide) (by decide)
  refine ⟨out1, h1, ?_⟩
  have h := (h2 0 5 (by decide) (by decide) (by decide) (by decide)).2
  rw [if_pos (Or.inl rfl)] at h
  exact h

/-- C7 (amended).  Group-span detection: provided the group count is not zero,
the precondition check of `ReQuantizeOutput::f` (every path) and of
`ReQuantizeForFloat::f` fails exactly when the block is wider than one group,
`col_size > num_columns / num_groups`; no block wider than a group is
processed. -/
theorem C7_group_span_check :
    (∀ {ρ : Type} (self : ReQuantizeOutput) (nextop_ : NextOp Int Int ρ) (instSet : inst_set_t)
      (out : Nat → Int) (inp : Nat → Int32) (block : block_type_t) (ld_out ld_in : Nat),
      self.f nextop_ instSet out inp block ld_out ld_in = Except.error Abort.assertion ↔
        (self.groups_ ≠ 0 ∧ self.ncols_ / self.groups_ < block.col_size)) ∧
    (∀ {ρ : Type} (self : ReQuantizeForFloat) (nextop_ : NextOp F32 F32 ρ) (instSet : inst_set_t)
      (out : Nat → F32) (inp : Nat → Int32) (block : block_type_t) (ld_out ld_in : Nat),
      self.f nextop_ instSet out inp block ld_out ld_in = Except.error Abort.assertion ↔
        (self.groups_ ≠ 0 ∧ self.ncols_ / self.groups_ < block.col_size)) := by
  have key : ∀ (ncols groups col_size : Nat),
      (guard_fault ncols groups col_size = some Abort.assertion ↔
        (groups ≠ 0 ∧ ncols / groups < col_size)) := by
    intro ncols groups col_size
    unfold guard_fault
    by_cases h1 : groups = 0
    · simp [h1]
    · by_cases h2 : col_size ≤ ncols / groups
      · have h4 : ¬ (ncols / groups < col_size) := by omega
        rw [if_neg h1, if_neg (not_not.2 h2)]
        constructor
        · intro h
          split_ifs at h
          exact absurd (Option.some.inj h) (by decide)
        · rintro ⟨_, h⟩
          exact absurd h h4
      · have h4 : ncols / groups < col_size := by omega
        simp [h1, h2, h4]
  constructor
  · intro ρ self nextop_ instSet out inp block ld_out ld_in
    rw [← key]
    cases hgf : guard_fault self.ncols_ self.groups_ block.col_size with
    | none =>
      obtain ⟨hg, hc⟩ := guard_fault_none.1 hgf
      by_cases hi : instSet = inst_set_t.anyarch
      · subst hi
        rw [self.f_anyarch_eq nextop_ out inp block ld_out ld_in hg hc]
        simp
      · rw [self.f_vec_eq nextop_ instSet hi out inp block ld_out ld_in hg hc]
        simp
    | some e =>
      rw [self.f_fault nextop_ instSet out inp block ld_out ld_in e hgf]
      simp
  · intro ρ self nextop_ instSet out inp block ld_out ld_in
    rw [← key]
    cases hgf : guard_fault self.ncols_ self.groups_ block.col_size with
    | none =>
      obtain ⟨hg, hc⟩ := guard_fault_none.1 hgf
      rw [self.f_eq nextop_ instSet out inp block ld_out ld_in hg hc]
      simp
    | some e =>
      rw [self.f_float_fault nextop_ instSet out inp block ld_out ld_in e hgf]
      simp

/-- C7 (as stated) fails: with 8 columns in 2 groups of 4, the block of columns
`2 .. 5` contains columns of group 0 (`2 / 4 = 0`) and of group 1 (`5 / 4 = 1`),
yet its width `4` passes the check `col_size <= 4` and the block is processed by
`ReQuantizeOutput::f` and by `ReQuantizeForFloat::f`. -/
theorem C7_counterexample :
    (2 / (groupStage.ncols_ / groupStage.groups_) ≠ 5 / (groupStage.ncols_ / groupStage.groups_)) ∧
    (groupStage.f observe inst_set_t.anyarch (fun _ => 0) scenarioInp ⟨0, 1, 2, 4⟩ 8 8).toBool
      = true ∧
    (groupStage.f observe inst_set_t.avx2 (fun _ => 0) scenarioInp ⟨0, 1, 2, 4⟩ 8 8).toBool
      = true ∧
    (floatGroupStage.f observe inst_set_t.anyarch (fun _ => F32.zero) scenarioInp
      ⟨0, 1, 2, 4⟩ 8 8).toBool = true := by
  decide

/-- C8.  `ReQuantizeForFloat::f` with no bias configured: a call that passes the
precondition check hands to the next stage a buffer in which, for every row `i`
and column `j` of the block, `out[i*ld_out + j]` is
`(inp[(i-row_start)*ld_in + (j-col_start)] - zero_point_A*col_offsets[j]
 - row_offsets[i-row_start]*zero_points_B[b]) * scale_A * scales_B[b]`
(the corrected accumulator read as an `int32_t`, binary32 products, `b` the
granularity bucket): the row-offset term is there for every element in every
granularity, and there is no rounding to an integer and no saturation.  With
ReLU fusion the written value is `std::max(0.0f, that result)`, which is never
below zero. -/
theorem C8_float_dequantization {ρ : Type} (self : ReQuantizeForFloat)
    (nextop_ : NextOp F32 F32 ρ) (instSet : inst_set_t) (out : Nat → F32) (inp : Nat → Int32)
    (block : block_type_t) (ld_out ld_in : Nat)
    (hbias : self.bias_ = none)
    (hg : 0 < self.ncols_ / self.groups_) (hc : block.col_size ≤ self.ncols_ / self.groups_)
    (hld : block.col_size ≤ ld_out) :
    ∃ out1 : Nat → F32,
      self.f nextop_ instSet out inp block ld_out ld_in =
        Except.ok (nextop_ out1 out1 block ld_out ld_out) ∧
      ∀ i j b, block.row_start ≤ i → i < block.row_start + block.row_size →
        block.col_start ≤ j → j < block.col_start + block.col_size →
        b = bucket self.Q_GRAN (block.col_start / (self.ncols_ / self.groups_)) j →
        (self.FUSE_RELU = false →
          out1 (i * ld_out + j) =
            F32.mul (F32.mul (F32.ofInt32 (Int32.wrap
              ((inp ((i - block.row_start) * ld_in + (j - block.col_start))).val
                - self.Aq_zero_point_.val * (self.q_col_offsets_ j).val
                - (self.q_row_offsets_ (i - block.row_start)).val * (self.Bq_zero_point_ b).val)))
              self.Aq_scale_) (self.Bq_scale_ b)) ∧
        (self.FUSE_RELU = true →
          out1 (i * ld_out + j) =
            F32.std_max F32.zero
              (F32.mul (F32.mul (F32.ofInt32 (Int32.wrap
                ((inp ((i - block.row_start) * ld_in + (j - block.col_start))).val
                  - self.Aq_zero_point_.val * (self.q_col_offsets_ j).val
                  - (self.q_row_offsets_ (i - block.row_start)).val *
                      (self.Bq_zero_point_ b).val)))
                self.Aq_scale_) (self.Bq_scale_ b)) ∧
          F32.lt (out1 (i * ld_out + j)) F32.zero = false) := by
  refine ⟨_, self.f_eq nextop_ instSet out inp block ld_out ld_in hg hc, ?_⟩
  intro i j b hi1 hi2 hj1 hj2 hb
  rw [blockWrite_elem _ _ hld hi1 hi2 hj1 hj2]
  unfold ReQuantizeForFloat.stored ReQuantizeForFloat.scaled ReQuantizeForFloat.corrected
  rw [hbias, ← hb]
  simp only []
  constructor
  · intro hrelu
    rw [hrelu]
    simp only [Bool.false_eq_true, if_false]
  · intro hrelu
    rw [hrelu]
    simp only [if_true]
    exact ⟨trivial, F32.std_max_zero_not_lt _⟩

theorem C8_float_dequantization_witness :
    (floatReluStage.bias_ = none) ∧ (0 < floatReluStage.ncols_ / floatReluStage.groups_) ∧
    ∃ out1 : Nat → F32,
      floatReluStage.f observe inst_set_t.anyarch (fun _ => F32.nan) scenarioInp ⟨0, 1, 4, 4⟩
        8 8 = Except.ok out1 ∧ F32.lt (out1 6) F32.zero = false := by
  refine ⟨rfl, by decide, ?_⟩
  obtain ⟨out1, h1, h2⟩ := C8_float_dequantization floatReluStage observe inst_set_t.anyarch
    (fun _ => F32.nan) scenarioInp ⟨0, 1, 4, 4⟩ 8 8 rfl (by decide) (by decide) (by decide)
  refine ⟨out1, h1, ?_⟩
  exact ((h2 0 6 _ (by decide) (by decide) (by decide) (by decide) rfl).2 rfl).2

/-- C9 (amended).  Bias placement in the float path: in `ReQuantizeForFloat::f`,
when a bias is configured, `bias[j]` is added after the scale multiplication,
i.e. for every element the value before the optional ReLU is
`corrected * scale_A * scales_B[b] + bias[j]`, where `corrected` is the
accumulator after both zero-point corrections (read as an `int32_t`; binary32
products and sum); with ReLU fusion the written value is `std::max(0.0f, .)` of
it. -/
theorem C9_float_bias_placement {ρ : Type} (self : ReQuantizeForFloat) (bias : Nat → F32)
    (nextop_ : NextOp F32 F32 ρ) (instSet : inst_set_t) (out : Nat → F32) (inp : Nat → Int32)
    (block : block_type_t) (ld_out ld_in : Nat)
    (hbias : self.bias_ = some bias)
    (hg : 0 < self.ncols_ / self.groups_) (hc : block.col_size ≤ self.ncols_ / self.groups_)
    (hld : block.col_size ≤ ld_out) :
    ∃ out1 : Nat → F32,
      self.f nextop_ instSet out inp block ld_out ld_in =
        Except.ok (nextop_ out1 out1 block ld_out ld_out) ∧
      ∀ i j b, block.row_start ≤ i → i < block.row_start + block.row_size →
        block.col_start ≤ j → j < block.col_start + block.col_size →
        b = bucket self.Q_GRAN (block.col_start / (self.ncols_ / self.groups_)) j →
        out1 (i * ld_out + j) =
          (if self.FUSE_RELU then F32.std_max F32.zero else id)
            (F32.add
              (F32.mul (F32.mul (F32.ofInt32 (Int32.wrap
                ((inp ((i - block.row_start) * ld_in + (j - block.col_start))).val
                  - self.Aq_zero_point_.val * (self.q_col_offsets_ j).val
                  - (self.q_row_offsets_ (i - block.row_start)).val *
                      (self.Bq_zero_point_ b).val)))
                self.Aq_scale_) (self.Bq_scale_ b))
              (bias j)) := by
  refine ⟨_, self.f_eq nextop_ instSet out inp block ld_out ld_in hg hc, ?_⟩
  intro i j b hi1 hi2 hj1 hj2 hb
  rw [blockWrite_elem _ _ hld hi1 hi2 hj1 hj2]
  unfold ReQuantizeForFloat.stored ReQuantizeForFloat.scaled ReQuantizeForFloat.corrected
  rw [hbias, ← hb]
  simp only []
  cases self.FUSE_RELU <;> rfl

theorem C9_float_bias_placement_witness :
    (floatBiasStage.bias_ = some (fun _ => F32.one)) ∧
    (0 < floatBiasStage.ncols_ / floatBiasStage.groups_) ∧
    ∃ out1 : Nat → F32,
      floatBiasStage.f observe inst_set_t.anyarch (fun _ => F32.nan) zeroInp ⟨0, 1, 0, 8⟩ 8 8 =
        Except.ok out1 ∧ out1 0 = F32.one := by
  refine ⟨rfl, by decide, ?_⟩
  obtain ⟨out1, h1, h2⟩ := C9_float_bias_placement floatBiasStage (fun _ => F32.one) observe
    inst_set_t.anyarch (fun _ => F32.nan) zeroInp ⟨0, 1, 0, 8⟩ 8 8 rfl (by decide) (by decide)
    (by decide)
  refine ⟨out1, h1, ?_⟩
  rw [h2 0 0 _ (by decide) (by decide) (by decide) (by decide) rfl]
  decide

/-- C9 (as stated) fails: with `scale_A = 0.5`, `scale_B = 1.0`, a bias of `1.0`
and a corrected accumulator of `0`, the stage writes `0 * 0.5 * 1.0 + 1.0 = 1.0`,
whereas adding the bias before the scale multiplication would give
`(0 + 1.0) * 0.5 * 1.0 = 0.5`. -/
theorem C9_counterexample :
    (floatBiasStage.f observe inst_set_t.anyarch (fun _ => F32.nan) zeroInp
        ⟨0, 1, 0, 8⟩ 8 8).toOption.map (fun o => o 0) = some F32.one ∧
    F32.mul (F32.mul
      (F32.add (F32.ofInt32 (Int32.wrap (floatBiasStage.corrected zeroInp ⟨0, 1, 0, 8⟩ 8 0 0 0)))
        F32.one)
      floatBiasStage.Aq_scale_) (floatBiasStage.Bq_scale_ 0) = F32.half ∧
    F32.one ≠ F32.half := by
  decide

/-- C10.  Granularity equivalence: for every block, accumulator buffer, zero
point `z` and multiplier (scale) `m`, a call of `ReQuantizeOutput::f` (any path)
or of `ReQuantizeForFloat::f` with `TENSOR` granularity and arrays
`zero_points_B = [z]`, `multipliers = [m]` has exactly the same outcome (same
precondition failure, or same output buffer handed to the next stage) as the
same call with `OUT_CHANNEL` granularity and arrays in which every column of the
block has zero point `z` and multiplier `m`, all other configuration being
equal. -/
theorem C10_granularity_equivalence :
    (∀ {ρ : Type} (self : ReQuantizeOutput) (zero_points : Nat → Int32) (multipliers : Nat → F32)
      (nextop_ : NextOp Int Int ρ) (instSet : inst_set_t) (out : Nat → Int) (inp : Nat → Int32)
      (block : block_type_t) (ld_out ld_in : Nat),
      self.Q_GRAN = QuantizationGranularity.TENSOR →
      (∀ j, block.col_start ≤ j → j < block.col_start + block.col_size →
        zero_points j = self.Bq_zero_point_ 0 ∧ multipliers j = self.C_multiplier_ 0) →
      self.f nextop_ instSet out inp block ld_out ld_in =
        ReQuantizeOutput.f
          { self with
            Q_GRAN := QuantizationGranularity.OUT_CHANNEL
            Bq_zero_point_ := zero_points
            C_multiplier_ := multipliers }
          nextop_ instSet out inp block ld_out ld_in) ∧
    (∀ {ρ : Type} (self : ReQuantizeForFloat) (zero_points : Nat → Int32) (scales : Nat → F32)
      (nextop_ : NextOp F32 F32 ρ) (instSet : inst_set_t) (out : Nat → F32) (inp : Nat → Int32)
      (block : block_type_t) (ld_out ld_in : Nat),
      self.Q_GRAN = QuantizationGranularity.TENSOR →
      (∀ j, block.col_start ≤ j → j < block.col_start + block.col_size →
        zero_points j = self.Bq_zero_point_ 0 ∧ scales j = self.Bq_scale_ 0) →
      self.f nextop_ instSet out inp block ld_out ld_in =
        ReQuantizeForFloat.f
          { self with
            Q_GRAN := QuantizationGranularity.OUT_CHANNEL
            Bq_zero_point_ := zero_points
            Bq_scale_ := scales }
          nextop_ instSet out inp block ld_out ld_in) := by
  constructor
  · intro ρ self zps ms nextop_ instSet out inp block ld_out ld_in hT hcols
    refine ReQuantizeOutput.f_congr self
      { self with
        Q_GRAN := QuantizationGranularity.OUT_CHANNEL
        Bq_zero_point_ := zps
        C_multiplier_ := ms } nextop_ instSet out inp block ld_out ld_in rfl rfl ?_
    intro i j _ _ hj1 hj2
    obtain ⟨hz, hm⟩ := hcols j hj1 hj2
    constructor
    · unfold ReQuantizeOutput.stored ReQuantizeOutput.corrected
      simp only [hT, bucket, hz, hm]
    · unfold ReQuantizeOutput.vstored ReQuantizeOutput.vlane ReQuantizeOutput.corrected
      simp only [hT, bucket, hz, hm]
  · intro ρ self zps ss nextop_ instSet out inp block ld_out ld_in hT hcols
    refine ReQuantizeForFloat.f_float_congr self
      { self with
        Q_GRAN := QuantizationGranularity.OUT_CHANNEL
        Bq_zero_point_ := zps
        Bq_scale_ := ss } nextop_ instSet out inp block ld_out ld_in rfl rfl ?_
    intro i j _ _ hj1 hj2
    obtain ⟨hz, hs⟩ := hcols j hj1 hj2
    unfold ReQuantizeForFloat.stored ReQuantizeForFloat.scaled ReQuantizeForFloat.corrected
    simp only [hT, bucket, hz, hs]

theorem C10_granularity_equivalence_witness :
    (scenarioStage.Q_GRAN = QuantizationGranularity.TENSOR) ∧
    scenarioStage.f observe inst_set_t.avx2 (fun _ => 0) scenarioInp ⟨0, 4, 0, 8⟩ 8 8 =
      ReQuantizeOutput.f
        { scenarioStage with
          Q_GRAN := QuantizationGranularity.OUT_CHANNEL
          Bq_zero_point_ := fun _ => 0
          C_multiplier_ := fun _ => F32.half }
        observe inst_set_t.avx2 (fun _ => 0) scenarioInp ⟨0, 4, 0, 8⟩ 8 8 :=
  ⟨rfl, C10_granularity_equivalence.1 scenarioStage (fun _ => 0) (fun _ => F32.half) observe
    inst_set_t.avx2 (fun _ => 0) scenarioInp ⟨0, 4, 0, 8⟩ 8 8 rfl (fun _ _ _ => ⟨rfl, rfl⟩)⟩







theorem ReQuantizeOutput.f_row_indep_row (self : ReQuantizeOutput)
    (ro : Option (Nat → Int32)) (A H : Bool) :
    ReQuantizeOutput.f_row { self with q_row_offsets_ := ro } A true H = self.f_row A true H := by
  have h32 : ReQuantizeOutput.f_body32 { self with q_row_offsets_ := ro } A true H =
      self.f_body32 A true H := by
    funext inp block ld_out ld_in q i j st
    unfold ReQuantizeOutput.f_body32
    simp only [Bool.not_true, Bool.false_eq_true, if_false, Bool.false_and]
  have h8 : ReQuantizeOutput.f_body8 { self with q_row_offsets_ := ro } A true H =
      self.f_body8 A true H := by
    funext inp block ld_out ld_in q i j st
    unfold ReQuantizeOutput.f_body8
    simp only [Bool.not_true, Bool.false_eq_true, if_false, Bool.false_and]
  have h1 : ReQuantizeOutput.f_body1 { self with q_row_offsets_ := ro } A true H =
      self.f_body1 A true H := by
    funext inp block ld_out ld_in q i j st
    unfold ReQuantizeOutput.f_body1
    simp only [Bool.not_true, Bool.false_eq_true, if_false, Bool.false_and]
  funext inp block ld_out ld_in q i out
  unfold ReQuantizeOutput.f_row
  rw [h32, h8, h1]
  simp only [if_true]

theorem ReQuantizeOutput.f_row_indep_bias (self : ReQuantizeOutput)
    (b : Option (Nat → Int32)) (A B : Bool) :
    ReQuantizeOutput.f_row { self with bias_ := b } A B false = self.f_row A B false := by
  have h32 : ReQuantizeOutput.f_body32 { self with bias_ := b } A B false =
      self.f_body32 A B false := by
    funext inp block ld_out ld_in q i j st
    unfold ReQuantizeOutput.f_body32
    simp only [Bool.false_eq_true, if_false]
  have h8 : ReQuantizeOutput.f_body8 { self with bias_ := b } A B false =
      self.f_body8 A B false := by
    funext inp block ld_out ld_in q i j st
    unfold ReQuantizeOutput.f_body8
    simp only [Bool.false_eq_true, if_false]
  have h1 : ReQuantizeOutput.f_body1 { self with bias_ := b } A B false =
      self.f_body1 A B false := by
    funext inp block ld_out ld_in q i j st
    unfold ReQuantizeOutput.f_body1
    simp only [Bool.false_eq_true, if_false]
  funext inp block ld_out ld_in q i out
  unfold ReQuantizeOutput.f_row
  rw [h32, h8, h1]

/-- A loop computes the fold of its body over the values of its variable. -/
theorem forLoop_eq_foldl_iters {σ : Type} (body : Nat → σ → σ) (bound step : Nat) :
    ∀ (fuel j : Nat) (s : σ),
      (forLoop body bound step fuel j s).2 =
        (forLoop_iters bound step fuel j).foldl (fun s j => body j s) s := by
  intro fuel
  induction fuel with
  | zero => intro j s; rfl
  | succ n ih =>
    intro j s
    unfold forLoop forLoop_iters
    by_cases hj : j < bound
    · rw [if_pos hj, if_pos hj, List.foldl_cons]
      exact ih _ _
    · rw [if_neg hj, if_neg hj]
      rfl

theorem forLoop_iters_step (step : Nat) (hstep : 0 < step) :
    ∀ (m fuel j : Nat), m ≤ fuel →
      forLoop_iters (j + m * step) step fuel j = (List.range m).map (fun t => j + step * t) := by
  intro m
  induction m with
  | zero =>
    intro fuel j _
    cases fuel with
    | zero => rfl
    | succ f =>
      unfold forLoop_iters
      rw [if_neg (by omega)]
      rfl
  | succ m ih =>
    intro fuel j hm
    cases fuel with
    | zero => omega
    | succ f =>
      unfold forLoop_iters
      have hlt : j < j + (m + 1) * step := by
        have : 0 < (m + 1) * step := Nat.mul_pos (by omega) hstep
        omega
      rw [if_pos hlt]
      have hb : j + (m + 1) * step = (j + step) + m * step := by
        rw [Nat.add_mul, Nat.one_mul]; omega
      rw [hb, ih f (j + step) (by omega), List.range_succ_eq_map, List.map_cons, List.map_map]
      congr 1
      apply List.map_congr_left
      intro t _
      simp only [Function.comp, Nat.mul_succ]
      omega

/-- Among the windows `[a + w*t, a + w*t + w)`, `t < m`, exactly one holds a
given column of `[a, a + w*m)` and none holds a column outside. -/
theorem countP_windows (a w c : Nat) :
    ∀ m : Nat, ((List.range m).map (fun t => a + w * t)).countP
      (fun j => decide (j ≤ c ∧ c < j + w)) = if a ≤ c ∧ c < a + w * m then 1 else 0 := by
  intro m
  induction m with
  | zero =>
    have h : ¬ (a ≤ c ∧ c < a + w * 0) := by omega
    rw [if_neg h]
    rfl
  | succ m ih =>
    rw [List.range_succ, List.map_append, List.countP_append, ih, Nat.mul_succ]
    simp only [List.map_cons, List.map_nil, List.countP_cons, List.countP_nil, Nat.zero_add]
    split_ifs <;> simp_all <;> omega

theorem memcpy_some {α : Type} (mem : Nat → α) (dst src n : Nat)
    (h : n = 0 ∨ dst + n ≤ src ∨ src + n ≤ dst) :
    memcpy mem dst src n =
      some (fun p => if dst ≤ p ∧ p < dst + n then mem (src + (p - dst)) else mem p) := by
  unfold memcpy
  rw [if_pos h]

/-- The row loop of `memCopy::f` on regions that do not meet: after `n` rows the
destination rows hold the source rows and every other address is unchanged. -/
theorem memCopy_rows {α : Type} (mem : Nat → α) (out inp : Nat) (block : block_type_t)
    (ld_out ld_in : Nat) (hld : block.col_size ≤ ld_out)
    (hdis : ∀ i i' c c', block.row_start ≤ i → i < block.row_start + block.row_size →
      block.row_start ≤ i' → i' < block.row_start + block.row_size →
      c < block.col_size → c' < block.col_size →
      out + i * ld_out + block.col_start + c ≠ inp + (i' - block.row_start) * ld_in + c') :
    ∀ n, n ≤ block.row_size →
      ∃ m : Nat → α,
        (List.range' block.row_start n).foldl
          (fun (mem : Option (Nat → α)) i =>
            mem.bind (fun mem =>
              memcpy mem (out + block.col_start + i * ld_out)
                (inp + (i - block.row_start) * ld_in) block.col_size)) (some mem) = some m ∧
        (∀ i c, block.row_start ≤ i → i < block.row_start + n → c < block.col_size →
          m (out + i * ld_out + block.col_start + c) =
            mem (inp + (i - block.row_start) * ld_in + c)) ∧
        (∀ p, (∀ i c, block.row_start ≤ i → i < block.row_start + n → c < block.col_size →
          p ≠ out + i * ld_out + block.col_start + c) → m p = mem p) := by
  intro n
  induction n with
  | zero =>
    intro _
    refine ⟨mem, rfl, ?_, ?_⟩
    · intro i c h1 h2; omega
    · intro p _; rfl
  | succ n ih =>
    intro hn
    obtain ⟨m, hm, hcopy, hframe⟩ := ih (by omega)
    rw [List.range'_concat, List.foldl_append, hm]
    simp only [List.foldl_cons, List.foldl_nil, Option.some_bind]
    have hsep : block.col_size = 0 ∨
        out + block.col_start + (block.row_start + n) * ld_out + block.col_size ≤
          inp + (block.row_start + n - block.row_start) * ld_in ∨
        inp + (block.row_start + n - block.row_start) * ld_in + block.col_size ≤
          out + block.col_start + (block.row_start + n) * ld_out := by
      by_contra hcon
      by_cases hle : out + block.col_start + (block.row_start + n) * ld_out ≤
          inp + (block.row_start + n - block.row_start) * ld_in
      · exact hdis (block.row_start + n) (block.row_start + n)
          (inp + (block.row_start + n - block.row_start) * ld_in -
            (out + block.col_start + (block.row_start + n) * ld_out)) 0
          (by omega) (by omega) (by omega) (by omega) (by omega) (by omega) (by omega)
      · exact hdis (block.row_start + n) (block.row_start + n) 0
          (out + block.col_start + (block.row_start + n) * ld_out -
            (inp + (block.row_start + n - block.row_start) * ld_in))
          (by omega) (by omega) (by omega) (by omega) (by omega) (by omega) (by omega)
    rw [Nat.one_mul, memcpy_some _ _ _ _ hsep]
    refine ⟨_, rfl, ?_, ?_⟩
    · intro i c h1 h2 hc
      by_cases hi : i = block.row_start + n
      · subst hi
        have hin : out + block.col_start + (block.row_start + n) * ld_out ≤
            out + (block.row_start + n) * ld_out + block.col_start + c ∧
            out + (block.row_start + n) * ld_out + block.col_start + c <
              out + block.col_start + (block.row_start + n) * ld_out + block.col_size := by
          omega
        simp only [hin, and_self, if_true]
        have e : out + (block.row_start + n) * ld_out + block.col_start + c -
            (out + block.col_start + (block.row_start + n) * ld_out) = c := by omega
        rw [e]
        apply hframe
        intro i' c' h1' h2' hc'
        exact (hdis i' (block.row_start + n) c' c h1' (by omega) (by omega) (by omega) hc' hc).symm
      · have hlt : i < block.row_start + n := by omega
        have hmul : (i + 1) * ld_out ≤ (block.row_start + n) * ld_out :=
          Nat.mul_le_mul_right _ (by omega)
        rw [Nat.add_mul, Nat.one_mul] at hmul
        have hout : ¬ (out + block.col_start + (block.row_start + n) * ld_out ≤
            out + i * ld_out + block.col_start + c ∧
            out + i * ld_out + block.col_start + c <
              out + block.col_start + (block.row_start + n) * ld_out + block.col_size) := by
          omega
        simp only [hout, if_false]
        exact hcopy i c h1 hlt hc
    · intro p hp
      have hout : ¬ (out + block.col_start + (block.row_start + n) * ld_out ≤ p ∧
          p < out + block.col_start + (block.row_start + n) * ld_out + block.col_size) := by
        intro hcon
        exact hp (block.row_start + n)
          (p - (out + block.col_start + (block.row_start + n) * ld_out))
          (by omega) (by omega) (by omega) (by omega)
      simp only [hout, if_false]
      apply hframe
      intro i c h1 h2 hc
      exact hp i c h1 (by omega) hc

/-- C12.  The stage `memCopy::f` with source and destination regions of the
block that do not meet, and `col_size <= ld_out`: the call is defined, the next
stage receives a memory in which, for every row `i` of the block and every
`c < col_size`, `out[i*ld_out + col_start + c]` equals
`inp[(i-row_start)*ld_in + c]` as it was before the call, every address that is
not a destination element of the block is unchanged, and in particular the
source elements are unchanged. -/
theorem C12_memCopy_copies {α ρ : Type} (nextop_ : MemNextOp α ρ) (instSet : inst_set_t)
    (mem : Nat → α) (out inp : Nat) (block : block_type_t) (ld_out ld_in : Nat)
    (hld : block.col_size ≤ ld_out)
    (hdis : ∀ i i' c c', block.row_start ≤ i → i < block.row_start + block.row_size →
      block.row_start ≤ i' → i' < block.row_start + block.row_size →
      c < block.col_size → c' < block.col_size →
      out + i * ld_out + block.col_start + c ≠ inp + (i' - block.row_start) * ld_in + c') :
    ∃ mem1 : Nat → α,
      memCopy.f nextop_ instSet mem out inp block ld_out ld_in =
        some (nextop_ mem1 out out block ld_out ld_out) ∧
      (∀ i c, block.row_start ≤ i → i < block.row_start + block.row_size → c < block.col_size →
        mem1 (out + i * ld_out + block.col_start + c) =
          mem (inp + (i - block.row_start) * ld_in + c)) ∧
      (∀ p, (∀ i c, block.row_start ≤ i → i < block.row_start + block.row_size →
        c < block.col_size → p ≠ out + i * ld_out + block.col_start + c) → mem1 p = mem p) ∧
      (∀ i c, block.row_start ≤ i → i < block.row_start + block.row_size → c < block.col_size →
        mem1 (inp + (i - block.row_start) * ld_in + c) =
          mem (inp + (i - block.row_start) * ld_in + c)) := by
  obtain ⟨m, hm, hcopy, hframe⟩ :=
    memCopy_rows mem out inp block ld_out ld_in hld hdis block.row_size (Nat.le_refl _)
  have hsrc : ∀ i c, block.row_start ≤ i → i < block.row_start + block.row_size →
      c < block.col_size →
      m (inp + (i - block.row_start) * ld_in + c) =
        mem (inp + (i - block.row_start) * ld_in + c) := by
    intro i c h1 h2 hc
    apply hframe
    intro i' c' h1' h2' hc'
    exact (hdis i' i c' c h1' h2' h1 h2 hc' hc).symm
  by_cases hp : out + block.row_start * ld_out + block.col_start ≠ inp
  · refine ⟨m, ?_, hcopy, hframe, hsrc⟩
    unfold memCopy.f
    simp only [hp, if_true, ne_eq, not_false_eq_true]
    rw [forLoop_one _ _ _ _ _ (Nat.le_refl _)]
    simp only []
    rw [hm]
  · have hp2 : out + block.row_start * ld_out + block.col_start = inp := by
      by_contra hcon
      exact hp hcon
    have hempty : block.row_size = 0 ∨ block.col_size = 0 := by
      by_contra hcon
      exact hdis block.row_start block.row_start 0 0 (by omega) (by omega) (by omega) (by omega)
        (by omega) (by omega) (by rw [Nat.sub_self, Nat.zero_mul]; omega)
    refine ⟨mem, ?_, ?_, ?_, ?_⟩
    · unfold memCopy.f
      simp only [hp2, ne_eq, not_true_eq_false, if_false]
    · intro i c h1 h2 hc
      omega
    · intro p _
      rfl
    · intro i c _ _ _
      rfl

theorem C12_memCopy_copies_witness :
    ((⟨1, 2, 1, 3⟩ : block_type_t).col_size ≤ 8) ∧
    ∃ mem1 : Nat → Int,
      memCopy.f observeMem inst_set_t.anyarch countMem 0 32 ⟨1, 2, 1, 3⟩ 8 4 = some mem1 ∧
      mem1 (0 + 2 * 8 + 1 + 1) = countMem (32 + (2 - 1) * 4 + 1) := by
  refine ⟨by decide, ?_⟩
  obtain ⟨mem1, h1, h2, _⟩ := C12_memCopy_copies observeMem inst_set_t.anyarch countMem 0 32
    ⟨1, 2, 1, 3⟩ 8 4 (by decide) (by
      intro i i' c c' h1 h2 h3 h4 h5 h6
      simp only at h1 h2 h3 h4 h5 h6 ⊢
      omega)
  exact ⟨mem1, h1, h2 2 1 (by decide) (by decide) (by decide)⟩

/-- C13.  Copy-stage idempotence: when `memCopy::f` is invoked with the source
address equal to the destination address of the block
(`out + row_start*ld_out + col_start == inp`), the copy is skipped: the call is
defined and the memory handed to the next stage is, element for element, the
memory before the call. -/
theorem C13_memCopy_self_copy {α ρ : Type} (nextop_ : MemNextOp α ρ) (instSet : inst_set_t)
    (mem : Nat → α) (out inp : Nat) (block : block_type_t) (ld_out ld_in : Nat)
    (h : out + block.row_start * ld_out + block.col_start = inp) :
    memCopy.f nextop_ instSet mem out inp block ld_out ld_in =
        some (nextop_ mem out out block ld_out ld_out) ∧
      ∀ p, (memCopy.f observeMem instSet mem out inp block ld_out ld_in).map (fun m => m p) =
        some (mem p) := by
  constructor
  · unfold memCopy.f
    simp only [h, ne_eq, not_true_eq_false, if_false]
  · intro p
    unfold memCopy.f
    simp only [h, ne_eq, not_true_eq_false, if_false]
    rfl

theorem C13_memCopy_self_copy_witness :
    (0 + (⟨1, 2, 1, 3⟩ : block_type_t).row_start * 8 + (⟨1, 2, 1, 3⟩ : block_type_t).col_start = 9) ∧
    memCopy.f observeMem inst_set_t.avx2 countMem 0 9 ⟨1, 2, 1, 3⟩ 8 8 = some countMem :=
  ⟨by decide,
    (C13_memCopy_self_copy observeMem inst_set_t.avx2 countMem 0 9 ⟨1, 2, 1, 3⟩ 8 8
      (by decide)).1⟩

/-- C14.  Status propagation and forwarding.  For every stage of the file and
every call within its contract, whatever the next stage is, the value returned
by the stage's `f` is the value returned by one call of the next stage's `f`,
on the same block.
`memCopy`, `ReQuantizeOutput` and `ReQuantizeForFloat` call
`next(out, out, block, ld_out, ld_out)` on the freshly written output: for
`memCopy` with the source address equal to the destination address the memory
is handed over as it is; for `memCopy` with source and destination regions that
do not meet, the memory handed over holds the source elements at the
destination elements of the block and is unchanged elsewhere; for
`ReQuantizeOutput` (every path) and `ReQuantizeForFloat` (block no wider than a
group), the buffer handed over holds at every element of the block the value
the stage stores for it and is equal to `out` elsewhere.
`DoSpmdmOnInpBuffer` (column count a multiple of the group count, `SpMDM`
returns) and `DoSConvOnInpBuffer` (`SparseConv` returns) call
`next(out, inp, block, ld_out, ld_in)`, `inp` being the accumulator buffer as
`SpMDM`, respectively `SparseConv`, leaves it. -/
theorem C14_status_forwarding :
    (∀ {α : Type} (instSet : inst_set_t) (mem : Nat → α) (out inp : Nat) (block : block_type_t)
      (ld_out ld_in : Nat),
      out + block.row_start * ld_out + block.col_start = inp →
      ∀ {ρ : Type} (nextop_ : MemNextOp α ρ),
        memCopy.f nextop_ instSet mem out inp block ld_out ld_in =
          some (nextop_ mem out out block ld_out ld_out)) ∧
    (∀ {α : Type} (instSet : inst_set_t) (mem : Nat → α) (out inp : Nat) (block : block_type_t)
      (ld_out ld_in : Nat),
      block.col_size ≤ ld_out →
      (∀ i i' c c', block.row_start ≤ i → i < block.row_start + block.row_size →
        block.row_start ≤ i' → i' < block.row_start + block.row_size →
        c < block.col_size → c' < block.col_size →
        out + i * ld_out + block.col_start + c ≠
          inp + (i' - block.row_start) * ld_in + c') →
      ∃ mem1 : Nat → α,
        (∀ {ρ : Type} (nextop_ : MemNextOp α ρ),
          memCopy.f nextop_ instSet mem out inp block ld_out ld_in =
            some (nextop_ mem1 out out block ld_out ld_out)) ∧
        (∀ i c, block.row_start ≤ i → i < block.row_start + block.row_size →
          c < block.col_size →
          mem1 (out + i * ld_out + block.col_start + c) =
            mem (inp + (i - block.row_start) * ld_in + c)) ∧
        (∀ p, (∀ i c, block.row_start ≤ i → i < block.row_start + block.row_size →
          c < block.col_size → p ≠ out + i * ld_out + block.col_start + c) →
          mem1 p = mem p)) ∧
    (∀ (self : ReQuantizeOutput) (instSet : inst_set_t) (out : Nat → Int) (inp : Nat → Int32)
      (block : block_type_t) (ld_out ld_in : Nat),
      0 < self.ncols_ / self.groups_ → block.col_size ≤ self.ncols_ / self.groups_ →
      block.col_size ≤ ld_out →
      ∃ out1 : Nat → Int,
        (∀ {ρ : Type} (nextop_ : NextOp Int Int ρ),
          self.f nextop_ instSet out inp block ld_out ld_in =
            Except.ok (nextop_ out1 out1 block ld_out ld_out)) ∧
        (∀ i j, block.row_start ≤ i → i < block.row_start + block.row_size →
          block.col_start ≤ j → j < block.col_start + block.col_size →
          out1 (i * ld_out + j) =
            if instSet = inst_set_t.anyarch ∨ block.col_start + block.col_size / 8 * 8 ≤ j then
              self.stored inp block ld_in (block.col_start / (self.ncols_ / self.groups_)) i j
            else self.vstored inp block ld_in (self.quant_param_idx block) i j) ∧
        (∀ p, (∀ i j, block.row_start ≤ i → i < block.row_start + block.row_size →
          block.col_start ≤ j → j < block.col_start + block.col_size → p ≠ i * ld_out + j) →
          out1 p = out p)) ∧
    (∀ (self : ReQuantizeForFloat) (instSet : inst_set_t) (out : Nat → F32) (inp : Nat → Int32)
      (block : block_type_t) (ld_out ld_in : Nat),
      0 < self.ncols_ / self.groups_ → block.col_size ≤ self.ncols_ / self.groups_ →
      block.col_size ≤ ld_out →
      ∃ out1 : Nat → F32,
        (∀ {ρ : Type} (nextop_ : NextOp F32 F32 ρ),
          self.f nextop_ instSet out inp block ld_out ld_in =
            Except.ok (nextop_ out1 out1 block ld_out ld_out)) ∧
        (∀ i j, block.row_start ≤ i → i < block.row_start + block.row_size →
          block.col_start ≤ j → j < block.col_start + block.col_size →
          out1 (i * ld_out + j) =
            self.stored inp block ld_in (block.col_start / (self.ncols_ / self.groups_)) i j) ∧
        (∀ p, (∀ i j, block.row_start ≤ i → i < block.row_start + block.row_size →
          block.col_start ≤ j → j < block.col_start + block.col_size → p ≠ i * ld_out + j) →
          out1 p = out p)) ∧
    (∀ {κ α : Type} (self : DoSpmdmOnInpBuffer κ) (instSet : inst_set_t) (out : Nat → α)
      (inp inp1 : Nat → Int32) (block : block_type_t) (ld_out ld_in : Nat),
      self.groups_ ≠ 0 → self.B_csc_.NumOfCols % self.groups_ = 0 →
      0 < self.B_csc_.NumOfCols →
      self.B_csc_.SpMDM block
        (fun k => self.A_ (block.col_start / (self.B_csc_.NumOfCols / self.groups_) *
          self.B_csc_.NumOfRows + k)) self.lda_ true inp ld_in = Except.ok inp1 →
      ∀ {ρ : Type} (nextop_ : NextOp α Int32 ρ),
        self.f nextop_ instSet out inp block ld_out ld_in =
          Except.ok (nextop_ out inp1 block ld_out ld_in)) ∧
    (∀ {κ α : Type} (self : DoSConvOnInpBuffer κ) (instSet : inst_set_t) (out : Nat → α)
      (inp inp1 : Nat → Int32) (block : block_type_t) (ld_out ld_in : Nat),
      self.B_csc_.SparseConv self.conv_p_ block self.A_ self.A_zero_point_ true inp ld_in =
        Except.ok inp1 →
      ∀ {ρ : Type} (nextop_ : NextOp α Int32 ρ),
        self.f nextop_ instSet out inp block ld_out ld_in =
          Except.ok (nextop_ out inp1 block ld_out ld_in)) := by
  have hframe : ∀ {α : Type} (v : Nat → Nat → α) (out : Nat → α) (block : block_type_t)
      (ld_out : Nat), block.col_size ≤ ld_out →
      ∀ p, (∀ i j, block.row_start ≤ i → i < block.row_start + block.row_size →
        block.col_start ≤ j → j < block.col_start + block.col_size → p ≠ i * ld_out + j) →
      blockWrite ld_out block.row_start block.row_size block.col_start block.col_size v out p =
        out p := by
    intro α v out block ld_out hld p hp
    apply blockWrite_frame v out hld
    intro i h1 h2 hin
    exact hp i (p - i * ld_out) h1 h2 (by omega) (by omega) (by omega)
  refine ⟨?_, ?_, ?_, ?_, ?_, ?_⟩
  · intro α instSet mem out inp block ld_out ld_in hp ρ nextop_
    unfold memCopy.f
    simp only [hp, ne_eq, not_true_eq_false, if_false]
  · intro α instSet mem out inp block ld_out ld_in hld hdis
    obtain ⟨m, hm, hcopy, hfr⟩ :=
      memCopy_rows mem out inp block ld_out ld_in hld hdis block.row_size (Nat.le_refl _)
    refine ⟨m, ?_, hcopy, hfr⟩
    intro ρ nextop_
    unfold memCopy.f
    by_cases hp : out + block.row_start * ld_out + block.col_start = inp
    · have hmm : m = mem := by
        funext p
        apply hfr p
        intro i c h1 h2 h3
        exfalso
        exact hdis block.row_start block.row_start 0 0 (Nat.le_refl _) (by omega)
          (Nat.le_refl _) (by omega) (by omega) (by omega)
          (by rw [Nat.sub_self, Nat.zero_mul]; omega)
      simp only [hp, ne_eq, not_true_eq_false, if_false, hmm]
    · simp only [hp, if_true, ne_eq, not_false_eq_true]
      rw [forLoop_one _ _ _ _ _ (Nat.le_refl _)]
      simp only []
      rw [hm]
  · intro self instSet out inp block ld_out ld_in hg hc hld
    by_cases hi : instSet = inst_set_t.anyarch
    · subst hi
      refine ⟨_, fun nextop_ => self.f_anyarch_eq nextop_ out inp block ld_out ld_in hg hc,
        ?_, hframe _ out block ld_out hld⟩
      intro i j h1 h2 h3 h4
      rw [blockWrite_elem _ _ hld h1 h2 h3 h4]
      simp
    · refine ⟨_, fun nextop_ => self.f_vec_eq nextop_ instSet hi out inp block ld_out ld_in hg hc,
        ?_, hframe _ out block ld_out hld⟩
      intro i j h1 h2 h3 h4
      rw [blockWrite_elem _ _ hld h1 h2 h3 h4]
      unfold ReQuantizeOutput.f_stored
      simp only [hi, false_or]
      by_cases hj : block.col_start + block.col_size / 8 * 8 ≤ j
      · rw [if_pos hj, if_neg (by omega), self.stored_quant_param_idx]
      · rw [if_neg hj, if_pos (by omega)]
  · intro self instSet out inp block ld_out ld_in hg hc hld
    refine ⟨_, fun nextop_ => self.f_eq nextop_ instSet out inp block ld_out ld_in hg hc,
      ?_, hframe _ out block ld_out hld⟩
    intro i j h1 h2 h3 h4
    rw [blockWrite_elem _ _ hld h1 h2 h3 h4]
  · intro κ α self instSet out inp inp1 block ld_out ld_in hgr hdiv hcols hsp ρ nextop_
    have hn : ¬ self.B_csc_.NumOfCols / self.groups_ = 0 := by
      intro h0
      have := Nat.div_add_mod self.B_csc_.NumOfCols self.groups_
      rw [h0, hdiv] at this
      omega
    unfold DoSpmdmOnInpBuffer.f
    simp only [hgr, hdiv, hn, if_false, not_true_eq_false]
    rw [hsp]
  · intro κ α self instSet out inp inp1 block ld_out ld_in hsp ρ nextop_
    unfold DoSConvOnInpBuffer.f
    rw [hsp]

theorem C14_status_forwarding_witness :
    ((0 < scenarioStage.ncols_ / scenarioStage.groups_) ∧
      ((⟨0, 1, 0, 8⟩ : block_type_t).col_size ≤ scenarioStage.ncols_ / scenarioStage.groups_) ∧
      ∃ out1 : Nat → Int,
        scenarioStage.f
            (fun out inp block ld_out ld_in => (out 0, inp 1, out 8, block, ld_out, ld_in))
            inst_set_t.avx2 (fun _ => 7) scenarioInp ⟨0, 1, 0, 8⟩ 8 16 =
          Except.ok (out1 0, out1 1, out1 8, ⟨0, 1, 0, 8⟩, 8, 8) ∧
        out1 0 = 133 ∧ out1 1 = 255 ∧ out1 8 = 7) ∧
    (((⟨1, 2, 1, 3⟩ : block_type_t).col_size ≤ 8) ∧
      ∃ mem1 : Nat → Int,
        memCopy.f (fun mem out inp block ld_out ld_in => (mem 18, mem 19, out, inp, block, ld_out, ld_in))
            inst_set_t.anyarch countMem 0 32 ⟨1, 2, 1, 3⟩ 8 4 =
          some (mem1 18, mem1 19, 0, 0, ⟨1, 2, 1, 3⟩, 8, 8) ∧
        mem1 18 = 37 ∧ mem1 19 = 38) := by
  constructor
  · refine ⟨by decide, by decide, ?_⟩
    obtain ⟨out1, h1, h2, h3⟩ := C14_status_forwarding.2.2.1 scenarioStage inst_set_t.avx2
      (fun _ => 7) scenarioInp ⟨0, 1, 0, 8⟩ 8 16 (by decide) (by decide) (by decide)
    refine ⟨out1, h1 _, ?_, ?_, ?_⟩
    · have := h2 0 0 (by decide) (by decide) (by decide) (by decide)
      rw [Nat.zero_mul, Nat.add_zero] at this
      rw [this]
      decide
    · have := h2 0 1 (by decide) (by decide) (by decide) (by decide)
      rw [Nat.zero_mul, Nat.zero_add] at this
      rw [this]
      decide
    · rw [h3 8]
      intro i j hi1 hi2 hj1 hj2
      simp at hi1 hi2 hj1 hj2
      omega
  · refine ⟨by decide, ?_⟩
    obtain ⟨mem1, h1, h2, _⟩ := C14_status_forwarding.2.1 inst_set_t.anyarch countMem 0 32
      ⟨1, 2, 1, 3⟩ 8 4 (by decide) (by
        intro i i' c c' h1 h2 h3 h4 h5 h6
        simp only at h1 h2 h3 h4 h5 h6 ⊢
        omega)
    refine ⟨mem1, h1 _, ?_, ?_⟩
    · exact h2 2 1 (by decide) (by decide) (by decide)
    · exact h2 2 2 (by decide) (by decide) (by decide)

theorem ReQuantizeOutput.vstored_clamp (self : ReQuantizeOutput) (inp : Nat → Int32)
    (block : block_type_t) (ld_in q i c : Nat)
    (hz0 : 0 ≤ self.C_zero_point_.val) (hz1 : self.C_zero_point_.val ≤ 255) :
    self.vstored inp block ld_in q i c =
      max (if self.FUSE_RELU then self.C_zero_point_.val else 0)
        (min 255 ((self.vlane inp block ld_in q i c).val + self.C_zero_point_.val)) := by
  unfold ReQuantizeOutput.vstored
  have hlo := (self.vlane inp block ld_in q i c).lo
  have hhi := (self.vlane inp block ld_in q i c).hi
  unfold satu8 sat16 wrap16
  rcases Bool.eq_false_or_eq_true self.FUSE_RELU with hrelu | hrelu
  · rw [hrelu]
    simp only [if_true]
    omega
  · rw [hrelu]
    simp only [Bool.false_eq_true, if_false]
    omega

theorem ReQuantizeOutput.stored_clamp (self : ReQuantizeOutput) (inp : Nat → Int32)
    (block : block_type_t) (ld_in g i c : Nat)
    (hz0 : 0 ≤ self.C_zero_point_.val) (hz1 : self.C_zero_point_.val ≤ 255) :
    self.stored inp block ld_in g i c =
      max (if self.FUSE_RELU then self.C_zero_point_.val else 0)
        (min 255 (lrintf (F32.mul
          (F32.ofInt32 (Int32.wrap (self.corrected inp block ld_in (bucket self.Q_GRAN g c) i c)))
          (self.C_multiplier_ (bucket self.Q_GRAN g c))) + self.C_zero_point_.val)) := by
  unfold ReQuantizeOutput.stored
  rw [rounded_no_overflow _ _ hz0 hz1]
  unfold toUInt8
  rcases Bool.eq_false_or_eq_true self.FUSE_RELU with hrelu | hrelu
  · rw [hrelu]
    simp only [if_true]
    omega
  · rw [hrelu]
    simp only [Bool.false_eq_true, if_false]
    omega

theorem rowWrite_at {α : Type} (base j n k : Nat) (v : Nat → α) (out : Nat → α) (hk : k < n) :
    rowWrite base j n v out (base + j + k) = v (j + k) := by
  unfold rowWrite
  rw [if_pos ⟨by omega, by omega⟩]
  congr 1
  omega

/-- C16.  Saturating narrowing chain of the vectorized path.
(1) For every `int32_t` rounded value `r` (held by every lane of the four
registers) and every output zero point `zp` in `[0, 255]`, every byte of
`max_epu8(lo_v, min_epu8(packus_epi16(adds_epi16(packs_epi32(r, r), zp),
adds_epi16(packs_epi32(r, r), zp)), 255))`, with `lo = zp` under ReLU fusion and
`0` otherwise, is `max(lo, min(255, r + zp))` computed in unbounded integers,
which is also the byte stored by the scalar clamp.  A value that saturates at the
`int16_t` stage leaves the `uint8_t` pack as `255` (above) or `0` (below), and the
result is `255`, respectively `lo`: nothing wraps.
(2) In the kernel `f_`, for template flags that pass its assertions and an
output zero point in `[0, 255]`: every byte that an iteration of the 32-wide
loop and of the 8-wide loop stores is `max(lo, min(255, r + zp))`, `r` being the
CVTPS2DQ lane of its column, and the byte that an iteration of the scalar
remainder loop stores is `max(lo, min(255, r + zp))`, `r` being the `lrintf`
value of its column.
(3) On the generic path the byte stored for an element is
`max(lo, min(255, r + zp))` with `r` its `lrintf` value. -/
theorem C16_saturating_chain :
    (∀ (r zp : Int32) (FUSE_RELU : Bool) (k : Nat), 0 ≤ zp.val → zp.val ≤ 255 →
      _mm256_max_epu8 (if FUSE_RELU then _mm256_set1_epi8 zp.val else _mm256_set1_epi8 0)
          (_mm256_min_epu8
            (_mm256_packus_epi16
              (_mm256_adds_epi16 (_mm256_packs_epi32 (_mm256_set1_epi32 r) (_mm256_set1_epi32 r))
                (_mm256_set1_epi16 zp.val))
              (_mm256_adds_epi16 (_mm256_packs_epi32 (_mm256_set1_epi32 r) (_mm256_set1_epi32 r))
                (_mm256_set1_epi16 zp.val)))
            (_mm256_set1_epi8 255)) k =
        max (if FUSE_RELU then zp.val else 0) (min 255 (r.val + zp.val)) ∧
      toUInt8 (max (if FUSE_RELU then zp.val else 0) (min 255 (wrap64 (r.val + zp.val)))) =
        max (if FUSE_RELU then zp.val else 0) (min 255 (r.val + zp.val)) ∧
      (32767 < r.val →
        _mm256_packus_epi16
            (_mm256_adds_epi16 (_mm256_packs_epi32 (_mm256_set1_epi32 r) (_mm256_set1_epi32 r))
              (_mm256_set1_epi16 zp.val))
            (_mm256_adds_epi16 (_mm256_packs_epi32 (_mm256_set1_epi32 r) (_mm256_set1_epi32 r))
              (_mm256_set1_epi16 zp.val)) k = 255 ∧
        max (if FUSE_RELU then zp.val else 0) (min 255 (r.val + zp.val)) = 255) ∧
      (r.val < -32768 →
        _mm256_packus_epi16
            (_mm256_adds_epi16 (_mm256_packs_epi32 (_mm256_set1_epi32 r) (_mm256_set1_epi32 r))
              (_mm256_set1_epi16 zp.val))
            (_mm256_adds_epi16 (_mm256_packs_epi32 (_mm256_set1_epi32 r) (_mm256_set1_epi32 r))
              (_mm256_set1_epi16 zp.val)) k = 0 ∧
        max (if FUSE_RELU then zp.val else 0) (min 255 (r.val + zp.val)) =
          (if FUSE_RELU then zp.val else 0))) ∧
    (∀ (self : ReQuantizeOutput) (A B H : Bool) (inp : Nat → Int32) (block : block_type_t)
      (ld_out ld_in q i j : Nat),
      self.flags_ok A B H → 0 ≤ self.C_zero_point_.val → self.C_zero_point_.val ≤ 255 →
      (self.Q_GRAN = QuantizationGranularity.TENSOR → q = 0) →
      (∀ (st : m256i_epi32 × (Nat → Int)) (k : Nat), block.col_start ≤ j →
        (self.Q_GRAN ≠ QuantizationGranularity.OUT_CHANNEL →
          st.1 = _mm256_set1_epi32 (self.f_row_offset B q (i - block.row_start))) →
        k < 32 →
        (self.f_body32 A B H inp block ld_out ld_in q i j st).2 (i * ld_out + j + k) =
          max (if self.FUSE_RELU then self.C_zero_point_.val else 0)
            (min 255 ((self.vlane inp block ld_in q i (j + k)).val + self.C_zero_point_.val))) ∧
      (∀ (st : m256i_epi32 × (Nat → Int)) (k : Nat), block.col_start ≤ j →
        (self.Q_GRAN ≠ QuantizationGranularity.OUT_CHANNEL →
          st.1 = _mm256_set1_epi32 (self.f_row_offset B q (i - block.row_start))) →
        k < 8 →
        (self.f_body8 A B H inp block ld_out ld_in q i j st).2 (i * ld_out + j + k) =
          max (if self.FUSE_RELU then self.C_zero_point_.val else 0)
            (min 255 ((self.vlane inp block ld_in q i (j + k)).val + self.C_zero_point_.val))) ∧
      (∀ (st : Int32 × (Nat → Int)),
        (self.Q_GRAN ≠ QuantizationGranularity.OUT_CHANNEL →
          st.1 = self.f_row_offset B q (i - block.row_start)) →
        (self.f_body1 A B H inp block ld_out ld_in q i j st).2 (i * ld_out + j) =
          max (if self.FUSE_RELU then self.C_zero_point_.val else 0)
            (min 255 (lrintf (F32.mul
              (F32.ofInt32 (Int32.wrap (self.corrected inp block ld_in
                (bucket self.Q_GRAN q j) i j)))
              (self.C_multiplier_ (bucket self.Q_GRAN q j))) + self.C_zero_point_.val)))) ∧
    (∀ (self : ReQuantizeOutput) (inp : Nat → Int32) (block : block_type_t)
      (ld_out ld_in g i j : Nat) (out : Nat → Int),
      0 ≤ self.C_zero_point_.val → self.C_zero_point_.val ≤ 255 →
      self.f_anyarch_body inp block ld_out ld_in g i j out (i * ld_out + j) =
        max (if self.FUSE_RELU then self.C_zero_point_.val else 0)
          (min 255 (lrintf (F32.mul
            (F32.ofInt32 (Int32.wrap (self.corrected inp block ld_in
              (bucket self.Q_GRAN g j) i j)))
            (self.C_multiplier_ (bucket self.Q_GRAN g j))) + self.C_zero_point_.val))) := by
  refine ⟨?_, ?_, ?_⟩
  · intro r zp FUSE_RELU k hz0 hz1
    have hlo := r.lo
    have hhi := r.hi
    have hpk : _mm256_packus_epi16
        (_mm256_adds_epi16 (_mm256_packs_epi32 (_mm256_set1_epi32 r) (_mm256_set1_epi32 r))
          (_mm256_set1_epi16 zp.val))
        (_mm256_adds_epi16 (_mm256_packs_epi32 (_mm256_set1_epi32 r) (_mm256_set1_epi32 r))
          (_mm256_set1_epi16 zp.val)) k = satu8 (sat16 (sat16 r.val + wrap16 zp.val)) := by
      unfold _mm256_packus_epi16 _mm256_adds_epi16 _mm256_packs_epi32 _mm256_set1_epi32
        _mm256_set1_epi16
      simp only [ite_self]
    have hw : wrap64 (r.val + zp.val) = r.val + zp.val := by
      apply wrap64_of_range <;> omega
    refine ⟨?_, ?_, ?_, ?_⟩
    · unfold _mm256_max_epu8 _mm256_min_epu8
      rw [hpk]
      unfold satu8 sat16 wrap16 _mm256_set1_epi8
      cases FUSE_RELU
      · simp only [Bool.false_eq_true, if_false]
        omega
      · simp only [if_true]
        omega
    · rw [hw]
      unfold toUInt8
      cases FUSE_RELU
      · simp only [Bool.false_eq_true, if_false]
        omega
      · simp only [if_true]
        omega
    · intro h
      rw [hpk]
      unfold satu8 sat16 wrap16
      cases FUSE_RELU
      · simp only [Bool.false_eq_true, if_false]
        omega
      · simp only [if_true]
        omega
    · intro h
      rw [hpk]
      unfold satu8 sat16 wrap16
      cases FUSE_RELU
      · simp only [Bool.false_eq_true, if_false]
        omega
      · simp only [if_true]
        omega
  · intro self A B H inp block ld_out ld_in q i j hf hz0 hz1 hq
    refine ⟨?_, ?_, ?_⟩
    · intro st k hj hinv hk
      rw [self.f_body32_eq A B H hf inp block ld_out ld_in q i j st hq hj hinv,
        rowWrite_at _ _ _ _ _ _ hk, self.vstored_clamp inp block ld_in q i _ hz0 hz1]
    · intro st k hj hinv hk
      rw [self.f_body8_eq A B H hf inp block ld_out ld_in q i j st hq hj hinv,
        rowWrite_at _ _ _ _ _ _ hk, self.vstored_clamp inp block ld_in q i _ hz0 hz1]
    · intro st hinv
      rw [self.f_body1_eq A B H hf inp block ld_out ld_in q i j st hq hinv]
      have h := rowWrite_at (i * ld_out) j 1 0 (self.stored inp block ld_in q i) st.2 (by decide)
      rw [Nat.add_zero, Nat.add_zero] at h
      rw [h, self.stored_clamp inp block ld_in q i _ hz0 hz1]
  · intro self inp block ld_out ld_in g i j out hz0 hz1
    rw [self.f_anyarch_body_eq, Function.update_same,
      self.stored_clamp inp block ld_in g i _ hz0 hz1]

theorem C16_saturating_chain_witness :
    (0 ≤ (128 : Int32).val ∧ (128 : Int32).val ≤ 255 ∧
      _mm256_max_epu8 (if true then _mm256_set1_epi8 (128 : Int32).val else _mm256_set1_epi8 0)
          (_mm256_min_epu8
            (_mm256_packus_epi16
              (_mm256_adds_epi16
                (_mm256_packs_epi32 (_mm256_set1_epi32 (Int32.wrap (-40000)))
                  (_mm256_set1_epi32 (Int32.wrap (-40000))))
                (_mm256_set1_epi16 (128 : Int32).val))
              (_mm256_adds_epi16
                (_mm256_packs_epi32 (_mm256_set1_epi32 (Int32.wrap (-40000)))
                  (_mm256_set1_epi32 (Int32.wrap (-40000))))
                (_mm256_set1_epi16 (128 : Int32).val)))
            (_mm256_set1_epi8 255)) 5 =
        max (if true then (128 : Int32).val else 0)
          (min 255 ((Int32.wrap (-40000)).val + (128 : Int32).val))) ∧
    (reluStage.flags_ok true true false ∧
      (reluStage.vlane wideInp ⟨0, 1, 0, 32⟩ 32 0 0 0).val = 50000 ∧
      (reluStage.vlane wideInp ⟨0, 1, 0, 32⟩ 32 0 0 1).val = -50000 ∧
      (reluStage.f_body32 true true false wideInp ⟨0, 1, 0, 32⟩ 32 32 0 0 0
        (_mm256_set1_epi32 0, fun _ => 7)).2 (0 * 32 + 0 + 0) = 255 ∧
      (reluStage.f_body32 true true false wideInp ⟨0, 1, 0, 32⟩ 32 32 0 0 0
        (_mm256_set1_epi32 0, fun _ => 7)).2 (0 * 32 + 0 + 1) = 128) := by
  have hf : reluStage.flags_ok true true false := ⟨by decide, by decide, by decide⟩
  refine ⟨⟨by decide, by decide,
    (C16_saturating_chain.1 (Int32.wrap (-40000)) 128 true 5 (by decide) (by decide)).1⟩,
    hf, by decide, by decide, ?_, ?_⟩
  · rw [(C16_saturating_chain.2.1 reluStage true true false wideInp ⟨0, 1, 0, 32⟩ 32 32 0 0 0
      hf (by decide) (by decide) (fun _ => rfl)).1 (_mm256_set1_epi32 0, fun _ => 7) 0
      (by decide) (fun _ => rfl) (by decide)]
    decide
  · rw [(C16_saturating_chain.2.1 reluStage true true false wideInp ⟨0, 1, 0, 32⟩ 32 32 0 0 0
      hf (by decide) (by decide) (fun _ => rfl)).1 (_mm256_set1_epi32 0, fun _ => 7) 1
      (by decide) (fun _ => rfl) (by decide)]
    decide

theorem forLoop_fst {σ : Type} (body : Nat → σ → σ) (step : Nat) (hstep : 0 < step)
    (m fuel j : Nat) (s : σ) (hm : m ≤ fuel) :
    (forLoop body (j + m * step) step fuel j s).1 = j + m * step := by
  rw [forLoop_step body step hstep m fuel j s hm]

/-- C17.  Column coverage of the vectorized path, for every block and every row.
The row computation of `f_` is its three column loops run one after the other:
the 32-wide loop at the columns `col_start + 32*t`, `t < col_size / 32`, the
8-wide loop at the columns `col_start + col_size/32*32 + 8*t` up to
`col_start + col_size/8*8`, and the scalar loop at the remaining `col_size % 8`
columns.  An iteration at column `j` writes nothing outside the 32, 8 or 1
elements from `out[i*ld_out + j]` on, and for every column `c` the number of
iterations whose window holds `c` is `1` when
`col_start <= c < col_start + col_size` and `0` otherwise.  For template flags
that pass the assertions of `f_`, an iteration at column `j` writes every
element of its window: the 32-wide and the 8-wide loop store at
`out[i*ld_out + j + k]` the vector result of column `j + k`, the scalar loop
stores at `out[i*ld_out + j]` the scalar result of column `j`, whatever the
buffer held before.  Hence the row computation leaves at every column of
`[col_start, col_start + col_size)` the value computed for that column (the
vector result below `col_start + col_size/8*8`, the scalar result from there on)
and leaves every other position of the buffer as it was. -/
theorem C17_column_coverage (self : ReQuantizeOutput) (A B H : Bool) (inp : Nat → Int32)
    (block : block_type_t) (ld_out ld_in q i : Nat) (out : Nat → Int) :
    self.f_row A B H inp block ld_out ld_in q i out =
      ((forLoop_iters (block.col_start + block.col_size) 1 block.col_size
          (block.col_start + block.col_size / VLEN * VLEN)).foldl
        (fun s j => self.f_body1 A B H inp block ld_out ld_in q i j s)
        (self.f_row_offset B q (i - block.row_start),
          ((forLoop_iters (block.col_start + block.col_size / VLEN * VLEN) VLEN block.col_size
              (block.col_start + block.col_size / (VLEN * 4) * (VLEN * 4))).foldl
            (fun s j => self.f_body8 A B H inp block ld_out ld_in q i j s)
            ((forLoop_iters (block.col_start + block.col_size / (VLEN * 4) * (VLEN * 4))
                (VLEN * 4) block.col_size block.col_start).foldl
              (fun s j => self.f_body32 A B H inp block ld_out ld_in q i j s)
              (_mm256_set1_epi32 (self.f_row_offset B q (i - block.row_start)), out))).2)).2 ∧
    forLoop_iters (block.col_start + block.col_size / (VLEN * 4) * (VLEN * 4)) (VLEN * 4)
        block.col_size block.col_start =
      (List.range (block.col_size / 32)).map (fun t => block.col_start + 32 * t) ∧
    forLoop_iters (block.col_start + block.col_size / VLEN * VLEN) VLEN block.col_size
        (block.col_start + block.col_size / (VLEN * 4) * (VLEN * 4)) =
      (List.range (block.col_size / 8 - 4 * (block.col_size / 32))).map
        (fun t => block.col_start + block.col_size / 32 * 32 + 8 * t) ∧
    forLoop_iters (block.col_start + block.col_size) 1 block.col_size
        (block.col_start + block.col_size / VLEN * VLEN) =
      (List.range (block.col_size % 8)).map
        (fun t => block.col_start + block.col_size / 8 * 8 + 1 * t) ∧
    (∀ (j p : Nat) (st : m256i_epi32 × (Nat → Int)),
      ¬ (i * ld_out + j ≤ p ∧ p < i * ld_out + j + 32) →
      (self.f_body32 A B H inp block ld_out ld_in q i j st).2 p = st.2 p) ∧
    (∀ (j p : Nat) (st : m256i_epi32 × (Nat → Int)),
      ¬ (i * ld_out + j ≤ p ∧ p < i * ld_out + j + 8) →
      (self.f_body8 A B H inp block ld_out ld_in q i j st).2 p = st.2 p) ∧
    (∀ (j p : Nat) (st : Int32 × (Nat → Int)),
      ¬ (p = i * ld_out + j) →
      (self.f_body1 A B H inp block ld_out ld_in q i j st).2 p = st.2 p) ∧
    (∀ c : Nat,
      (forLoop_iters (block.col_start + block.col_size / (VLEN * 4) * (VLEN * 4)) (VLEN * 4)
          block.col_size block.col_start).countP (fun j => decide (j ≤ c ∧ c < j + 32)) +
        (forLoop_iters (block.col_start + block.col_size / VLEN * VLEN) VLEN block.col_size
          (block.col_start + block.col_size / (VLEN * 4) * (VLEN * 4))).countP
          (fun j => decide (j ≤ c ∧ c < j + 8)) +
        (forLoop_iters (block.col_start + block.col_size) 1 block.col_size
          (block.col_start + block.col_size / VLEN * VLEN)).countP
          (fun j => decide (j ≤ c ∧ c < j + 1)) =
      if block.col_start ≤ c ∧ c < block.col_start + block.col_size then 1 else 0) ∧
    (self.flags_ok A B H → (self.Q_GRAN = QuantizationGranularity.TENSOR → q = 0) →
      (∀ (j k : Nat) (st : m256i_epi32 × (Nat → Int)), block.col_start ≤ j →
        (self.Q_GRAN ≠ QuantizationGranularity.OUT_CHANNEL →
          st.1 = _mm256_set1_epi32 (self.f_row_offset B q (i - block.row_start))) →
        k < 32 →
        (self.f_body32 A B H inp block ld_out ld_in q i j st).2 (i * ld_out + j + k) =
          self.vstored inp block ld_in q i (j + k)) ∧
      (∀ (j k : Nat) (st : m256i_epi32 × (Nat → Int)), block.col_start ≤ j →
        (self.Q_GRAN ≠ QuantizationGranularity.OUT_CHANNEL →
          st.1 = _mm256_set1_epi32 (self.f_row_offset B q (i - block.row_start))) →
        k < 8 →
        (self.f_body8 A B H inp block ld_out ld_in q i j st).2 (i * ld_out + j + k) =
          self.vstored inp block ld_in q i (j + k)) ∧
      (∀ (j : Nat) (st : Int32 × (Nat → Int)),
        (self.Q_GRAN ≠ QuantizationGranularity.OUT_CHANNEL →
          st.1 = self.f_row_offset B q (i - block.row_start)) →
        (self.f_body1 A B H inp block ld_out ld_in q i j st).2 (i * ld_out + j) =
          self.stored inp block ld_in q i j) ∧
      (∀ c : Nat, block.col_start ≤ c → c < block.col_start + block.col_size →
        self.f_row A B H inp block ld_out ld_in q i out (i * ld_out + c) =
          if c < block.col_start + block.col_size / 8 * 8 then
            self.vstored inp block ld_in q i c
          else self.stored inp block ld_in q i c) ∧
      (∀ p : Nat,
        ¬ (i * ld_out + block.col_start ≤ p ∧
          p < i * ld_out + block.col_start + block.col_size) →
        self.f_row A B H inp block ld_out ld_in q i out p = out p)) := by
  have eV4 : VLEN * 4 = 32 := rfl
  have eV : VLEN = 8 := rfl
  have e8 : block.col_start + block.col_size / 8 * 8 =
      (block.col_start + block.col_size / 32 * 32) +
        (block.col_size / 8 - 4 * (block.col_size / 32)) * 8 := by
    omega
  have e1 : block.col_start + block.col_size =
      (block.col_start + block.col_size / 8 * 8) + (block.col_size % 8) * 1 := by
    omega
  have hI32 : forLoop_iters (block.col_start + block.col_size / (VLEN * 4) * (VLEN * 4))
      (VLEN * 4) block.col_size block.col_start =
      (List.range (block.col_size / 32)).map (fun t => block.col_start + 32 * t) := by
    rw [eV4]
    exact forLoop_iters_step 32 (by decide) (block.col_size / 32) block.col_size
      block.col_start (by omega)
  have hI8 : forLoop_iters (block.col_start + block.col_size / VLEN * VLEN) VLEN block.col_size
      (block.col_start + block.col_size / (VLEN * 4) * (VLEN * 4)) =
      (List.range (block.col_size / 8 - 4 * (block.col_size / 32))).map
        (fun t => block.col_start + block.col_size / 32 * 32 + 8 * t) := by
    rw [eV4, eV, e8]
    exact forLoop_iters_step 8 (by decide) _ block.col_size _ (by omega)
  have hI1 : forLoop_iters (block.col_start + block.col_size) 1 block.col_size
      (block.col_start + block.col_size / VLEN * VLEN) =
      (List.range (block.col_size % 8)).map
        (fun t => block.col_start + block.col_size / 8 * 8 + 1 * t) := by
    rw [eV, e1]
    exact forLoop_iters_step 1 (by decide) _ block.col_size _ (by omega)
  refine ⟨?_, hI32, hI8, hI1, ?_, ?_, ?_, ?_, ?_⟩
  · unfold ReQuantizeOutput.f_row
    simp only []
    have hR : (if B = true then (0 : Int32)
        else if self.Q_GRAN = QuantizationGranularity.TENSOR ∨
            self.Q_GRAN = QuantizationGranularity.GROUP then
          deref self.q_row_offsets_ (i - block.row_start) * self.Bq_zero_point_ q
        else 0) = self.f_row_offset B q (i - block.row_start) := rfl
    rw [hR]
    have f32 : (forLoop (self.f_body32 A B H inp block ld_out ld_in q i)
        (block.col_start + block.col_size / (VLEN * 4) * (VLEN * 4)) (VLEN * 4) block.col_size
        block.col_start
        (_mm256_set1_epi32 (self.f_row_offset B q (i - block.row_start)), out)).1 =
        block.col_start + block.col_size / (VLEN * 4) * (VLEN * 4) :=
      forLoop_fst _ (VLEN * 4) (by decide) _ _ _ _ (by rw [eV4]; omega)
    rw [f32]
    have f8 : ∀ s, (forLoop (self.f_body8 A B H inp block ld_out ld_in q i)
        (block.col_start + block.col_size / VLEN * VLEN) VLEN block.col_size
        (block.col_start + block.col_size / (VLEN * 4) * (VLEN * 4)) s).1 =
        block.col_start + block.col_size / VLEN * VLEN := by
      intro s
      rw [eV4, eV, e8]
      exact forLoop_fst _ 8 (by decide) _ _ _ _ (by omega)
    rw [f8]
    rw [forLoop_eq_foldl_iters, forLoop_eq_foldl_iters, forLoop_eq_foldl_iters]
  · intro j p st hp
    unfold ReQuantizeOutput.f_body32 _mm256_storeu_si256
    simp only [hp, if_false]
  · intro j p st hp
    unfold ReQuantizeOutput.f_body8 _mm_storel_epi64
    simp only [hp, if_false]
  · intro j p st hp
    unfold ReQuantizeOutput.f_body1
    simp only [Function.update, hp, dif_neg, not_false_eq_true]
  · intro c
    rw [hI32, hI8, hI1, countP_windows, countP_windows, countP_windows]
    split_ifs <;> omega
  · intro hf hq
    refine ⟨?_, ?_, ?_, ?_, ?_⟩
    · intro j k st hj hinv hk
      rw [self.f_body32_eq A B H hf inp block ld_out ld_in q i j st hq hj hinv,
        rowWrite_at _ _ _ _ _ _ hk]
    · intro j k st hj hinv hk
      rw [self.f_body8_eq A B H hf inp block ld_out ld_in q i j st hq hj hinv,
        rowWrite_at _ _ _ _ _ _ hk]
    · intro j st hinv
      rw [self.f_body1_eq A B H hf inp block ld_out ld_in q i j st hq hinv]
      have h := rowWrite_at (i * ld_out) j 1 0 (self.stored inp block ld_in q i) st.2 (by decide)
      rw [Nat.add_zero, Nat.add_zero] at h
      exact h
    · intro c hc1 hc2
      rw [self.f_row_eq A B H hf inp block ld_out ld_in q i out hq]
      unfold rowWrite
      rw [if_pos ⟨by omega, by omega⟩, Nat.add_sub_cancel_left]
      rfl
    · intro p hp
      rw [self.f_row_eq A B H hf inp block ld_out ld_in q i out hq]
      unfold rowWrite
      rw [if_neg hp]

theorem C17_column_coverage_witness :
    scenarioStage.flags_ok true true false ∧
    (scenarioStage.f_row true true false scenarioInp ⟨0, 1, 3, 45⟩ 64 64 0 0 (fun _ => 7))
      (0 * 64 + 3) = 133 ∧
    (scenarioStage.f_row true true false scenarioInp ⟨0, 1, 3, 45⟩ 64 64 0 0 (fun _ => 7))
      (0 * 64 + 42) = 108 ∧
    (scenarioStage.f_row true true false scenarioInp ⟨0, 1, 3, 45⟩ 64 64 0 0 (fun _ => 7))
      (0 * 64 + 47) = 106 ∧
    (scenarioStage.f_row true true false scenarioInp ⟨0, 1, 3, 45⟩ 64 64 0 0 (fun _ => 7)) 2 = 7 ∧
    (scenarioStage.f_row true true false scenarioInp ⟨0, 1, 3, 45⟩ 64 64 0 0 (fun _ => 7)) 48 = 7 := by
  have hf : scenarioStage.flags_ok true true false := ⟨by decide, by decide, by decide⟩
  have h := (C17_column_coverage scenarioStage true true false scenarioInp ⟨0, 1, 3, 45⟩ 64 64
    0 0 (fun _ => 7)).2.2.2.2.2.2.2.2 hf (fun _ => rfl)
  refine ⟨hf, ?_, ?_, ?_, ?_, ?_⟩
  · rw [h.2.2.2.1 3 (by decide) (by decide)]
    decide
  · rw [h.2.2.2.1 42 (by decide) (by decide)]
    decide
  · rw [h.2.2.2.1 47 (by decide) (by decide)]
    decide
  · exact h.2.2.2.2 2 (by decide)
  · exact h.2.2.2.2 48 (by decide)

/-- C18.  Lane permutation restores column order.  For registers `x`, `y`, `z`,
`w` of rounded values, after the two 32-to-16-bit packs with the zero-point
addition, the 16-to-8-bit pack, the clamp and the 32-bit-lane permutation with
index vector `(0, 4, 1, 5, 2, 6, 3, 7)`, byte `k` (`k < 32`) of the vector is the
narrowed value of lane `k mod 8` of the register number `k / 8` (`x`, `y`, `z`,
`w`); with zero vectors as second operands, byte `k` (`k < 8`) of the low half is
the narrowed value of lane `k` of `x`.  Accordingly, in the 32-wide loop of `f_`
the byte stored at `out[i*ld_out + j + k]`, `k < 32`, is the requantized value of
input column `j + k`, and in the 8-wide loop the 8 bytes stored at
`out[i*ld_out + j + k]`, `k < 8`, are those of columns `j .. j+7` in order. -/
theorem C18_lane_permutation :
    (∀ (x y z w : m256i_epi32) (zp : Int32) (FUSE_RELU : Bool) (k : Nat), k < 32 →
      _mm256_permutevar8x32_epi32
        (_mm256_max_epu8 (if FUSE_RELU then _mm256_set1_epi8 zp.val else _mm256_set1_epi8 0)
          (_mm256_min_epu8
            (_mm256_packus_epi16
              (_mm256_adds_epi16 (_mm256_packs_epi32 x y) (_mm256_set1_epi16 zp.val))
              (_mm256_adds_epi16 (_mm256_packs_epi32 z w) (_mm256_set1_epi16 zp.val)))
            (_mm256_set1_epi8 255)))
        permute_mask_v k =
      max ((if FUSE_RELU then zp.val else 0) % 256)
        (min (satu8 (sat16 (sat16
          ((if k / 8 = 0 then x else if k / 8 = 1 then y else if k / 8 = 2 then z else w)
            (k % 8)).val + wrap16 zp.val))) (255 % 256))) ∧
    (∀ (x : m256i_epi32) (zp : Int32) (FUSE_RELU : Bool) (k : Nat), k < 8 →
      _mm256_castsi256_si128 (_mm256_permutevar8x32_epi32
        (_mm256_max_epu8 (if FUSE_RELU then _mm256_set1_epi8 zp.val else _mm256_set1_epi8 0)
          (_mm256_min_epu8
            (_mm256_packus_epi16
              (_mm256_adds_epi16 (_mm256_packs_epi32 x _mm256_setzero_si256)
                (_mm256_set1_epi16 zp.val))
              _mm256_setzero_si256_epi16)
            (_mm256_set1_epi8 255)))
        permute_mask_v) k =
      max ((if FUSE_RELU then zp.val else 0) % 256)
        (min (satu8 (sat16 (sat16 (x k).val + wrap16 zp.val))) (255 % 256))) ∧
    (∀ (self : ReQuantizeOutput) (A B H : Bool) (inp : Nat → Int32) (block : block_type_t)
      (ld_out ld_in q i j : Nat) (st : m256i_epi32 × (Nat → Int)),
      self.flags_ok A B H →
      (self.Q_GRAN = QuantizationGranularity.TENSOR → q = 0) →
      block.col_start ≤ j →
      (self.Q_GRAN ≠ QuantizationGranularity.OUT_CHANNEL →
        st.1 = _mm256_set1_epi32 (self.f_row_offset B q (i - block.row_start))) →
      (∀ k, k < 32 →
        (self.f_body32 A B H inp block ld_out ld_in q i j st).2 (i * ld_out + j + k) =
          self.vstored inp block ld_in q i (j + k)) ∧
      (∀ k, k < 8 →
        (self.f_body8 A B H inp block ld_out ld_in q i j st).2 (i * ld_out + j + k) =
          self.vstored inp block ld_in q i (j + k))) := by
  refine ⟨?_, ?_, ?_⟩
  · intro x y z w zp FUSE_RELU k hk
    have hlo : (if FUSE_RELU then _mm256_set1_epi8 zp.val else _mm256_set1_epi8 0) =
        _mm256_set1_epi8 (if FUSE_RELU then zp.val else 0) := by
      cases FUSE_RELU <;> rfl
    rw [hlo, pack32_lane x y z w zp.val _ 255 k hk]
    have hsel : (if k < 8 then x k else if k < 16 then y (k - 8) else if k < 24 then z (k - 16)
        else w (k - 24)) =
        (if k / 8 = 0 then x else if k / 8 = 1 then y else if k / 8 = 2 then z else w)
          (k % 8) := by
      interval_cases k <;> rfl
    rw [hsel]
  · intro x zp FUSE_RELU k hk
    have hlo : (if FUSE_RELU then _mm256_set1_epi8 zp.val else _mm256_set1_epi8 0) =
        _mm256_set1_epi8 (if FUSE_RELU then zp.val else 0) := by
      cases FUSE_RELU <;> rfl
    rw [hlo, pack8_lane x zp.val _ 255 k hk]
  · intro self A B H inp block ld_out ld_in q i j st hf hq hj hinv
    constructor
    · intro k hk
      rw [self.f_body32_eq A B H hf inp block ld_out ld_in q i j st hq hj hinv]
      unfold rowWrite
      have hin : i * ld_out + j ≤ i * ld_out + j + k ∧ i * ld_out + j + k < i * ld_out + j + 32 := by
        omega
      rw [if_pos hin]
      congr 1
      omega
    · intro k hk
      rw [self.f_body8_eq A B H hf inp block ld_out ld_in q i j st hq hj hinv]
      unfold rowWrite
      have hin : i * ld_out + j ≤ i * ld_out + j + k ∧ i * ld_out + j + k < i * ld_out + j + 8 := by
        omega
      rw [if_pos hin]
      congr 1
      omega

theorem C18_lane_permutation_witness :
    (9 < 32) ∧
    _mm256_permutevar8x32_epi32
      (_mm256_max_epu8 (if false then _mm256_set1_epi8 (0 : Int32).val else _mm256_set1_epi8 0)
        (_mm256_min_epu8
          (_mm256_packus_epi16
            (_mm256_adds_epi16
              (_mm256_packs_epi32 (fun t => Int32.wrap t) (fun t => Int32.wrap (8 + t)))
              (_mm256_set1_epi16 (0 : Int32).val))
            (_mm256_adds_epi16
              (_mm256_packs_epi32 (fun t => Int32.wrap (16 + t)) (fun t => Int32.wrap (24 + t)))
              (_mm256_set1_epi16 (0 : Int32).val)))
          (_mm256_set1_epi8 255)))
      permute_mask_v 9 = 9 := by
  have h := C18_lane_permutation.1 (fun t => Int32.wrap t) (fun t => Int32.wrap (8 + t))
    (fun t => Int32.wrap (16 + t)) (fun t => Int32.wrap (24 + t)) 0 false 9 (by decide)
  refine ⟨by decide, ?_⟩
  rw [h]
  decide

/-- Outside `OUT_CHANNEL` granularity the remainder loop of `f_` leaves the
variable `row_offset` as it found it. -/
theorem ReQuantizeOutput.remainder_row_offset (self : ReQuantizeOutput) (A B H : Bool)
    (inp : Nat → Int32) (block : block_type_t) (ld_out ld_in q i : Nat)
    (hOC : self.Q_GRAN ≠ QuantizationGranularity.OUT_CHANNEL) (bound : Nat) :
    ∀ (fuel j : Nat) (st : Int32 × (Nat → Int)),
      (forLoop (self.f_body1 A B H inp block ld_out ld_in q i) bound 1 fuel j st).2.1 = st.1 := by
  intro fuel
  induction fuel with
  | zero => intro j st; rfl
  | succ n ih =>
    intro j st
    unfold forLoop
    by_cases hj : j < bound
    · rw [if_pos hj, ih]
      exact self.f_body1_fst A B H inp block ld_out ld_in q i j st hOC
    · rw [if_neg hj]

/-- C19.  No stale row offset in the scalar remainder loop of `f_`.  The
remainder loop of a row starts from the value of `row_offset` set at the top of
that row; for every granularity, every row `i`, every buffer and every column
`j0 + n` reached by the loop started at column `j0`, when the weight is not
symmetric (`B_SYMMETRIC = false`) the value of `row_offset` subtracted from the
accumulator of that column is
`row_offsets[i - row_start] * zero_points_B[b]`, with `b` the bucket of the
column (`0` for `TENSOR`, the block's group for `GROUP`, the column for
`OUT_CHANNEL`).  Accordingly every remainder element written by
`ReQuantizeOutput::f` on the vector paths is the scalar requantization of the
accumulator corrected with the row offset of its own row and bucket. -/
theorem C19_no_stale_row_offset :
    (∀ (self : ReQuantizeOutput) (A B H : Bool) (inp : Nat → Int32) (block : block_type_t)
      (ld_out ld_in i : Nat) (out : Nat → Int),
      ∃ (j8 : Nat) (out8 : Nat → Int),
        self.f_row A B H inp block ld_out ld_in (self.quant_param_idx block) i out =
          (forLoop (self.f_body1 A B H inp block ld_out ld_in (self.quant_param_idx block) i)
            (block.col_start + block.col_size) 1 block.col_size j8
            (self.f_row_offset B (self.quant_param_idx block) (i - block.row_start),
              out8)).2.2) ∧
    (∀ (self : ReQuantizeOutput) (A H : Bool) (inp : Nat → Int32) (block : block_type_t)
      (ld_out ld_in i j0 n fuel : Nat) (out : Nat → Int),
      (self.f_body1 A false H inp block ld_out ld_in (self.quant_param_idx block) i (j0 + n)
        (forLoop (self.f_body1 A false H inp block ld_out ld_in (self.quant_param_idx block) i)
          (j0 + n) 1 fuel j0
          (self.f_row_offset false (self.quant_param_idx block) (i - block.row_start),
            out)).2).1 =
        deref self.q_row_offsets_ (i - block.row_start) *
          self.Bq_zero_point_ (bucket self.Q_GRAN (self.quant_param_idx block) (j0 + n))) ∧
    (∀ {ρ : Type} (self : ReQuantizeOutput) (nextop_ : NextOp Int Int ρ) (instSet : inst_set_t)
      (out : Nat → Int) (inp : Nat → Int32) (block : block_type_t) (ld_out ld_in : Nat),
      0 < self.ncols_ / self.groups_ → block.col_size ≤ self.ncols_ / self.groups_ →
      block.col_size ≤ ld_out →
      ∃ out1 : Nat → Int,
        self.f nextop_ instSet out inp block ld_out ld_in =
          Except.ok (nextop_ out1 out1 block ld_out ld_out) ∧
        ∀ i j, block.row_start ≤ i → i < block.row_start + block.row_size →
          block.col_start + block.col_size / 8 * 8 ≤ j → j < block.col_start + block.col_size →
          out1 (i * ld_out + j) =
            toUInt8 (max (if self.FUSE_RELU then self.C_zero_point_.val else 0)
              (min 255 (wrap64 (lrintf (F32.mul
                (F32.ofInt32 (Int32.wrap
                  ((inp ((i - block.row_start) * ld_in + (j - block.col_start))).val
                    - self.Aq_zero_point_.val * (self.q_col_offsets_ j).val
                    - (match self.q_row_offsets_ with
                       | some r =>
                         (r (i - block.row_start)).val *
                           (self.Bq_zero_point_
                             (bucket self.Q_GRAN (self.quant_param_idx block) j)).val
                       | none => 0)
                    + (match self.bias_ with
                       | some c => (c j).val
                       | none => 0))))
                (self.C_multiplier_ (bucket self.Q_GRAN (self.quant_param_idx block) j)))
                + self.C_zero_point_.val))))) := by
  refine ⟨?_, ?_, ?_⟩
  · intro self A B H inp block ld_out ld_in i out
    exact ⟨_, _, rfl⟩
  · intro self A H inp block ld_out ld_in i j0 n fuel out
    by_cases hOC : self.Q_GRAN = QuantizationGranularity.OUT_CHANNEL
    · unfold ReQuantizeOutput.f_body1
      simp only [hOC, bucket, Bool.not_false, decide_True, Bool.and_self, if_true]
    · rw [self.f_body1_fst A false H inp block ld_out ld_in _ i _ _ hOC,
        self.remainder_row_offset A false H inp block ld_out ld_in _ i hOC]
      unfold ReQuantizeOutput.f_row_offset ReQuantizeOutput.quant_param_idx bucket
      cases hq : self.Q_GRAN with
      | TENSOR => simp
      | GROUP => simp
      | OUT_CHANNEL => exact absurd hq hOC
  · intro ρ self nextop_ instSet out inp block ld_out ld_in hg hc hld
    obtain ⟨out1, h1, h2⟩ := self.f_elem nextop_ instSet out inp block ld_out ld_in hg hc hld
    refine ⟨out1, h1, ?_⟩
    intro i j hi1 hi2 hj1 hj2
    rw [h2 i j hi1 hi2 (by omega) hj2, if_pos (Or.inr hj1), ← self.stored_quant_param_idx]
    rfl

theorem C19_no_stale_row_offset_witness :
    (0 < groupStage.ncols_ / groupStage.groups_) ∧
    ∃ out1 : Nat → Int,
      groupStage.f observe inst_set_t.avx2 (fun _ => 0) scenarioInp ⟨0, 2, 4, 3⟩ 8 3 =
        Except.ok out1 ∧ out1 (1 * 8 + 6) = 117 := by
  refine ⟨by decide, ?_⟩
  obtain ⟨out1, h1, h2⟩ := C19_no_stale_row_offset.2.2 groupStage observe inst_set_t.avx2
    (fun _ => 0) scenarioInp ⟨0, 2, 4, 3⟩ 8 3 (by decide) (by decide) (by decide)
  refine ⟨out1, h1, ?_⟩
  rw [h2 1 6 (by decide) (by decide) (by decide) (by decide)]
  decide

/-- The kernel `f_` fails on one of its three assertions exactly when its flags
are not those of the configuration. -/
theorem ReQuantizeOutput.f__assertion (self : ReQuantizeOutput) (A B H : Bool)
    (out : Nat → Int) (inp : Nat → Int32) (block : block_type_t) (ld_out ld_in : Nat)
    (hg : 0 < self.ncols_ / self.groups_) :
    self.f_ A B H out inp block ld_out ld_in = Except.error Abort.assertion ↔
      ¬ self.flags_ok A B H := by
  have hgr : self.groups_ ≠ 0 := groups_ne_zero hg
  have hn : self.ncols_ / self.groups_ ≠ 0 := by omega
  constructor
  · intro h hf
    rw [self.f__eq A B H hf out inp block ld_out ld_in (fun _ => hg)] at h
    cases h
  · intro hnf
    unfold ReQuantizeOutput.f_
    simp only [hgr, hn, and_false, if_false]
    unfold ReQuantizeOutput.flags_ok at hnf
    by_cases h1 : A = decide (self.Aq_zero_point_.val = 0)
    · by_cases h2 : B = decide ((self.Q_GRAN = QuantizationGranularity.TENSOR ∧
          (self.Bq_zero_point_ 0).val = 0) ∨ self.q_row_offsets_.isNone)
      · have h3 : H ≠ self.bias_.isSome := fun h3 => hnf ⟨h1, h2, h3⟩
        rw [if_neg (not_not.mpr h1), if_neg (not_not.mpr h2), if_pos h3]
      · rw [if_neg (not_not.mpr h1), if_pos h2]
    · rw [if_pos h1]

/-- C20.  Variant dispatch is consistent with the kernel's assertions.  On
`avx2` and `avx512`, for a call that passes the check of `f`, the value of
`ReQuantizeOutput::f` is the next stage applied to the output of the one variant
`f_<A_SYMMETRIC, B_SYMMETRIC, HAS_BIAS>` with `A_SYMMETRIC` true iff
`zero_point_A = 0`, `B_SYMMETRIC` true iff (`TENSOR` and `zero_points_B[0] = 0`)
or `row_offsets` is absent, and `HAS_BIAS` true iff `bias` is present.  The three
assertions of `f_` hold for these flags, the kernel returns, and every other
variant would fail an assertion.  When `row_offsets` is absent the row loops of
the dispatched variant do not depend on it (it is never read), and likewise for
an absent `bias`. -/
theorem C20_variant_dispatch {ρ : Type} (self : ReQuantizeOutput) (nextop_ : NextOp Int Int ρ)
    (instSet : inst_set_t) (out : Nat → Int) (inp : Nat → Int32) (block : block_type_t)
    (ld_out ld_in : Nat) (hi : instSet ≠ inst_set_t.anyarch)
    (hg : 0 < self.ncols_ / self.groups_) (hc : block.col_size ≤ self.ncols_ / self.groups_) :
    self.f nextop_ instSet out inp block ld_out ld_in =
      (self.f_ (decide (self.Aq_zero_point_.val = 0))
        (decide ((self.Q_GRAN = QuantizationGranularity.TENSOR ∧
          (self.Bq_zero_point_ 0).val = 0) ∨ self.q_row_offsets_.isNone))
        self.bias_.isSome out inp block ld_out ld_in).map
        (fun o => nextop_ o o block ld_out ld_out) ∧
    (∃ o, self.f_ (decide (self.Aq_zero_point_.val = 0))
        (decide ((self.Q_GRAN = QuantizationGranularity.TENSOR ∧
          (self.Bq_zero_point_ 0).val = 0) ∨ self.q_row_offsets_.isNone))
        self.bias_.isSome out inp block ld_out ld_in = Except.ok o) ∧
    (∀ A B H : Bool,
      self.f_ A B H out inp block ld_out ld_in = Except.error Abort.assertion ↔
        ¬ (A = decide (self.Aq_zero_point_.val = 0) ∧
          B = decide ((self.Q_GRAN = QuantizationGranularity.TENSOR ∧
            (self.Bq_zero_point_ 0).val = 0) ∨ self.q_row_offsets_.isNone) ∧
          H = self.bias_.isSome)) ∧
    (self.q_row_offsets_ = none →
      ∀ (row_offsets : Option (Nat → Int32)) (q i : Nat) (o : Nat → Int),
        ReQuantizeOutput.f_row { self with q_row_offsets_ := row_offsets }
            (decide (self.Aq_zero_point_.val = 0))
            (decide ((self.Q_GRAN = QuantizationGranularity.TENSOR ∧
              (self.Bq_zero_point_ 0).val = 0) ∨ self.q_row_offsets_.isNone))
            self.bias_.isSome inp block ld_out ld_in q i o =
          self.f_row (decide (self.Aq_zero_point_.val = 0))
            (decide ((self.Q_GRAN = QuantizationGranularity.TENSOR ∧
              (self.Bq_zero_point_ 0).val = 0) ∨ self.q_row_offsets_.isNone))
            self.bias_.isSome inp block ld_out ld_in q i o) ∧
    (self.bias_ = none →
      ∀ (bias : Option (Nat → Int32)) (q i : Nat) (o : Nat → Int),
        ReQuantizeOutput.f_row { self with bias_ := bias }
            (decide (self.Aq_zero_point_.val = 0))
            (decide ((self.Q_GRAN = QuantizationGranularity.TENSOR ∧
              (self.Bq_zero_point_ 0).val = 0) ∨ self.q_row_offsets_.isNone))
            self.bias_.isSome inp block ld_out ld_in q i o =
          self.f_row (decide (self.Aq_zero_point_.val = 0))
            (decide ((self.Q_GRAN = QuantizationGranularity.TENSOR ∧
              (self.Bq_zero_point_ 0).val = 0) ∨ self.q_row_offsets_.isNone))
            self.bias_.isSome inp block ld_out ld_in q i o) := by
  have hf : self.flags_ok (decide (self.Aq_zero_point_.val = 0))
      (decide ((self.Q_GRAN = QuantizationGranularity.TENSOR ∧
        (self.Bq_zero_point_ 0).val = 0) ∨ self.q_row_offsets_.isNone))
      self.bias_.isSome := ⟨rfl, rfl, rfl⟩
  have hk := self.f__eq _ _ _ hf out inp block ld_out ld_in (fun _ => hg)
  refine ⟨?_, ⟨_, hk⟩, ?_, ?_, ?_⟩
  · rw [hk, self.f_vec_eq nextop_ instSet hi out inp block ld_out ld_in hg hc]
    rfl
  · intro A B H
    exact self.f__assertion A B H out inp block ld_out ld_in hg
  · intro hnone ro q i o
    have hB : decide ((self.Q_GRAN = QuantizationGranularity.TENSOR ∧
        (self.Bq_zero_point_ 0).val = 0) ∨ self.q_row_offsets_.isNone) = true := by
      rw [hnone]
      simp
    rw [hB, self.f_row_indep_row ro]
  · intro hnone b q i o
    have hH : self.bias_.isSome = false := by
      rw [hnone]
      rfl
    rw [hH, self.f_row_indep_bias b]

theorem C20_variant_dispatch_witness :
    (inst_set_t.avx2 ≠ inst_set_t.anyarch) ∧ (0 < groupStage.ncols_ / groupStage.groups_) ∧
    groupStage.f observe inst_set_t.avx2 (fun _ => 0) scenarioInp ⟨0, 2, 4, 3⟩ 8 3 =
      (groupStage.f_ true false false (fun _ => 0) scenarioInp ⟨0, 2, 4, 3⟩ 8 3).map
        (fun o => observe o o ⟨0, 2, 4, 3⟩ 8 8) :=
  ⟨by decide, by decide,
    (C20_variant_dispatch groupStage observe inst_set_t.avx2 (fun _ => 0) scenarioInp
      ⟨0, 2, 4, 3⟩ 8 3 (by decide) (by decide) (by decide)).1⟩



theorem mem_footprint (ld : Nat) (block : block_type_t) (p : Nat) :
    p ∈ footprint ld block ↔
      ∃ i j, block.row_start ≤ i ∧ i < block.row_start + block.row_size ∧
        block.col_start ≤ j ∧ j < block.col_start + block.col_size ∧ p = i * ld + j := by
  unfold footprint
  simp only [List.mem_flatMap, List.mem_map, List.mem_range'_1]
  constructor
  · rintro ⟨i, ⟨h1, h2⟩, j, ⟨h3, h4⟩, rfl⟩
    exact ⟨i, j, h1, h2, h3, h4, rfl⟩
  · rintro ⟨i, j, h1, h2, h3, h4, rfl⟩
    exact ⟨i, ⟨h1, h2⟩, j, ⟨h3, h4⟩, rfl⟩

theorem nodup_footprint (ld : Nat) (block : block_type_t) (hld : block.col_size ≤ ld) :
    (footprint ld block).Nodup := by
  unfold footprint
  rw [List.nodup_flatMap]
  constructor
  · intro i _
    apply List.Nodup.map_on _ (List.nodup_range' _ _)
    intro a _ b _ hab
    omega
  · apply List.Pairwise.imp _ (List.pairwise_lt_range' block.row_start block.row_size)
    intro a b hab x hxa hxb
    rw [List.mem_map] at hxa hxb
    obtain ⟨j, hj, rfl⟩ := hxa
    obtain ⟨k, hk, hk2⟩ := hxb
    rw [List.mem_range'_1] at hj hk
    have hmul : (a + 1) * ld ≤ b * ld := Nat.mul_le_mul_right _ hab
    rw [Nat.add_mul, Nat.one_mul] at hmul
    omega

/-- The two nested scalar loops of a stage are the fold of the loop body over the
rows and the columns of the block. -/
theorem scalar_loops_fold {α : Type} (body : Nat → Nat → (Nat → α) → (Nat → α))
    (rs rn cs cn : Nat) (out : Nat → α) :
    (forLoop (fun i out => (forLoop (body i) (cs + cn) 1 cn cs out).2) (rs + rn) 1 rn rs out).2 =
      (List.range' rs rn).foldl
        (fun o i => (List.range' cs cn).foldl (fun o j => body i j o) o) out := by
  rw [forLoop_one _ _ _ _ _ (Nat.le_refl _)]
  simp only []
  congr 1
  funext o i
  rw [forLoop_one _ _ _ _ _ (Nat.le_refl _)]

/-- Rounding to the binary32 grid does not pass a grid value `Q * 2^t` that
bounds the argument. -/
theorem roundMag_le_grid {a Q t s : Nat} (h : a < 2 ^ 1024) (hQ : Q < 2 ^ 24)
    (ha : a ≤ Q * 2 ^ t) (hs : s ≤ t) : roundMag a s ≤ Q * 2 ^ (t - s) := by
  have hlt : a < 2 ^ (24 + t) :=
    Nat.lt_of_le_of_lt ha (by rw [pow_add]; exact Nat.mul_lt_mul_of_pos_right hQ (Nat.two_pow_pos t))
  have hsz : Nat.size a ≤ 24 + t := Nat.size_le.2 hlt
  rw [roundMag_eq, bitlen_eq_size h]
  generalize hd : max s (Nat.size a - 24) = d
  have hdt : d ≤ t := by omega
  have hsd : s ≤ d := by omega
  have h1 : rneDiv a d ≤ Q * 2 ^ (t - d) := by
    apply rneDiv_le_of_le
    rw [Nat.mul_assoc, ← pow_add, Nat.sub_add_cancel hdt]
    exact ha
  calc rneDiv a d * 2 ^ (d - s) ≤ Q * 2 ^ (t - d) * 2 ^ (d - s) := Nat.mul_le_mul_right _ h1
    _ = Q * 2 ^ (t - s) := by rw [Nat.mul_assoc, ← pow_add]; congr 2; omega

/-- Magnitude of `lrintf(float(x) * s)` for a finite scale of at most
`(2^24 - 1) * 2^125` units, that is `s <= 0x1.FFFFFEp-1`. -/
theorem lrintf_scaled_mag (x : Int32) (sgn : Bool) (n : Nat) (h : n < 2 ^ 128 * 2 ^ 149)
    (hn : n ≤ (2 ^ 24 - 1) * 2 ^ 125) :
    ∃ (neg : Bool) (R : Nat) (hR : R < 2 ^ 128 * 2 ^ 149),
      F32.mul (F32.ofInt32 x) (F32.fin sgn n h) = F32.fin neg R hR ∧
      rneDiv R 149 ≤ 2147483520 := by
  obtain ⟨h1, e1⟩ := F32.ofInt32_fin x
  generalize hm : x.val.natAbs = m at h1 e1
  have hm31 : m ≤ 2 ^ 31 := by rw [← hm]; exact x.natAbs_le
  have ha1 : m * 2 ^ 149 ≤ 2 ^ (31 + 149) := mul_pow_le hm31
  have hb1 : m * 2 ^ 149 < 2 ^ 1024 :=
    Nat.lt_of_le_of_lt ha1 (Nat.pow_lt_pow_right (by decide) (by decide))
  have hR1 : roundMag (m * 2 ^ 149) 0 ≤ 2 ^ (31 + 149 - 0) := roundMag_le hb1 ha1 (Nat.zero_le _)
  generalize roundMag (m * 2 ^ 149) 0 = M at h1 e1 hR1
  have hprod : M * n ≤ (2 ^ 24 - 1) * 2 ^ 305 := by
    calc M * n ≤ 2 ^ (31 + 149 - 0) * ((2 ^ 24 - 1) * 2 ^ 125) := Nat.mul_le_mul hR1 hn
      _ = (2 ^ 24 - 1) * 2 ^ 305 := by
        rw [Nat.mul_comm, Nat.mul_assoc, ← pow_add]
  have hb2 : M * n < 2 ^ 1024 := pow_bound_mul h1 h
  have hR2 : roundMag (M * n) 149 ≤ (2 ^ 24 - 1) * 2 ^ (305 - 149) :=
    roundMag_le_grid hb2 (by decide) hprod (by decide)
  have hfin : roundMag (M * n) 149 < 2 ^ 128 * 2 ^ 149 :=
    Nat.lt_of_le_of_lt hR2 (by decide)
  refine ⟨xor (decide (x.val < 0)) sgn, roundMag (M * n) 149, hfin, ?_, ?_⟩
  · rw [e1]
    simp only [F32.mul]
    exact F32.ofMag_of_lt _ hfin
  · apply rneDiv_le_of_le
    exact Nat.le_trans hR2 (by decide)

theorem cvtps_fin_val (neg : Bool) (R : Nat) (hR : R < 2 ^ 128 * 2 ^ 149)
    (hr : -2147483648 ≤ F32.units neg (rneDiv R 149) ∧
      F32.units neg (rneDiv R 149) < 2147483648) :
    (cvtps_epi32 (F32.fin neg R hR)).val = F32.units neg (rneDiv R 149) := by
  simp only [cvtps_epi32]
  rw [dif_pos hr]

/-- C21.  No overflow in the float-to-int32 conversion.  For every `int32_t`
accumulator `x` and every binary32 scale `s` with `0 < s <= 0x1.FFFFFEp-1`, the
binary32 product of `float(x)` and `s`, rounded to the nearest integer, lies in
`[INT32_MIN, INT32_MAX]`, so CVTPS2DQ returns the rounded product itself and not
the overflow value.  For `x = INT32_MAX`, `float(x)` is `2^31` and the product
with the largest scale is exactly `2147483520`. -/
theorem C21_no_conversion_overflow :
    (∀ (x : Int32) (s : F32), F32.lt F32.zero s = true → F32.lt F32.maxScale s = false →
      -2147483648 ≤ lrintf (F32.mul (F32.ofInt32 x) s) ∧
      lrintf (F32.mul (F32.ofInt32 x) s) ≤ 2147483647 ∧
      (cvtps_epi32 (F32.mul (F32.ofInt32 x) s)).val = lrintf (F32.mul (F32.ofInt32 x) s)) ∧
    F32.ofInt32 2147483647 = F32.ofNat 2147483648 ∧
    F32.mul (F32.ofInt32 2147483647) F32.maxScale = F32.ofNat 2147483520 ∧
    lrintf (F32.mul (F32.ofInt32 2147483647) F32.maxScale) = 2147483520 ∧
    (cvtps_epi32 (F32.mul (F32.ofInt32 2147483647) F32.maxScale)).val = 2147483520 := by
  refine ⟨?_, by decide, by decide, by decide, by decide⟩
  intro x s h0 h1
  cases s with
  | fin sgn n h =>
    have hs : sgn = false := by
      cases sgn with
      | false => rfl
      | true =>
        simp only [F32.lt, F32.zero, F32.units, if_true, Bool.false_eq_true, if_false,
          decide_eq_true_eq] at h0
        omega
    subst hs
    have hn : n ≤ (2 ^ 24 - 1) * 2 ^ 125 := by
      simp only [F32.lt, F32.maxScale, F32.units, Bool.false_eq_true, if_false,
        decide_eq_false_iff_not] at h1
      omega
    obtain ⟨neg, R, hR, e, hle⟩ := lrintf_scaled_mag x false n h hn
    have hr : -2147483648 ≤ F32.units neg (rneDiv R 149) ∧
        F32.units neg (rneDiv R 149) < 2147483648 := by
      unfold F32.units
      split_ifs <;> omega
    have hr3 : F32.units neg (rneDiv R 149) ≤ 2147483647 := by
      unfold F32.units
      split_ifs <;> omega
    have hr2 : -9223372036854775808 ≤ F32.units neg (rneDiv R 149) ∧
        F32.units neg (rneDiv R 149) < 9223372036854775808 := by omega
    rw [e, lrintf_fin, if_pos hr2, cvtps_fin_val neg R hR hr]
    exact ⟨hr.1, hr3, rfl⟩
  | inf sgn =>
    cases sgn with
    | false => exact absurd h1 (by decide)
    | true => exact absurd h0 (by decide)
  | nan => exact absurd h0 (by decide)

theorem C21_no_conversion_overflow_witness :
    (F32.lt F32.zero F32.half = true) ∧ (F32.lt F32.maxScale F32.half = false) ∧
    (cvtps_epi32 (F32.mul (F32.ofInt32 (Int32.wrap (-2147483648))) F32.half)).val =
      lrintf (F32.mul (F32.ofInt32 (Int32.wrap (-2147483648))) F32.half) :=
  ⟨by decide, by decide,
    (C21_no_conversion_overflow.1 (Int32.wrap (-2147483648)) F32.half (by decide)
      (by decide)).2.2⟩

/-- C22.  Write footprint of requantization.  For a block with
`col_size <= ld_out` (in particular `ld_out >= col_start + col_size`) that passes
the precondition check, the output buffer that `ReQuantizeOutput::f` (generic
path) and `ReQuantizeForFloat::f` hand to the next stage is the fold of the loop
body over the rows and the columns of the block; the body of iteration `(i, j)`
changes no position but `i*ld_out + j`; the positions `i*ld_out + j` of the block
are pairwise distinct, so each one is written by exactly one iteration (under
ReLU fusion the float stage stores the element and then replaces it by its
maximum with `0`, both within that iteration); every block position holds the
value computed for it, every position outside the
footprint keeps its old value, and the outcome depends on the accumulator buffer
only through the block-relative elements `(i-row_start)*ld_in + (j-col_start)`.
The accumulator buffer and the configuration are read-only arguments of the
stage. -/
theorem C22_write_footprint :
    (∀ {ρ : Type} (self : ReQuantizeOutput) (nextop_ : NextOp Int Int ρ) (out : Nat → Int)
      (inp : Nat → Int32) (block : block_type_t) (ld_out ld_in : Nat),
      0 < self.ncols_ / self.groups_ → block.col_size ≤ self.ncols_ / self.groups_ →
      block.col_size ≤ ld_out →
      ∃ out1 : Nat → Int,
        self.f nextop_ inst_set_t.anyarch out inp block ld_out ld_in =
          Except.ok (nextop_ out1 out1 block ld_out ld_out) ∧
        out1 = (List.range' block.row_start block.row_size).foldl
          (fun o i => (List.range' block.col_start block.col_size).foldl
            (fun o j => self.f_anyarch_body inp block ld_out ld_in
              (block.col_start / (self.ncols_ / self.groups_)) i j o) o) out ∧
        (∀ i j, block.row_start ≤ i → i < block.row_start + block.row_size →
          block.col_start ≤ j → j < block.col_start + block.col_size →
          out1 (i * ld_out + j) =
            self.stored inp block ld_in (block.col_start / (self.ncols_ / self.groups_)) i j) ∧
        (∀ p, p ∉ footprint ld_out block → out1 p = out p) ∧
        (∀ inp2 : Nat → Int32,
          (∀ i j, block.row_start ≤ i → i < block.row_start + block.row_size →
            block.col_start ≤ j → j < block.col_start + block.col_size →
            inp2 ((i - block.row_start) * ld_in + (j - block.col_start)) =
              inp ((i - block.row_start) * ld_in + (j - block.col_start))) →
          self.f nextop_ inst_set_t.anyarch out inp2 block ld_out ld_in =
            self.f nextop_ inst_set_t.anyarch out inp block ld_out ld_in)) ∧
    (∀ {ρ : Type} (self : ReQuantizeForFloat) (nextop_ : NextOp F32 F32 ρ)
      (instSet : inst_set_t) (out : Nat → F32) (inp : Nat → Int32) (block : block_type_t)
      (ld_out ld_in : Nat),
      0 < self.ncols_ / self.groups_ → block.col_size ≤ self.ncols_ / self.groups_ →
      block.col_size ≤ ld_out →
      ∃ out1 : Nat → F32,
        self.f nextop_ instSet out inp block ld_out ld_in =
          Except.ok (nextop_ out1 out1 block ld_out ld_out) ∧
        out1 = (List.range' block.row_start block.row_size).foldl
          (fun o i => (List.range' block.col_start block.col_size).foldl
            (fun o j => self.f_body inp block ld_out ld_in
              (block.col_start / (self.ncols_ / self.groups_)) i j o) o) out ∧
        (∀ i j, block.row_start ≤ i → i < block.row_start + block.row_size →
          block.col_start ≤ j → j < block.col_start + block.col_size →
          out1 (i * ld_out + j) =
            self.stored inp block ld_in (block.col_start / (self.ncols_ / self.groups_)) i j) ∧
        (∀ p, p ∉ footprint ld_out block → out1 p = out p) ∧
        (∀ inp2 : Nat → Int32,
          (∀ i j, block.row_start ≤ i → i < block.row_start + block.row_size →
            block.col_start ≤ j → j < block.col_start + block.col_size →
            inp2 ((i - block.row_start) * ld_in + (j - block.col_start)) =
              inp ((i - block.row_start) * ld_in + (j - block.col_start))) →
          self.f nextop_ instSet out inp2 block ld_out ld_in =
            self.f nextop_ instSet out inp block ld_out ld_in)) ∧
    (∀ (self : ReQuantizeOutput) (inp : Nat → Int32) (block : block_type_t)
      (ld_out ld_in g i j p : Nat) (o : Nat → Int),
      p ≠ i * ld_out + j → self.f_anyarch_body inp block ld_out ld_in g i j o p = o p) ∧
    (∀ (self : ReQuantizeForFloat) (inp : Nat → Int32) (block : block_type_t)
      (ld_out ld_in g i j p : Nat) (o : Nat → F32),
      p ≠ i * ld_out + j → self.f_body inp block ld_out ld_in g i j o p = o p) ∧
    (∀ (ld : Nat) (block : block_type_t), block.col_size ≤ ld →
      (footprint ld block).Nodup ∧
      ∀ p, p ∈ footprint ld block ↔
        ∃ i j, block.row_start ≤ i ∧ i < block.row_start + block.row_size ∧
          block.col_start ≤ j ∧ j < block.col_start + block.col_size ∧ p = i * ld + j) := by
  refine ⟨?_, ?_, ?_, ?_, ?_⟩
  · intro ρ self nextop_ out inp block ld_out ld_in hg hc hld
    have h0 : self.groups_ ≠ 0 := groups_ne_zero hg
    have h1 : self.ncols_ / self.groups_ ≠ 0 := Nat.pos_iff_ne_zero.1 hg
    have hfold := scalar_loops_fold (fun i j o => self.f_anyarch_body inp block ld_out ld_in
      (block.col_start / (self.ncols_ / self.groups_)) i j o)
      block.row_start block.row_size block.col_start block.col_size out
    have hbw := scalar_loops_eq (fun i j o => self.f_anyarch_body inp block ld_out ld_in
        (block.col_start / (self.ncols_ / self.groups_)) i j o)
      (self.stored inp block ld_in (block.col_start / (self.ncols_ / self.groups_)))
      ld_out block.row_start block.row_size block.col_start block.col_size
      (fun i j o => self.f_anyarch_body_eq inp block ld_out ld_in _ i j o) out
    refine ⟨_, ?_, rfl, ?_, ?_, ?_⟩
    · rw [← hfold]
      unfold ReQuantizeOutput.f
      simp only [h0, h1, hc, if_false, not_true_eq_false]
    · intro i j hi1 hi2 hj1 hj2
      rw [← hfold, hbw]
      exact blockWrite_elem _ _ hld hi1 hi2 hj1 hj2
    · intro p hp
      rw [← hfold, hbw]
      apply blockWrite_frame _ _ hld
      intro i hi1 hi2 hcon
      apply hp
      rw [mem_footprint]
      exact ⟨i, p - i * ld_out, hi1, hi2, by omega, by omega, by omega⟩
    · intro inp2 hinp
      rw [self.f_anyarch_eq nextop_ out inp2 block ld_out ld_in hg hc,
        self.f_anyarch_eq nextop_ out inp block ld_out ld_in hg hc]
      have hb : blockWrite ld_out block.row_start block.row_size block.col_start block.col_size
          (self.stored inp2 block ld_in (block.col_start / (self.ncols_ / self.groups_))) out =
          blockWrite ld_out block.row_start block.row_size block.col_start block.col_size
          (self.stored inp block ld_in (block.col_start / (self.ncols_ / self.groups_))) out := by
        apply blockWrite_congr
        intro i j hi1 hi2 hj1 hj2
        unfold ReQuantizeOutput.stored ReQuantizeOutput.corrected
        rw [hinp i j hi1 hi2 hj1 hj2]
      rw [hb]
  · intro ρ self nextop_ instSet out inp block ld_out ld_in hg hc hld
    have h0 : self.groups_ ≠ 0 := groups_ne_zero hg
    have h1 : self.ncols_ / self.groups_ ≠ 0 := Nat.pos_iff_ne_zero.1 hg
    have hfold := scalar_loops_fold (fun i j o => self.f_body inp block ld_out ld_in
      (block.col_start / (self.ncols_ / self.groups_)) i j o)
      block.row_start block.row_size block.col_start block.col_size out
    have hbw := scalar_loops_eq_of_mem (fun i j o => self.f_body inp block ld_out ld_in
        (block.col_start / (self.ncols_ / self.groups_)) i j o)
      (self.stored inp block ld_in (block.col_start / (self.ncols_ / self.groups_)))
      ld_out block.row_start block.row_size block.col_start block.col_size
      (fun i j o _ hj => self.f_body_eq inp block ld_out ld_in _ i j o hj) out
    refine ⟨_, ?_, rfl, ?_, ?_, ?_⟩
    · rw [← hfold]
      unfold ReQuantizeForFloat.f
      simp only [h0, h1, hc, if_false, not_true_eq_false]
    · intro i j hi1 hi2 hj1 hj2
      rw [← hfold, hbw]
      exact blockWrite_elem _ _ hld hi1 hi2 hj1 hj2
    · intro p hp
      rw [← hfold, hbw]
      apply blockWrite_frame _ _ hld
      intro i hi1 hi2 hcon
      apply hp
      rw [mem_footprint]
      exact ⟨i, p - i * ld_out, hi1, hi2, by omega, by omega, by omega⟩
    · intro inp2 hinp
      rw [self.f_eq nextop_ instSet out inp2 block ld_out ld_in hg hc,
        self.f_eq nextop_ instSet out inp block ld_out ld_in hg hc]
      have hb : blockWrite ld_out block.row_start block.row_size block.col_start block.col_size
          (self.stored inp2 block ld_in (block.col_start / (self.ncols_ / self.groups_))) out =
          blockWrite ld_out block.row_start block.row_size block.col_start block.col_size
          (self.stored inp block ld_in (block.col_start / (self.ncols_ / self.groups_))) out := by
        apply blockWrite_congr
        intro i j hi1 hi2 hj1 hj2
        unfold ReQuantizeForFloat.stored ReQuantizeForFloat.scaled ReQuantizeForFloat.corrected
        rw [hinp i j hi1 hi2 hj1 hj2]
      rw [hb]
  · intro self inp block ld_out ld_in g i j p o hp
    rw [self.f_anyarch_body_eq, Function.update_noteq hp]
  · intro self inp block ld_out ld_in g i j p o hp
    unfold ReQuantizeForFloat.f_body
    by_cases hr : self.FUSE_RELU = true
    · simp only [hr, if_true]
      rw [Function.update_noteq hp, Function.update_noteq hp]
    · simp only [hr, if_false, Bool.false_eq_true]
      rw [Function.update_noteq hp]
  · intro ld block hld
    exact ⟨nodup_footprint ld block hld, mem_footprint ld block⟩

theorem C22_write_footprint_witness :
    (0 < floatGroupStage.ncols_ / floatGroupStage.groups_) ∧
    ∃ out1 : Nat → F32,
      floatGroupStage.f observe inst_set_t.anyarch (fun _ => F32.nan) scenarioInp ⟨0, 2, 4, 3⟩
        8 3 = Except.ok out1 ∧ out1 7 = F32.nan := by
  refine ⟨by decide, ?_⟩
  obtain ⟨out1, h1, _, _, h4, _⟩ := C22_write_footprint.2.1 floatGroupStage observe
    inst_set_t.anyarch (fun _ => F32.nan) scenarioInp ⟨0, 2, 4, 3⟩ 8 3 (by decide) (by decide)
    (by decide)
  exact ⟨out1, h1, h4 7 (by decide)⟩

end Fbgemm
